import Mathlib

/-!
# Battleships game server (`server/game/main.go`)

A shallow embedding of the session registry, `setUpGame`, `handleMove` and
`gameOver`, followed by the properties proved about them.

Conventions of the embedding:

* the Go map `connectedUsers : map[int]*connectedUser` is an association list;
  a key stands for the pointer stored under it, so a write through `user` or
  `opponent` is a `modify` of the entry under that key and a later read through
  the same pointer is a `find`;
* `for key := range connectedUsers` visits the keys in list order; Go leaves
  that order unspecified, so statements quantify over all registries;
* a run ends either normally or in a Go run-time panic (index out of range,
  nil dereference); the registry and the messages written up to that point are
  kept in both cases;
* a `*websocket.Conn` is an opaque handle and `WriteMessage` appends to a log.
-/

namespace Battleships

/-! ## Go library functions used by the program -/

/-- `strings.Split(s, sep)` for a separator of one character (the program only
splits on `";"` and `","`). The result always has at least one element. -/
def Split : List Char → Char → List (List Char)
  | [], _ => [[]]
  | c :: cs, sep =>
    if c = sep then [] :: Split cs sep
    else
      match Split cs sep with
      | [] => [[c]]
      | t :: ts => (c :: t) :: ts

/-- Value of a run of decimal digits. -/
def digitsValue (ds : List Char) : Nat :=
  ds.foldl (fun n c => n * 10 + (c.toNat - 48)) 0

/-- Outcome of the digit loop of `strconv.ParseUint(s, 10, 64)`: the number
read, a range error (the loop stops at the first digit that takes the number
past `2^64 - 1` and returns `maxVal`), or a syntax error (a byte that is not a
decimal digit). -/
inductive UintResult where
  | value (n : Nat)
  | rangeErr
  | badByte
deriving DecidableEq, Repr

/-- The digit loop of `strconv.ParseUint` in base 10 with 64 bits, from the left,
`n` being the number read so far. For each byte: a byte that is not a digit
returns the syntax error; then `n >= cutoff` (`cutoff = maxUint64/10 + 1`) or
`n*10 + d` past `maxUint64` returns the range error at once, whatever bytes
follow. -/
def parseUintLoop : List Char → Nat → UintResult
  | [], n => .value n
  | c :: cs, n =>
    if c.isDigit = true then
      if n ≥ (2 ^ 64 - 1) / 10 + 1 then .rangeErr
      else if n * 10 + (c.toNat - 48) > 2 ^ 64 - 1 then .rangeErr
      else parseUintLoop cs (n * 10 + (c.toNat - 48))
    else .badByte

/-- `strconv.ParseInt(s, 10, 0)` on a 64-bit platform, error result dropped.
The sign is picked off and the rest goes to `ParseUint`: a syntax error (also
for an empty rest) gives 0; a range error carries `un = maxUint64` on to the
range test, so it gives `MaxInt64`, or `MinInt64` after a `-`; a number read
is clamped to the `int64` range the same way. -/
def ParseInt (s : List Char) : Int :=
  match s with
  | [] => 0
  | c :: cs =>
    let body := if c = '+' ∨ c = '-' then cs else c :: cs
    if body = [] then 0
    else
      match parseUintLoop body 0 with
      | .badByte => 0
      | .rangeErr => if c = '-' then -(2 ^ 63 : Int) else (2 ^ 63 : Int) - 1
      | .value un =>
        if c = '-' then (if un > 2 ^ 63 then -(2 ^ 63 : Int) else -(un : Int))
        else (if un ≥ 2 ^ 63 then (2 ^ 63 : Int) - 1 else (un : Int))

/-- The loop of the fast path of `strconv.Atoi`: `n = n*10 + int(ch)` over the
bytes, `none` (the syntax error) at a byte that is not a decimal digit. -/
def atoiFastLoop : List Char → Nat → Option Nat
  | [], n => some n
  | c :: cs, n =>
    if c.isDigit = true then atoiFastLoop cs (n * 10 + (c.toNat - 48)) else none

/-- `strconv.Atoi(s)` on a 64-bit platform with the error result dropped, as
every call site does (`x, _ := strconv.Atoi(...)`). A text of 1 to 18 bytes
takes the fast path (sign picked off, digits added up, 0 on a syntax error);
every other text goes to `ParseInt(s, 10, 0)`. So a text with a syntax error
gives 0 unless its digits overflow `uint64` before the offending byte, in which
case it gives `MaxInt64` or `MinInt64`. The length is counted in characters;
the path taken does not change the result (`Atoi_eq_ParseInt`). -/
def Atoi (s : List Char) : Int :=
  if 0 < s.length ∧ s.length < 19 then
    match s with
    | [] => 0
    | c :: cs =>
      let body := if c = '-' ∨ c = '+' then cs else c :: cs
      if body.length < 1 then 0
      else
        match atoiFastLoop body 0 with
        | none => 0
        | some n => if c = '-' then -(n : Int) else (n : Int)
  else ParseInt s

/-- `strconv.Itoa(i)`: decimal text, with a leading `-` for negatives. -/
def Itoa (i : Int) : String :=
  if i < 0 then "-" ++ Nat.repr i.natAbs else Nat.repr i.natAbs

/-! ## Data model -/

/-- A `[][]bool` board. -/
abbrev Board := List (List Bool)

/-- Handle of a `*websocket.Conn`. -/
abbrev Conn := Nat

/-- The `connectedUser` struct. -/
structure connectedUser where
  connection : Conn
  opponentID : Int
  gameID : String
  pieceLocations : Board
  guessLocations : Board
  turn : Bool
deriving DecidableEq, Repr

/-- The map `connectedUsers`. -/
abbrev Registry := List (Int × connectedUser)

/-- `connectedUsers[k]`, `none` for the nil pointer of an absent key. -/
def find (connectedUsers : Registry) (k : Int) : Option connectedUser :=
  match connectedUsers with
  | [] => none
  | e :: rest => if e.1 = k then some e.2 else find rest k

/-- A write through the pointer stored under key `k`. -/
def modify (connectedUsers : Registry) (k : Int) (f : connectedUser → connectedUser) :
    Registry :=
  connectedUsers.map (fun e => if e.1 = k then (e.1, f e.2) else e)

/-- The assignment `connectedUsers[k] = u`. -/
def store (connectedUsers : Registry) (k : Int) (u : connectedUser) : Registry :=
  match find connectedUsers k with
  | some _ => modify connectedUsers k (fun _ => u)
  | none => connectedUsers ++ [(k, u)]

/-- The call `delete(connectedUsers, k)`. -/
def delete (connectedUsers : Registry) (k : Int) : Registry :=
  connectedUsers.filter (fun e => decide (e.1 ≠ k))

/-- The keys of the map. -/
def keys (connectedUsers : Registry) : List Int :=
  connectedUsers.map Prod.fst

/-- What a call leaves behind: the registry, the messages written (in order,
each with the connection it was written to) and whether the call ended in a
run-time panic. -/
structure Run where
  users : Registry
  sent : List (Conn × String)
  panicked : Bool
deriving DecidableEq, Repr

/-- The read `b[x][y]`; `none` is an index-out-of-range panic. -/
def Board.index (b : Board) (x y : Int) : Option Bool :=
  if 0 ≤ x ∧ 0 ≤ y then
    match b[x.toNat]? with
    | none => none
    | some row => row[y.toNat]?
  else none

/-- The assignment `b[x][y] = true`; `none` is an index-out-of-range panic,
which happens before anything is written. -/
def Board.assign (b : Board) (x y : Int) : Option Board :=
  if 0 ≤ x ∧ 0 ≤ y then
    match b[x.toNat]? with
    | none => none
    | some row =>
      if y.toNat < row.length then some (b.set x.toNat (row.set y.toNat true)) else none
  else none

/-- The board `b` with cell `(i, j)` set to true. -/
def Board.mark (b : Board) (i j : Nat) : Board := b.set i ((b.getD i []).set j true)

/-- The board built by `make([][]bool, 10)` with ten `make([]bool, 10)` rows. -/
def emptyBoard : Board := List.replicate 10 (List.replicate 10 false)

/-- A board of ten rows of ten cells. -/
def TenByTen (b : Board) : Prop := b.length = 10 ∧ ∀ row ∈ b, row.length = 10

instance (b : Board) : Decidable (TenByTen b) := by
  unfold TenByTen; infer_instance

/-! ## `gameOver` -/

/-- The inner loop of `gameOver` over the rest of row `i` of `guessLocations`,
from column `j` on. `pieceRow` is `pieceLocations[i]` when that index exists.
The right operand of `&&` is only evaluated when the guess cell is true. -/
def gameOverRow (pieceRow : Option (List Bool)) : List Bool → Nat → Nat → Option Nat
  | [], _, hitCount => some hitCount
  | g :: gs, j, hitCount =>
    if g = true then
      match pieceRow with
      | none => none
      | some pr =>
        match pr[j]? with
        | none => none
        | some p => gameOverRow pieceRow gs (j + 1) (if p = true then hitCount + 1 else hitCount)
    else gameOverRow pieceRow gs (j + 1) hitCount

/-- The outer loop of `gameOver` over the rest of the rows of `guessLocations`,
from row `i` on. -/
def gameOverRows (pieceLocations : Board) : Board → Nat → Nat → Option Nat
  | [], _, hitCount => some hitCount
  | row :: rows, i, hitCount =>
    match gameOverRow pieceLocations[i]? row 0 hitCount with
    | none => none
    | some h => gameOverRows pieceLocations rows (i + 1) h

/-- The function `gameOver`; `none` is an index-out-of-range panic. -/
def gameOver (guessLocations pieceLocations : Board) : Option Bool :=
  match gameOverRows pieceLocations guessLocations 0 0 with
  | none => none
  | some hitCount => some (decide (hitCount = 17))

/-- Cell `(i, j)` of a board, false outside it. -/
def cellAt (b : Board) (i j : Nat) : Bool := (b.getD i []).getD j false

/-- The number of cells `(i, j)`, `0 ≤ i, j ≤ 9`, true in both boards. -/
def bothCount (guessLocations pieceLocations : Board) : Nat :=
  ((List.range 10).map (fun i =>
    (List.range 10).countP (fun j => cellAt guessLocations i j && cellAt pieceLocations i j))).sum

/-! ## `handleMove` -/

/-- The local variables of `handleMove` that are still read from line 143 on,
together with the run so far. -/
structure MoveState where
  run : Run
  opponentID : Int
  gameOver : Bool
deriving DecidableEq, Repr

/-- Lines 120 and 121 of `handleMove`: the two coordinates; `none` is the
index-out-of-range panic of line 121 when the frame has no comma. -/
def moveCoords (message : String) : Option (Int × Int) :=
  let tokens := Split message.data ','
  match tokens[1]? with
  | none => none
  | some ty => some (Atoi (tokens.headD []), Atoi ty)

/-- Lines 120 to 142 of `handleMove`: parse the frame, record the guess, hand
over the turn, compute hit or miss and `gameOver`, write both result frames.
`Except.error` carries the run up to a run-time panic:
line 121 when the frame has no second token, line 124 when `user` is nil,
line 126 when the target is outside the guess board, line 128 when `opponent`
is nil, lines 131 and 134 when the opponent's piece board is too small. -/
def handleMoveBody (message : String) (userID : Int) (connectedUsers : Registry) :
    Except Run MoveState :=
  match moveCoords message with
  | none => .error ⟨connectedUsers, [], true⟩
  | some (x, y) =>
    match find connectedUsers userID with
    | none => .error ⟨connectedUsers, [], true⟩
    | some user =>
      let opponentID := user.opponentID
      match user.guessLocations.assign x y with
      | none => .error ⟨connectedUsers, [], true⟩
      | some guess =>
        let users1 := modify connectedUsers userID (fun u => { u with guessLocations := guess })
        let users2 := modify users1 userID (fun u => { u with turn := false })
        match find users2 opponentID with
        | none => .error ⟨users2, [], true⟩
        | some _ =>
          let users3 := modify users2 opponentID (fun u => { u with turn := true })
          match find users3 userID, find users3 opponentID with
          | some user, some opponent =>
            match user.guessLocations.index x y with
            | none => .error ⟨users3, [], true⟩
            | some g =>
              match (if g = true then opponent.pieceLocations.index x y else some false) with
              | none => .error ⟨users3, [], true⟩
              | some isHit =>
                let hitOrMiss := if isHit = true then "hit" else "miss"
                match gameOver user.guessLocations opponent.pieceLocations with
                | none => .error ⟨users3, [], true⟩
                | some over =>
                  let userMessage := Itoa x ++ "," ++ Itoa y ++ ";" ++ hitOrMiss
                  let opponentMessage := Itoa x ++ "," ++ Itoa y ++ ";" ++ hitOrMiss
                  let userMessage := if over = true then userMessage ++ ";win" else userMessage
                  let opponentMessage :=
                    if over = true then opponentMessage ++ ";loss" else opponentMessage
                  .ok ⟨⟨users3, [(user.connection, userMessage),
                    (opponent.connection, opponentMessage)], false⟩, opponentID, over⟩
          | _, _ => .error ⟨users3, [], true⟩

/-- The function `handleMove`: lines 120 to 142, then the eviction of both
entries when the move ended the game (lines 143 to 146). -/
def handleMove (message : String) (userID : Int) (connectedUsers : Registry) : Run :=
  match handleMoveBody message userID connectedUsers with
  | .error r => r
  | .ok s =>
    if s.gameOver = true then
      { s.run with users := delete (delete s.run.users userID) s.opponentID }
    else s.run

/-! ## `setUpGame` -/

/-- One iteration of the loop of lines 97 to 104, for map key `key`: the first
component is the struct behind `user`, not yet in the map. Nothing in the loop
tests whether the entry under `key` already has an opponent. -/
def linkStep (userID : Int) (st : connectedUser × Registry) (key : Int) :
    connectedUser × Registry :=
  match find st.2 key with
  | none => st
  | some e =>
    if e.gameID = st.1.gameID then
      ({ st.1 with opponentID := key },
        modify st.2 key (fun o => { o with opponentID := userID, turn := true }))
    else st

/-- One iteration of the loop of lines 107 to 111 at index `i`; the flag is set
once an iteration has panicked (a token index or a board index out of range). -/
def placeStep (pieceLocations : List (List Char)) (st : Board × Bool) (i : Nat) :
    Board × Bool :=
  if st.2 = true then st
  else
    match pieceLocations[i]? with
    | none => (st.1, true)
    | some tx =>
      match pieceLocations[i + 1]? with
      | none => (st.1, true)
      | some ty =>
        match st.1.assign (Atoi tx) (Atoi ty) with
        | none => (st.1, true)
        | some b => (b, false)

/-- The function `setUpGame`. Line 93 panics when the frame has no `;`, before
the registry is touched; the placement loop (`i = 0, 2, ..., 32`) runs after the
new entry has been linked and stored, so a panic there leaves both in place. -/
def setUpGame (message : String) (userID : Int) (conn : Conn) (connectedUsers : Registry) :
    Run :=
  let parts := Split message.data ';'
  let user : connectedUser :=
    { connection := conn, opponentID := -1, gameID := String.mk (parts.headD []),
      pieceLocations := emptyBoard, guessLocations := emptyBoard, turn := false }
  match parts[1]? with
  | none => ⟨connectedUsers, [], true⟩
  | some coords =>
    let pieceLocations := Split coords ','
    let linked := (keys connectedUsers).foldl (linkStep userID) (user, connectedUsers)
    let users1 := store linked.2 userID linked.1
    let placed :=
      (List.range' 0 17 2).foldl (placeStep pieceLocations) (linked.1.pieceLocations, false)
    let users2 := modify users1 userID (fun u => { u with pieceLocations := placed.1 })
    if placed.2 = true then ⟨users2, [], true⟩
    else if linked.1.opponentID ≠ -1 then
      match find users2 linked.1.opponentID with
      | none => ⟨users2, [(conn, "opponent's turn")], true⟩
      | some opponent =>
        ⟨users2, [(conn, "opponent's turn"), (opponent.connection, "your turn")], false⟩
    else ⟨users2, [], false⟩

/-- The dispatch in the receive loop of `playHandler` (lines 62 to 66). -/
def playHandlerStep (message : String) (userID : Int) (conn : Conn)
    (connectedUsers : Registry) : Run :=
  match find connectedUsers userID with
  | none => setUpGame message userID conn connectedUsers
  | some _ => handleMove message userID connectedUsers

/-! ## Frames of the wire protocol -/

/-- The move frame `x,y`. -/
def moveFrame (x y : Nat) : String := Itoa x ++ "," ++ Itoa y

/-- The texts joined with commas. -/
def joinComma : List String → String
  | [] => ""
  | [t] => t
  | t :: u :: rest => t ++ "," ++ joinComma (u :: rest)

/-- The setup frame `gameId;c0,c1,...`. -/
def setupFrame (gameId : String) (coords : List Nat) : String :=
  gameId ++ ";" ++ joinComma (coords.map (fun (c : Nat) => Itoa (c : Int)))

/-- A board with seventeen occupied cells, used as a concrete instance. -/
def seventeenBoard : Board :=
  [[true, true, true, true, true, false, false, false, false, false],
   [true, true, true, true, false, false, false, false, false, false],
   [true, true, true, false, false, false, false, false, false, false],
   [true, true, true, false, false, false, false, false, false, false],
   [true, true, false, false, false, false, false, false, false, false],
   [false, false, false, false, false, false, false, false, false, false],
   [false, false, false, false, false, false, false, false, false, false],
   [false, false, false, false, false, false, false, false, false, false],
   [false, false, false, false, false, false, false, false, false, false],
   [false, false, false, false, false, false, false, false, false, false]]

/-- Seventeen coordinate pairs, the cells of `seventeenBoard`. -/
def sampleCoords : List Nat :=
  [0, 0, 0, 1, 0, 2, 0, 3, 0, 4, 1, 0, 1, 1, 1, 2, 1, 3, 2, 0, 2, 1, 2, 2, 3, 0, 3, 1, 3, 2,
    4, 0, 4, 1]

/-- The entry of identity 1 once identity 2 has joined game `g1`. -/
def firstPlayer : connectedUser :=
  { connection := 100, opponentID := 2, gameID := "g1", pieceLocations := seventeenBoard,
    guessLocations := emptyBoard, turn := true }

/-- The entry of identity 2 after joining game `g1`. -/
def secondPlayer : connectedUser :=
  { connection := 200, opponentID := 1, gameID := "g1", pieceLocations := seventeenBoard,
    guessLocations := emptyBoard, turn := false }

/-- The registry after identities 1 and 2 have set up game `g1`. -/
def pairedUsers : Registry := [(1, firstPlayer), (2, secondPlayer)]

/-- The entry of identity 1 after its setup for game `g1`, before anyone joins. -/
def waitingPlayer : connectedUser :=
  { connection := 100, opponentID := -1, gameID := "g1", pieceLocations := seventeenBoard,
    guessLocations := emptyBoard, turn := false }

/-- The registry after identity 1 alone has set up game `g1`. -/
def waitingUsers : Registry := [(1, waitingPlayer)]

/-- The same registry with the waiting entry under identity -1, an identity
`playHandler` accepts like any other integer. -/
def minusOneUsers : Registry := [(-1, waitingPlayer)]

/-- The board on which the cells `(coords[i], coords[i+1])`, `i = 0, 2, ..., 32`,
of an empty board have been set. -/
def placeAll (coords : List Nat) : Board :=
  (List.range' 0 17 2).foldl
    (fun b i => b.mark (coords.getD i 0) (coords.getD (i + 1) 0)) emptyBoard

/-! ## Reachable registries -/

/-- The pairing property of a registry: every entry whose `opponentID` is not
-1 has its opponent present, the opponent points back to it, both have the same
`gameID`, and exactly one of the two has `turn = true`. -/
def PairingInvariant (reg : Registry) : Prop :=
  ∀ k u, find reg k = some u → u.opponentID ≠ -1 →
    ∃ o, find reg u.opponentID = some o ∧ o.opponentID = k ∧ o.gameID = u.gameID ∧
      ((u.turn = true ∧ o.turn = false) ∨ (u.turn = false ∧ o.turn = true))

/-- The proviso on a setup: among the existing entries at most one has the
frame's game identifier, and that entry is unpaired. -/
def SetupGuard (message : String) (reg : Registry) : Prop :=
  (∀ k e, find reg k = some e →
    e.gameID = String.mk ((Split message.data ';').headD []) → e.opponentID = -1) ∧
  (∀ k k' e e', find reg k = some e → find reg k' = some e' →
    e.gameID = String.mk ((Split message.data ';').headD []) →
    e'.gameID = String.mk ((Split message.data ';').headD []) → k = k')

/-- The registries reachable from the empty one. A step is one round of the
receive loop of `playHandler` for a non-negative identity (`setUpGame` when the
identity has no entry, `handleMove` otherwise), whether the call returns or
panics; a setup must satisfy the proviso. Since the iteration order of a Go map
is unspecified, a registry may also be reordered. -/
inductive Reachable : Registry → Prop
  | empty : Reachable []
  | step {reg : Registry} (message : String) (userID : Int) (conn : Conn) :
      Reachable reg → 0 ≤ userID →
      (find reg userID = none → SetupGuard message reg) →
      Reachable (playHandlerStep message userID conn reg).users
  | reorder {reg reg' : Registry} : Reachable reg → reg.Perm reg' → Reachable reg'

/-! ## Frames with arbitrary integers or arbitrary tokens -/

/-- The move frame `x,y` for any two integers, written the way `strconv.Itoa`
writes them. -/
def intFrame (x y : Int) : String := Itoa x ++ "," ++ Itoa y

/-- What `strconv.Atoi` reads back from the decimal text of `x`: `x` itself
inside the 64-bit `int` range, the nearest bound outside it. -/
def clampInt (x : Int) : Int :=
  if x < -(2 ^ 63 : Int) then -(2 ^ 63 : Int)
  else if x ≥ (2 ^ 63 : Int) then (2 ^ 63 : Int) - 1 else x

/-- Whether a token is integer text for `strconv.Atoi`: an optional sign and
at least one decimal digit. -/
def isIntegerText (s : List Char) : Bool :=
  match s with
  | [] => false
  | c :: cs =>
    let body := if c = '+' ∨ c = '-' then cs else c :: cs
    decide (body ≠ []) && body.all Char.isDigit

/-- Tokens joined with commas. -/
def joinTokens : List (List Char) → List Char
  | [] => []
  | [t] => t
  | t :: u :: rest => t ++ ',' :: joinTokens (u :: rest)

/-- The setup frame `gameId;t0,t1,...` for arbitrary tokens. -/
def tokenFrame (gameId : String) (tokens : List (List Char)) : String :=
  String.mk (gameId.data ++ ';' :: joinTokens tokens)

/-- The number of true cells of a board, over the 10x10 grid. -/
def occupiedCount (b : Board) : Nat :=
  ((List.range 10).map (fun i => (List.range 10).countP (fun j => cellAt b i j))).sum

/-- The seventeen coordinate pairs `(coords[i], coords[i+1])`, `i = 0, 2, ..., 32`. -/
def coordPairs (coords : List Nat) : List (Nat × Nat) :=
  (List.range' 0 17 2).map (fun i => (coords.getD i 0, coords.getD (i + 1) 0))

/-- The tokens of the coordinates of `sampleCoords`, followed by one more. -/
def thirtyFiveTokens : List (List Char) :=
  sampleCoords.map (fun c => [Nat.digitChar c]) ++ ["7".data]

/-- Thirty-four tokens, the first of which is not an integer. -/
def tokensWithWord : List (List Char) :=
  "abc".data :: (sampleCoords.drop 1).map (fun c => [Nat.digitChar c])

/-- Thirty-four tokens, the first of which has twenty digits, overflowing
`uint64`, before a letter. -/
def tokensWithOverflow : List (List Char) :=
  "99999999999999999999x".data :: (sampleCoords.drop 1).map (fun c => [Nat.digitChar c])

/-- The registries reachable from the empty one by rounds of the receive loop
of `playHandler` (`setUpGame` when the identity has no entry, `handleMove`
otherwise), for any identity and any frame, with no proviso on the setups,
whether the call returns or panics; a registry may also be reordered. -/
inductive ReachableAny : Registry → Prop
  | empty : ReachableAny []
  | step {reg : Registry} (message : String) (userID : Int) (conn : Conn) :
      ReachableAny reg → ReachableAny (playHandlerStep message userID conn reg).users
  | reorder {reg reg' : Registry} : ReachableAny reg → reg.Perm reg' → ReachableAny reg'

/-! ## The win test -/

theorem gameOverRow_eq (pr : List Bool) :
    ∀ (gs : List Bool) (j h : Nat), j + gs.length ≤ pr.length →
      gameOverRow (some pr) gs j h =
        some (h + (List.range gs.length).countP
          (fun k => gs.getD k false && pr.getD (j + k) false)) := by
  intro gs
  induction gs with
  | nil => intro j h _; simp [gameOverRow]
  | cons g gs ih =>
    intro j h hlen
    simp only [List.length_cons] at hlen
    have hj : j < pr.length := by omega
    simp only [List.length_cons, List.range_succ_eq_map, List.countP_cons, List.countP_map,
      List.getD_cons_zero, Nat.add_zero]
    have hfun : ((fun k => (g :: gs).getD k false && pr.getD (j + k) false) ∘ Nat.succ)
        = (fun k => gs.getD k false && pr.getD (j + 1 + k) false) := by
      funext k
      simp only [Function.comp, List.getD_cons_succ, Nat.succ_eq_add_one]
      congr 2; omega
    rw [hfun]
    have hget : pr[j]? = some pr[j] := List.getElem?_eq_getElem hj
    have hgetD : pr.getD j false = pr[j] := by
      simp [List.getD_eq_getElem?_getD, hget]
    cases g <;> cases hp : pr[j] <;>
      simp [gameOverRow, hget, hgetD, hp, ih (j + 1) _ (by omega : j + 1 + gs.length ≤ pr.length)]
    omega


theorem sum_map_range_succ (f : Nat → Nat) (n : Nat) :
    ((List.range (n + 1)).map f).sum = f 0 + ((List.range n).map (f ∘ Nat.succ)).sum := by
  rw [List.range_succ_eq_map, List.map_cons, List.sum_cons, List.map_map]

theorem gameOverRows_eq (piece : Board) (hp : ∀ r ∈ piece, r.length = 10) :
    ∀ (rows : Board) (i h : Nat), i + rows.length ≤ piece.length →
      (∀ r ∈ rows, r.length = 10) →
      gameOverRows piece rows i h =
        some (h + ((List.range rows.length).map (fun r =>
          (List.range 10).countP (fun j => cellAt rows r j && cellAt piece (i + r) j))).sum) := by
  intro rows
  induction rows with
  | nil => intro i h _ _; simp [gameOverRows]
  | cons row rows ih =>
    intro i h hlen hrows
    simp only [List.length_cons] at hlen
    have hi : i < piece.length := by omega
    have hget : piece[i]? = some piece[i] := List.getElem?_eq_getElem hi
    have hpi : piece[i].length = 10 := hp _ (List.getElem_mem hi)
    have hrow : row.length = 10 := hrows row (List.mem_cons_self _ _)
    have hrest : ∀ r ∈ rows, r.length = 10 := fun r hr => hrows r (List.mem_cons_of_mem _ hr)
    have hinner := gameOverRow_eq piece[i] row 0 h (by omega)
    have hfun : ((fun r => (List.range 10).countP
          (fun j => cellAt (row :: rows) r j && cellAt piece (i + r) j)) ∘ Nat.succ)
        = (fun r => (List.range 10).countP
          (fun j => cellAt rows r j && cellAt piece (i + 1 + r) j)) := by
      funext r
      simp only [Function.comp, cellAt, List.getD_cons_succ, Nat.succ_eq_add_one]
      have : i + (r + 1) = i + 1 + r := by omega
      rw [this]
    have hD : piece.getD i [] = piece[i] := by
      simp [List.getD_eq_getElem?_getD, hget]
    rw [List.length_cons, sum_map_range_succ, hfun]
    simp only [gameOverRows, hget, hinner, ih (i + 1) _ (by omega) hrest, hrow]
    simp only [cellAt, List.getD_cons_zero, Nat.add_zero, Nat.zero_add, hD]
    rw [Nat.add_assoc]

theorem gameOver_eq (guessLocations pieceLocations : Board)
    (hg : TenByTen guessLocations) (hp : TenByTen pieceLocations) :
    gameOver guessLocations pieceLocations =
      some (decide (bothCount guessLocations pieceLocations = 17)) := by
  have h := gameOverRows_eq pieceLocations hp.2 guessLocations 0 0
    (by rw [hg.1, hp.1]) hg.2
  simp only [gameOver, h, hg.1, Nat.zero_add, bothCount]

/-- C2: for 10x10 boards `gameOver` returns (it does not panic), it returns true
exactly when the number of cells true in both boards is 17, and with 16 or
fewer such cells it returns false. -/
theorem gameOver_iff_seventeen (guessLocations pieceLocations : Board)
    (hg : TenByTen guessLocations) (hp : TenByTen pieceLocations) :
    (∃ b, gameOver guessLocations pieceLocations = some b ∧
      (b = true ↔ bothCount guessLocations pieceLocations = 17)) ∧
    (bothCount guessLocations pieceLocations ≤ 16 →
      gameOver guessLocations pieceLocations = some false) := by
  rw [gameOver_eq _ _ hg hp]
  refine ⟨⟨_, rfl, by simp⟩, fun h => ?_⟩
  have : bothCount guessLocations pieceLocations ≠ 17 := by omega
  simp [this]

theorem gameOver_iff_seventeen_witness :
    TenByTen seventeenBoard ∧
    ((∃ b, gameOver seventeenBoard seventeenBoard = some b ∧
      (b = true ↔ bothCount seventeenBoard seventeenBoard = 17)) ∧
    (bothCount seventeenBoard seventeenBoard ≤ 16 →
      gameOver seventeenBoard seventeenBoard = some false)) :=
  ⟨by decide, gameOver_iff_seventeen seventeenBoard seventeenBoard (by decide) (by decide)⟩

/-! ## The registry as a finite map -/

theorem find_modify (reg : Registry) (k k' : Int) (f : connectedUser → connectedUser) :
    find (modify reg k f) k' = if k' = k then (find reg k').map f else find reg k' := by
  induction reg with
  | nil => simp [modify, find]
  | cons e rest ih =>
    simp only [modify, List.map_cons] at ih ⊢
    by_cases h1 : e.1 = k <;> by_cases h2 : e.1 = k' <;> by_cases h3 : k' = k <;>
      simp_all [find]

theorem keys_modify (reg : Registry) (k : Int) (f : connectedUser → connectedUser) :
    keys (modify reg k f) = keys reg := by
  induction reg with
  | nil => rfl
  | cons e rest ih =>
    simp only [keys, modify, List.map_cons] at ih ⊢
    by_cases h : e.1 = k <;> simp [h, ih]

theorem find_delete (reg : Registry) (k k' : Int) :
    find (delete reg k) k' = if k' = k then none else find reg k' := by
  induction reg with
  | nil => simp [delete, find]
  | cons e rest ih =>
    simp only [delete] at ih ⊢
    by_cases h1 : e.1 = k <;> by_cases h2 : e.1 = k' <;> by_cases h3 : k' = k <;>
      simp_all [find, List.filter_cons]

theorem keys_delete (reg : Registry) (k : Int) :
    keys (delete reg k) = (keys reg).filter (fun i => decide (i ≠ k)) := by
  induction reg with
  | nil => rfl
  | cons e rest ih =>
    simp only [keys, delete] at ih ⊢
    by_cases h : e.1 = k <;> simp [List.filter_cons, h] <;> simpa using ih

theorem find_append (reg reg' : Registry) (k : Int) :
    find (reg ++ reg') k = (find reg k).orElse (fun _ => find reg' k) := by
  induction reg with
  | nil => simp [find]
  | cons e rest ih =>
    by_cases h : e.1 = k <;> simp [find, h, ih]

theorem find_store (reg : Registry) (k k' : Int) (u : connectedUser) :
    find (store reg k u) k' = if k' = k then some u else find reg k' := by
  unfold store
  cases h : find reg k with
  | some v =>
    simp only [find_modify]
    by_cases h3 : k' = k
    · subst h3; simp [h]
    · simp [h3]
  | none =>
    simp only [find_append]
    by_cases h3 : k' = k
    · subst h3; simp [h, find]
    · have : ¬ k = k' := fun h => h3 h.symm
      cases h4 : find reg k' <;> simp [h3, find, this]

theorem find_isSome_iff_mem_keys (reg : Registry) (k : Int) :
    (find reg k).isSome = true ↔ k ∈ keys reg := by
  induction reg with
  | nil => simp [find, keys]
  | cons e rest ih =>
    simp only [keys, List.map_cons, List.mem_cons] at ih ⊢
    by_cases h : e.1 = k
    · simp [find, h]
    · have : ¬ k = e.1 := fun h' => h h'.symm
      simp [find, h, this, ih]

/-! ## Boards -/

theorem TenByTen.getElem?_row {b : Board} (hb : TenByTen b) {i : Nat} (hi : i < 10) :
    ∃ row, b[i]? = some row ∧ row.length = 10 ∧ b.getD i [] = row := by
  have hlt : i < b.length := by rw [hb.1]; exact hi
  refine ⟨b[i], List.getElem?_eq_getElem hlt, hb.2 _ (List.getElem_mem hlt), ?_⟩
  simp [List.getD_eq_getElem?_getD, List.getElem?_eq_getElem hlt]

theorem Board.assign_eq {b : Board} (hb : TenByTen b) {x y : Int}
    (hx : 0 ≤ x ∧ x < 10) (hy : 0 ≤ y ∧ y < 10) :
    b.assign x y = some (b.mark x.toNat y.toNat) := by
  obtain ⟨row, hrow, hlen, hD⟩ := hb.getElem?_row (by omega : x.toNat < 10)
  have : y.toNat < row.length := by omega
  simp [Board.assign, hx.1, hy.1, hrow, Board.mark, hD, this]

theorem Board.index_eq {b : Board} (hb : TenByTen b) {x y : Int}
    (hx : 0 ≤ x ∧ x < 10) (hy : 0 ≤ y ∧ y < 10) :
    b.index x y = some (cellAt b x.toNat y.toNat) := by
  obtain ⟨row, hrow, hlen, hD⟩ := hb.getElem?_row (by omega : x.toNat < 10)
  have hlt : y.toNat < row.length := by omega
  simp [Board.index, hx.1, hy.1, hrow, cellAt, hD, List.getD_eq_getElem?_getD,
    List.getElem?_eq_getElem hlt]

theorem TenByTen.mark {b : Board} (hb : TenByTen b) (i j : Nat) : TenByTen (b.mark i j) := by
  refine ⟨by simp [Board.mark, hb.1], ?_⟩
  intro row hrow
  simp only [Board.mark] at hrow
  by_cases hi : i < b.length
  · rcases List.mem_or_eq_of_mem_set hrow with h | h
    · exact hb.2 row h
    · subst h
      have : b.getD i [] = b[i] := by
        simp [List.getD_eq_getElem?_getD, List.getElem?_eq_getElem hi]
      rw [List.length_set, this]
      exact hb.2 _ (List.getElem_mem hi)
  · rw [List.set_eq_of_length_le (by omega)] at hrow
    exact hb.2 row hrow

theorem cellAt_mark (b : Board) (i j i' j' : Nat) (hi : i < b.length)
    (hj : j < (b.getD i []).length) :
    cellAt (b.mark i j) i' j' = (cellAt b i' j' || (decide (i' = i) && decide (j' = j))) := by
  simp only [cellAt, Board.mark, List.getD_eq_getElem?_getD, List.getElem?_set]
  by_cases h1 : i = i'
  · subst h1
    by_cases h2 : j = j'
    · subst h2
      simp only [List.getD_eq_getElem?_getD, List.getElem?_eq_getElem hi, Option.getD_some] at hj
      simp [hi, hj, List.getElem?_set]
    · have : ¬ j' = j := fun h => h2 h.symm
      simp [hi, h2, this, List.getElem?_set]
  · have : ¬ i' = i := fun h => h1 h.symm
    simp [h1, this]


/-! ## `handleMove` on a paired entry and an in-range target -/

theorem handleMoveBody_ok {message : String} {userID : Int} {reg : Registry}
    {user opp : connectedUser} {x y : Int}
    (hm : moveCoords message = some (x, y))
    (hx : 0 ≤ x ∧ x < 10) (hy : 0 ≤ y ∧ y < 10)
    (hu : find reg userID = some user) (ho : find reg user.opponentID = some opp)
    (hg : TenByTen user.guessLocations) (hp : TenByTen opp.pieceLocations) :
    handleMoveBody message userID reg =
      .ok ⟨⟨modify (modify (modify reg userID
              (fun u => { u with guessLocations := user.guessLocations.mark x.toNat y.toNat }))
              userID (fun u => { u with turn := false }))
              user.opponentID (fun u => { u with turn := true }),
            [(user.connection,
                if bothCount (user.guessLocations.mark x.toNat y.toNat) opp.pieceLocations = 17
                then Itoa x ++ "," ++ Itoa y ++ ";" ++
                  (if cellAt opp.pieceLocations x.toNat y.toNat = true then "hit" else "miss")
                  ++ ";win"
                else Itoa x ++ "," ++ Itoa y ++ ";" ++
                  (if cellAt opp.pieceLocations x.toNat y.toNat = true then "hit" else "miss")),
             (opp.connection,
                if bothCount (user.guessLocations.mark x.toNat y.toNat) opp.pieceLocations = 17
                then Itoa x ++ "," ++ Itoa y ++ ";" ++
                  (if cellAt opp.pieceLocations x.toNat y.toNat = true then "hit" else "miss")
                  ++ ";loss"
                else Itoa x ++ "," ++ Itoa y ++ ";" ++
                  (if cellAt opp.pieceLocations x.toNat y.toNat = true then "hit" else "miss"))],
            false⟩,
          user.opponentID,
          decide (bothCount (user.guessLocations.mark x.toNat y.toNat) opp.pieceLocations = 17)⟩ := by
  have hg' : TenByTen (user.guessLocations.mark x.toNat y.toNat) := hg.mark _ _
  have hxn : x.toNat < 10 := by omega
  have hyn : y.toNat < 10 := by omega
  have hidx : (user.guessLocations.mark x.toNat y.toNat).index x y = some true := by
    rw [Board.index_eq hg' hx hy]
    obtain ⟨row, _, hlen, hD⟩ := hg.getElem?_row hxn
    rw [cellAt_mark _ _ _ _ _ (by rw [hg.1]; exact hxn) (by rw [hD, hlen]; exact hyn)]
    simp
  unfold handleMoveBody
  simp only [hm, hu, Board.assign_eq hg hx hy, find_modify]
  by_cases h : user.opponentID = userID
  · have hopp : opp = user := by
      rw [h, hu] at ho; exact (Option.some.inj ho).symm
    subst hopp
    simp [h, hu, hidx, Board.index_eq hp hx hy, gameOver_eq _ _ hg' hp]
  · have h' : ¬ userID = user.opponentID := fun e => h e.symm
    simp [h, h', hu, ho, hidx, Board.index_eq hp hx hy, gameOver_eq _ _ hg' hp]

theorem pairedUsers_reached :
    (setUpGame (setupFrame "g1" sampleCoords) 2 200
      (setUpGame (setupFrame "g1" sampleCoords) 1 100 []).users).users = pairedUsers := by
  decide

theorem moveCoords_moveFrame (x y : Nat) (hx : x ≤ 9) (hy : y ≤ 9) :
    moveCoords (moveFrame x y) = some ((x : Int), (y : Int)) := by
  interval_cases x <;> interval_cases y <;> decide

theorem handleMove_of_body {message : String} {userID : Int} {reg : Registry} {s : MoveState}
    (h : handleMoveBody message userID reg = .ok s) :
    (handleMove message userID reg).panicked = s.run.panicked ∧
    (handleMove message userID reg).sent = s.run.sent ∧
    (handleMove message userID reg).users =
      if s.gameOver = true then delete (delete s.run.users userID) s.opponentID
      else s.run.users := by
  simp only [handleMove, h]
  split <;> simp

/-- The shape of a move on a paired entry, field by field. -/
theorem handleMoveBody_fields {message : String} {userID : Int} {reg : Registry}
    {user opp : connectedUser} {x y : Nat}
    (hm : moveCoords message = some ((x : Int), (y : Int)))
    (hx : x ≤ 9) (hy : y ≤ 9)
    (hu : find reg userID = some user) (ho : find reg user.opponentID = some opp)
    (hg : TenByTen user.guessLocations) (hp : TenByTen opp.pieceLocations) :
    ∃ s, handleMoveBody message userID reg = .ok s ∧
      s.run.users = modify (modify (modify reg userID
          (fun u => { u with guessLocations := user.guessLocations.mark x y }))
          userID (fun u => { u with turn := false }))
          user.opponentID (fun u => { u with turn := true }) ∧
      s.run.sent =
        [(user.connection,
            if s.gameOver = true then Itoa x ++ "," ++ Itoa y ++ ";" ++
              (if cellAt opp.pieceLocations x y = true then "hit" else "miss") ++ ";win"
            else Itoa x ++ "," ++ Itoa y ++ ";" ++
              (if cellAt opp.pieceLocations x y = true then "hit" else "miss")),
         (opp.connection,
            if s.gameOver = true then Itoa x ++ "," ++ Itoa y ++ ";" ++
              (if cellAt opp.pieceLocations x y = true then "hit" else "miss") ++ ";loss"
            else Itoa x ++ "," ++ Itoa y ++ ";" ++
              (if cellAt opp.pieceLocations x y = true then "hit" else "miss"))] ∧
      s.run.panicked = false ∧
      s.opponentID = user.opponentID ∧
      gameOver (user.guessLocations.mark x y) opp.pieceLocations = some s.gameOver := by
  have hxi : (0 : Int) ≤ x ∧ (x : Int) < 10 := by omega
  have hyi : (0 : Int) ≤ y ∧ (y : Int) < 10 := by omega
  have hb := handleMoveBody_ok hm hxi hyi hu ho hg hp
  simp only [Int.toNat_ofNat] at hb
  refine ⟨_, hb, ?_, ?_, ?_, ?_, ?_⟩
  · simp only
  · simp only [decide_eq_true_eq]
  · simp only
  · simp only
  · simp only [gameOver_eq _ _ (hg.mark _ _) hp]

/-- C1: in a registry where the acting user and the entry under its
`opponentID` are present (boards 10x10), `handleMove` on the frame `x,y` with
`0 ≤ x, y ≤ 9` does not panic and writes one frame to each of the two
connections; the word after `x,y;` is the same in both, it is `hit` when
`opponent.pieceLocations[x][y]` reads true in the registry before the move and
`miss` otherwise. -/
theorem handleMove_hit_iff (reg : Registry) (userID : Int) (user opp : connectedUser)
    (x y : Nat) (hx : x ≤ 9) (hy : y ≤ 9)
    (hu : find reg userID = some user) (ho : find reg user.opponentID = some opp)
    (hg : TenByTen user.guessLocations) (hp : TenByTen opp.pieceLocations) :
    (handleMove (moveFrame x y) userID reg).panicked = false ∧
    ∃ tailU ∈ ["", ";win"], ∃ tailO ∈ ["", ";loss"],
      (handleMove (moveFrame x y) userID reg).sent =
        [(user.connection, moveFrame x y ++ ";" ++
            (if opp.pieceLocations.index x y = some true then "hit" else "miss") ++ tailU),
         (opp.connection, moveFrame x y ++ ";" ++
            (if opp.pieceLocations.index x y = some true then "hit" else "miss") ++ tailO)] := by
  obtain ⟨s, hs, -, hsent, hpan, -, -⟩ :=
    handleMoveBody_fields (moveCoords_moveFrame x y hx hy) hx hy hu ho hg hp
  obtain ⟨h1, h2, -⟩ := handleMove_of_body hs
  have hxi : (0 : Int) ≤ x ∧ (x : Int) < 10 := by omega
  have hyi : (0 : Int) ≤ y ∧ (y : Int) < 10 := by omega
  rw [h1, h2, hsent, Board.index_eq hp hxi hyi]
  simp only [Int.toNat_ofNat, Option.some.injEq, moveFrame]
  refine ⟨hpan, ?_⟩
  cases s.gameOver
  · exact ⟨"", by simp, "", by simp, by simp⟩
  · exact ⟨";win", by simp, ";loss", by simp, by simp⟩

theorem handleMove_hit_iff_witness :
    (handleMove (moveFrame 0 0) 1 pairedUsers).panicked = false ∧
    ∃ tailU ∈ ["", ";win"], ∃ tailO ∈ ["", ";loss"],
      (handleMove (moveFrame 0 0) 1 pairedUsers).sent =
        [(firstPlayer.connection, moveFrame 0 0 ++ ";" ++
            (if secondPlayer.pieceLocations.index (0 : Nat) (0 : Nat) = some true
              then "hit" else "miss") ++ tailU),
         (secondPlayer.connection, moveFrame 0 0 ++ ";" ++
            (if secondPlayer.pieceLocations.index (0 : Nat) (0 : Nat) = some true
              then "hit" else "miss") ++ tailO)] :=
  handleMove_hit_iff pairedUsers 1 firstPlayer secondPlayer 0 0 (by decide) (by decide)
    (by decide) (by decide) (by decide) (by decide)

/-- C3: in a registry where the acting user is paired with a distinct, present
opponent (boards 10x10), `handleMove` on an in-range frame `x,y` sets the
acting user's `turn` to false and the opponent's to true, whatever they were:
this holds in the registry at line 142, and in the registry the call leaves
behind unless the move won the game and both entries were evicted. -/
theorem handleMove_turn_alternates (reg : Registry) (userID : Int) (user opp : connectedUser)
    (x y : Nat) (hx : x ≤ 9) (hy : y ≤ 9)
    (hu : find reg userID = some user) (ho : find reg user.opponentID = some opp)
    (hne : user.opponentID ≠ userID)
    (hg : TenByTen user.guessLocations) (hp : TenByTen opp.pieceLocations) :
    ∃ s, handleMoveBody (moveFrame x y) userID reg = .ok s ∧
      (find s.run.users userID).map (fun u => u.turn) = some false ∧
      (find s.run.users user.opponentID).map (fun u => u.turn) = some true ∧
      (handleMove (moveFrame x y) userID reg).panicked = false ∧
      (s.gameOver = false →
        (find (handleMove (moveFrame x y) userID reg).users userID).map (fun u => u.turn)
          = some false ∧
        (find (handleMove (moveFrame x y) userID reg).users user.opponentID).map
          (fun u => u.turn) = some true) ∧
      (s.gameOver = true →
        find (handleMove (moveFrame x y) userID reg).users userID = none ∧
        find (handleMove (moveFrame x y) userID reg).users user.opponentID = none) := by
  obtain ⟨s, hs, husers, -, hpan, hopp, -⟩ :=
    handleMoveBody_fields (moveCoords_moveFrame x y hx hy) hx hy hu ho hg hp
  obtain ⟨h1, -, h3⟩ := handleMove_of_body hs
  have hne' : ¬ userID = user.opponentID := fun e => hne e.symm
  have hA : (find s.run.users userID).map (fun u => u.turn) = some false := by
    rw [husers]; simp [find_modify, hu, hne']
  have hB : (find s.run.users user.opponentID).map (fun u => u.turn) = some true := by
    rw [husers]; simp [find_modify, ho, hne]
  refine ⟨s, hs, hA, hB, by rw [h1, hpan], ?_, ?_⟩
  · intro hover
    rw [h3]
    simp only [hover, Bool.false_eq_true, if_false]
    exact ⟨hA, hB⟩
  · intro hover
    rw [h3]
    simp only [hover, if_true, hopp]
    simp [find_delete, hne]

theorem handleMove_turn_alternates_witness :
    ∃ s, handleMoveBody (moveFrame 0 0) 2 pairedUsers = .ok s ∧
      (find s.run.users 2).map (fun u => u.turn) = some false ∧
      (find s.run.users secondPlayer.opponentID).map (fun u => u.turn) = some true ∧
      (handleMove (moveFrame 0 0) 2 pairedUsers).panicked = false ∧
      (s.gameOver = false →
        (find (handleMove (moveFrame 0 0) 2 pairedUsers).users 2).map (fun u => u.turn)
          = some false ∧
        (find (handleMove (moveFrame 0 0) 2 pairedUsers).users secondPlayer.opponentID).map
          (fun u => u.turn) = some true) ∧
      (s.gameOver = true →
        find (handleMove (moveFrame 0 0) 2 pairedUsers).users 2 = none ∧
        find (handleMove (moveFrame 0 0) 2 pairedUsers).users secondPlayer.opponentID = none) :=
  handleMove_turn_alternates pairedUsers 2 secondPlayer firstPlayer 0 0 (by decide) (by decide)
    (by decide) (by decide) (by decide) (by decide) (by decide)

/-- C6: for an in-range move by a user whose opponent entry is present (boards
10x10), `gameOver` on the updated guess board and the opponent's piece board
returns; if it is true, the acting identity and the opponent identity are both
absent afterwards and the keys are the old keys without these two; if it is
false, the keys are exactly the old keys; in both cases every other identity
keeps its entry unchanged. -/
theorem handleMove_evicts_iff_win (reg : Registry) (userID : Int) (user opp : connectedUser)
    (x y : Nat) (hx : x ≤ 9) (hy : y ≤ 9)
    (hu : find reg userID = some user) (ho : find reg user.opponentID = some opp)
    (hg : TenByTen user.guessLocations) (hp : TenByTen opp.pieceLocations) :
    ∃ over, gameOver (user.guessLocations.mark x y) opp.pieceLocations = some over ∧
      (over = true →
        find (handleMove (moveFrame x y) userID reg).users userID = none ∧
        find (handleMove (moveFrame x y) userID reg).users user.opponentID = none ∧
        keys (handleMove (moveFrame x y) userID reg).users =
          (keys reg).filter (fun k => decide (k ≠ userID ∧ k ≠ user.opponentID))) ∧
      (over = false → keys (handleMove (moveFrame x y) userID reg).users = keys reg) ∧
      (∀ k, k ≠ userID → k ≠ user.opponentID →
        find (handleMove (moveFrame x y) userID reg).users k = find reg k) := by
  obtain ⟨s, hs, husers, -, -, hopp, hover⟩ :=
    handleMoveBody_fields (moveCoords_moveFrame x y hx hy) hx hy hu ho hg hp
  obtain ⟨-, -, h3⟩ := handleMove_of_body hs
  refine ⟨s.gameOver, hover, ?_, ?_, ?_⟩
  · intro hwin
    rw [h3, husers, hopp]
    simp only [hwin, if_true]
    refine ⟨by simp [find_delete], by simp [find_delete], ?_⟩
    simp only [keys_delete, keys_modify, List.filter_filter]
    congr 1
    funext k
    simp only [Bool.decide_and, Bool.and_comm]
  · intro hno
    rw [h3, husers]
    simp only [hno, Bool.false_eq_true, if_false, keys_modify]
  · intro k hk1 hk2
    rw [h3, husers, hopp]
    split <;> simp [find_delete, find_modify, hk1, hk2]

theorem handleMove_evicts_iff_win_witness :
    ∃ over, gameOver (firstPlayer.guessLocations.mark 0 0) secondPlayer.pieceLocations
        = some over ∧
      (over = true →
        find (handleMove (moveFrame 0 0) 1 pairedUsers).users 1 = none ∧
        find (handleMove (moveFrame 0 0) 1 pairedUsers).users firstPlayer.opponentID = none ∧
        keys (handleMove (moveFrame 0 0) 1 pairedUsers).users =
          (keys pairedUsers).filter (fun k => decide (k ≠ 1 ∧ k ≠ firstPlayer.opponentID))) ∧
      (over = false → keys (handleMove (moveFrame 0 0) 1 pairedUsers).users = keys pairedUsers) ∧
      (∀ k, k ≠ 1 → k ≠ firstPlayer.opponentID →
        find (handleMove (moveFrame 0 0) 1 pairedUsers).users k = find pairedUsers k) :=
  handleMove_evicts_iff_win pairedUsers 1 firstPlayer secondPlayer 0 0 (by decide) (by decide)
    (by decide) (by decide) (by decide) (by decide)

/-- C7: for an in-range move by a user whose opponent entry is present (boards
10x10), `handleMove` writes exactly two messages, the first to the actor's
connection and the second to the opponent's; both are `x,y;` followed by the
same word `hit` or `miss`; when `gameOver` is false they are identical, when it
is true the actor's ends in `;win` and the opponent's in `;loss`. -/
theorem handleMove_result_frames (reg : Registry) (userID : Int) (user opp : connectedUser)
    (x y : Nat) (hx : x ≤ 9) (hy : y ≤ 9)
    (hu : find reg userID = some user) (ho : find reg user.opponentID = some opp)
    (hg : TenByTen user.guessLocations) (hp : TenByTen opp.pieceLocations) :
    ∃ word ∈ ["hit", "miss"], ∃ over,
      gameOver (user.guessLocations.mark x y) opp.pieceLocations = some over ∧
      (handleMove (moveFrame x y) userID reg).sent =
        [(user.connection,
            if over = true then Itoa x ++ "," ++ Itoa y ++ ";" ++ word ++ ";win"
            else Itoa x ++ "," ++ Itoa y ++ ";" ++ word),
         (opp.connection,
            if over = true then Itoa x ++ "," ++ Itoa y ++ ";" ++ word ++ ";loss"
            else Itoa x ++ "," ++ Itoa y ++ ";" ++ word)] := by
  obtain ⟨s, hs, -, hsent, -, -, hover⟩ :=
    handleMoveBody_fields (moveCoords_moveFrame x y hx hy) hx hy hu ho hg hp
  obtain ⟨-, h2, -⟩ := handleMove_of_body hs
  refine ⟨if cellAt opp.pieceLocations x y = true then "hit" else "miss", ?_, s.gameOver,
    hover, ?_⟩
  · split <;> simp
  · rw [h2, hsent]

theorem handleMove_result_frames_witness :
    ∃ word ∈ ["hit", "miss"], ∃ over,
      gameOver (firstPlayer.guessLocations.mark 9 9) secondPlayer.pieceLocations = some over ∧
      (handleMove (moveFrame 9 9) 1 pairedUsers).sent =
        [(firstPlayer.connection,
            if over = true then Itoa (9 : Nat) ++ "," ++ Itoa (9 : Nat) ++ ";" ++ word ++ ";win"
            else Itoa (9 : Nat) ++ "," ++ Itoa (9 : Nat) ++ ";" ++ word),
         (secondPlayer.connection,
            if over = true then Itoa (9 : Nat) ++ "," ++ Itoa (9 : Nat) ++ ";" ++ word ++ ";loss"
            else Itoa (9 : Nat) ++ "," ++ Itoa (9 : Nat) ++ ";" ++ word)] :=
  handleMove_result_frames pairedUsers 1 firstPlayer secondPlayer 9 9 (by decide) (by decide)
    (by decide) (by decide) (by decide) (by decide)

theorem waitingUsers_reached :
    (setUpGame (setupFrame "g1" sampleCoords) 1 100 []).users = waitingUsers := by
  decide

/-! ## Moves out of turn and before pairing -/

/-- C9 (as stated, refuted): identity 2 is paired and its `turn` is false, yet
`handleMove` on `0,0` ends without any failure, writes two result frames and
changes the registry. -/
theorem handleMove_out_of_turn_counterexample :
    find pairedUsers 2 = some secondPlayer ∧ secondPlayer.turn = false ∧
    find pairedUsers secondPlayer.opponentID = some firstPlayer ∧
    (handleMove (moveFrame 0 0) 2 pairedUsers).panicked = false ∧
    (handleMove (moveFrame 0 0) 2 pairedUsers).sent = [(200, "0,0;hit"), (100, "0,0;hit")] ∧
    (handleMove (moveFrame 0 0) 2 pairedUsers).users ≠ pairedUsers ∧
    (find (handleMove (moveFrame 0 0) 2 pairedUsers).users 2).map (fun u => u.guessLocations)
      = some (emptyBoard.mark 0 0) := by
  decide

/-- C9 (amended): `handleMove` never reads the `turn` flag. In a registry where
the acting user is paired with a distinct, present opponent (boards 10x10) and
the acting user's `turn` is false, an in-range frame `x,y` is applied like any
other: the call does not fail, cell `(x, y)` of the actor's guess board is set,
the actor's `turn` stays false, the opponent's becomes true, and two result
frames are written. -/
theorem handleMove_out_of_turn_applied (reg : Registry) (userID : Int)
    (user opp : connectedUser) (x y : Nat) (hx : x ≤ 9) (hy : y ≤ 9)
    (hu : find reg userID = some user) (ho : find reg user.opponentID = some opp)
    (hne : user.opponentID ≠ userID) (hturn : user.turn = false)
    (hg : TenByTen user.guessLocations) (hp : TenByTen opp.pieceLocations) :
    ∃ s, handleMoveBody (moveFrame x y) userID reg = .ok s ∧
      find s.run.users userID =
        some { user with guessLocations := user.guessLocations.mark x y } ∧
      find s.run.users user.opponentID = some { opp with turn := true } ∧
      (handleMove (moveFrame x y) userID reg).panicked = false ∧
      (handleMove (moveFrame x y) userID reg).sent.length = 2 := by
  obtain ⟨s, hs, husers, hsent, hpan, -, -⟩ :=
    handleMoveBody_fields (moveCoords_moveFrame x y hx hy) hx hy hu ho hg hp
  obtain ⟨h1, h2, -⟩ := handleMove_of_body hs
  have hne' : ¬ userID = user.opponentID := fun e => hne e.symm
  refine ⟨s, hs, ?_, ?_, by rw [h1, hpan], by rw [h2, hsent]; rfl⟩
  · rw [husers]; simp [find_modify, hu, hne', ← hturn]
  · rw [husers]; simp [find_modify, ho, hne]

theorem handleMove_out_of_turn_applied_witness :
    ∃ s, handleMoveBody (moveFrame 0 0) 2 pairedUsers = .ok s ∧
      find s.run.users 2 =
        some { secondPlayer with guessLocations := secondPlayer.guessLocations.mark 0 0 } ∧
      find s.run.users secondPlayer.opponentID = some { firstPlayer with turn := true } ∧
      (handleMove (moveFrame 0 0) 2 pairedUsers).panicked = false ∧
      (handleMove (moveFrame 0 0) 2 pairedUsers).sent.length = 2 :=
  handleMove_out_of_turn_applied pairedUsers 2 secondPlayer firstPlayer 0 0 (by decide)
    (by decide) (by decide) (by decide) (by decide) (by decide) (by decide) (by decide)

/-- A move by an entry whose opponent is absent, in range and on a 10x10 guess
board: the guess cell is set and `turn` is written before the call panics on
the nil `opponent`; no message is written. -/
theorem handleMove_opponent_absent {message : String} {userID : Int} {reg : Registry}
    {user : connectedUser} {x y : Nat}
    (hm : moveCoords message = some ((x : Int), (y : Int))) (hx : x ≤ 9) (hy : y ≤ 9)
    (hu : find reg userID = some user) (ho : find reg user.opponentID = none)
    (hg : TenByTen user.guessLocations) :
    handleMove message userID reg =
      ⟨modify (modify reg userID
          (fun u => { u with guessLocations := user.guessLocations.mark x y }))
          userID (fun u => { u with turn := false }), [], true⟩ := by
  have hxi : (0 : Int) ≤ x ∧ (x : Int) < 10 := by omega
  have hyi : (0 : Int) ≤ y ∧ (y : Int) < 10 := by omega
  have ha := Board.assign_eq hg hxi hyi
  simp only [Int.toNat_ofNat] at ha
  have hne : ¬ user.opponentID = userID := by
    intro h; rw [h, hu] at ho; exact Option.noConfusion ho
  unfold handleMove handleMoveBody
  simp only [hm, hu, ha, find_modify, hne, if_false, ho]

/-- C10 (the code at the failing input): identity 1 is waiting, with
`opponentID = -1` and no entry under -1; `handleMove` on `0,0` sets cell
`(0, 0)` of its guess board (line 126) and only then panics on the nil
`opponent` (line 128), so the registry is not the one before the call. -/
theorem handleMove_unpaired_writes_then_panics :
    find waitingUsers 1 = some waitingPlayer ∧ waitingPlayer.opponentID = -1 ∧
    find waitingUsers (-1) = none ∧
    (handleMove (moveFrame 0 0) 1 waitingUsers).panicked = true ∧
    (handleMove (moveFrame 0 0) 1 waitingUsers).sent = [] ∧
    (handleMove (moveFrame 0 0) 1 waitingUsers).users ≠ waitingUsers ∧
    (handleMove (moveFrame 0 0) 1 waitingUsers).users =
      [(1, { waitingPlayer with guessLocations := emptyBoard.mark 0 0 })] := by
  decide

/-! ## Parsing frames -/

theorem Split_ne_nil (s : List Char) (sep : Char) : Split s sep ≠ [] := by
  induction s with
  | nil => simp [Split]
  | cons c cs ih =>
    unfold Split
    split
    · simp
    · split <;> simp

theorem Split_of_not_mem (s : List Char) (sep : Char) (h : sep ∉ s) : Split s sep = [s] := by
  induction s with
  | nil => rfl
  | cons c cs ih =>
    have hc : ¬ c = sep := fun e => h (by simp [e])
    have hcs : sep ∉ cs := fun e => h (List.mem_cons_of_mem _ e)
    simp [Split, hc, ih hcs]

theorem Split_append (s t : List Char) (sep : Char) (h : sep ∉ s) :
    Split (s ++ sep :: t) sep = s :: Split t sep := by
  induction s with
  | nil => simp [Split]
  | cons c cs ih =>
    have hc : ¬ c = sep := fun e => h (by simp [e])
    have hcs : sep ∉ cs := fun e => h (List.mem_cons_of_mem _ e)
    simp [Split, hc, ih hcs]

theorem Itoa_digit (c : Nat) (hc : c ≤ 9) : (Itoa c).data = [Nat.digitChar c] := by
  interval_cases c <;> decide

theorem Atoi_digit (c : Nat) (hc : c ≤ 9) : Atoi [Nat.digitChar c] = (c : Int) := by
  interval_cases c <;> decide

theorem digit_ne_sep (c : Nat) (hc : c ≤ 9) :
    Nat.digitChar c ≠ ',' ∧ Nat.digitChar c ≠ ';' := by
  interval_cases c <;> decide

theorem Split_joinComma (coords : List Nat) (hc : ∀ c ∈ coords, c ≤ 9) (hne : coords ≠ []) :
    Split (joinComma (coords.map (fun (c : Nat) => Itoa (c : Int)))).data ',' =
      coords.map (fun c => [Nat.digitChar c]) := by
  induction coords with
  | nil => exact absurd rfl hne
  | cons a rest ih =>
    have ha : a ≤ 9 := hc a (List.mem_cons_self _ _)
    have hrest : ∀ c ∈ rest, c ≤ 9 := fun c h => hc c (List.mem_cons_of_mem _ h)
    have hsep : ',' ∉ [Nat.digitChar a] := by
      simp only [List.mem_singleton]; exact fun e => (digit_ne_sep a ha).1 e.symm
    cases rest with
    | nil =>
      simp only [List.map_cons, List.map_nil, joinComma, Itoa_digit a ha]
      exact Split_of_not_mem _ ',' hsep
    | cons b rest' =>
      have h2 := ih hrest (by simp)
      have hcomma : ",".data = [','] := rfl
      simp only [List.map_cons, joinComma, String.data_append, Itoa_digit a ha, hcomma,
        List.append_assoc, List.singleton_append] at h2 ⊢
      have h3 := Split_append [Nat.digitChar a]
        (joinComma (Itoa (b : Int) :: List.map (fun (c : Nat) => Itoa (c : Int)) rest')).data
        ',' hsep
      rw [h2] at h3
      exact h3

theorem semicolon_not_mem_joinComma (coords : List Nat) (hc : ∀ c ∈ coords, c ≤ 9) :
    ';' ∉ (joinComma (coords.map (fun (c : Nat) => Itoa (c : Int)))).data := by
  induction coords with
  | nil => simp [joinComma]
  | cons a rest ih =>
    have ha : a ≤ 9 := hc a (List.mem_cons_self _ _)
    have hrest : ∀ c ∈ rest, c ≤ 9 := fun c h => hc c (List.mem_cons_of_mem _ h)
    have h1 : ¬ ';' = Nat.digitChar a := fun e => (digit_ne_sep a ha).2 e.symm
    cases rest with
    | nil => simp [joinComma, Itoa_digit a ha, h1]
    | cons b rest' =>
      have h2 := ih hrest
      have hcomma : ",".data = [','] := rfl
      simp only [List.map_cons, joinComma, String.data_append, Itoa_digit a ha, hcomma,
        List.append_assoc, List.singleton_append, List.cons_append, List.nil_append,
        List.mem_cons, not_or] at h2 ⊢
      exact ⟨h1, by decide, h2⟩

/-- The first `;`-separated part of a setup frame is the game identifier and a
second part exists, whatever follows the `;`. -/
theorem Split_setupFrame_head (gameId : String) (coords : List Nat) (hg : ';' ∉ gameId.data) :
    (Split (setupFrame gameId coords).data ';').headD [] = gameId.data ∧
    ∃ text, (Split (setupFrame gameId coords).data ';')[1]? = some text := by
  have h := Split_append gameId.data
    (joinComma (coords.map (fun (c : Nat) => Itoa (c : Int)))).data ';' hg
  have hsemi : ";".data = [';'] := rfl
  simp only [setupFrame, String.data_append, hsemi, List.append_assoc, List.singleton_append, h]
  refine ⟨rfl, ?_⟩
  cases hsp : Split (joinComma (coords.map (fun (c : Nat) => Itoa (c : Int)))).data ';' with
  | nil => exact absurd hsp (Split_ne_nil _ _)
  | cons t ts => exact ⟨t, by simp⟩

/-- The two `;`-separated parts of a setup frame whose coordinates are digits. -/
theorem Split_setupFrame (gameId : String) (coords : List Nat) (hg : ';' ∉ gameId.data)
    (hc : ∀ c ∈ coords, c ≤ 9) :
    Split (setupFrame gameId coords).data ';' =
      [gameId.data, (joinComma (coords.map (fun (c : Nat) => Itoa (c : Int)))).data] := by
  have h := Split_append gameId.data
    (joinComma (coords.map (fun (c : Nat) => Itoa (c : Int)))).data ';' hg
  have hsemi : ";".data = [';'] := rfl
  simp only [setupFrame, String.data_append, hsemi, List.append_assoc, List.singleton_append, h,
    Split_of_not_mem _ ';' (semicolon_not_mem_joinComma coords hc)]

/-! ## The linking loop of `setUpGame` -/

theorem linkStep_eq (userID : Int) (user : connectedUser) (reg : Registry) (key : Int) :
    linkStep userID (user, reg) key =
      if ∃ e, find reg key = some e ∧ e.gameID = user.gameID then
        ({ user with opponentID := key },
          modify reg key (fun o => { o with opponentID := userID, turn := true }))
      else (user, reg) := by
  unfold linkStep
  cases h : find reg key with
  | none => simp
  | some e => by_cases hg : e.gameID = user.gameID <;> simp [hg]

/-- What the loop of lines 97 to 104 does, over any list of keys: only
`user.opponentID` changes in the new struct; every entry under a visited key
whose `gameID` matches gets `opponentID = userID` and `turn = true`, already
paired or not; `user.opponentID` ends as a visited matching key when there is
one and keeps its value otherwise. -/
theorem linkFold_spec (userID : Int) :
    ∀ (L : List Int) (user : connectedUser) (reg : Registry),
      (L.foldl (linkStep userID) (user, reg)).1 =
        { user with opponentID := (L.foldl (linkStep userID) (user, reg)).1.opponentID } ∧
      keys (L.foldl (linkStep userID) (user, reg)).2 = keys reg ∧
      (∀ k, find (L.foldl (linkStep userID) (user, reg)).2 k =
        (find reg k).map (fun e =>
          if k ∈ L ∧ e.gameID = user.gameID then
            { e with opponentID := userID, turn := true } else e)) ∧
      (((L.foldl (linkStep userID) (user, reg)).1.opponentID = user.opponentID ∧
          ∀ k ∈ L, ∀ e, find reg k = some e → e.gameID ≠ user.gameID) ∨
        ((L.foldl (linkStep userID) (user, reg)).1.opponentID ∈ L ∧
          ∃ e, find reg (L.foldl (linkStep userID) (user, reg)).1.opponentID = some e ∧
            e.gameID = user.gameID)) := by
  intro L
  induction L with
  | nil =>
    intro user reg
    refine ⟨rfl, rfl, ?_, Or.inl ⟨rfl, by simp⟩⟩
    intro k
    simp only [List.foldl_nil]
    cases find reg k <;> simp
  | cons key L ih =>
    intro user reg
    rw [List.foldl_cons, linkStep_eq]
    by_cases hm : ∃ e, find reg key = some e ∧ e.gameID = user.gameID
    · obtain ⟨e, he, heg⟩ := hm
      have hm' : ∃ e, find reg key = some e ∧ e.gameID = user.gameID := ⟨e, he, heg⟩
      rw [if_pos hm']
      obtain ⟨h1, h2, h3, h4⟩ := ih { user with opponentID := key }
        (modify reg key (fun o => { o with opponentID := userID, turn := true }))
      refine ⟨?_, ?_, ?_, ?_⟩
      · rw [h1]
      · rw [h2, keys_modify]
      · intro k
        rw [h3 k, find_modify]
        by_cases hk : k = key
        · subst hk
          simp [he, heg]
        · cases hf : find reg k with
          | none => simp [hk]
          | some e' => simp [hk]
      · rcases h4 with ⟨h5, -⟩ | ⟨h5, e', he', heg'⟩
        · right
          rw [h5]
          exact ⟨List.mem_cons_self _ _, e, he, heg⟩
        · right
          refine ⟨List.mem_cons_of_mem _ h5, ?_⟩
          rw [find_modify] at he'
          split at he'
          · rename_i hk
            rw [hk, he] at he' ⊢
            simp only [Option.map_some', Option.some.injEq] at he'
            exact ⟨e, rfl, heg⟩
          · exact ⟨e', he', heg'⟩
    · rw [if_neg hm]
      obtain ⟨h1, h2, h3, h4⟩ := ih user reg
      refine ⟨h1, h2, ?_, ?_⟩
      · intro k
        rw [h3 k]
        cases hf : find reg k with
        | none => rfl
        | some e' =>
          simp only [Option.map_some', Option.some.injEq, List.mem_cons]
          by_cases hk : k = key
          · subst hk
            have : ¬ e'.gameID = user.gameID := fun h => hm ⟨e', hf, h⟩
            simp [this]
          · simp [hk]
      · rcases h4 with ⟨h5, h6⟩ | ⟨h5, h6⟩
        · left
          refine ⟨h5, ?_⟩
          intro k hk e' he'
          rcases List.mem_cons.mp hk with rfl | hk'
          · exact fun h => hm ⟨e', he', h⟩
          · exact h6 k hk' e' he'
        · right
          exact ⟨List.mem_cons_of_mem _ h5, h6⟩

/-! ## The placement loop of `setUpGame` -/

theorem TenByTen_foldl_mark (coords : List Nat) :
    ∀ (is : List Nat) (b : Board), TenByTen b →
      TenByTen (is.foldl (fun b i => b.mark (coords.getD i 0) (coords.getD (i + 1) 0)) b) := by
  intro is
  induction is with
  | nil => intro b hb; exact hb
  | cons i is ih => intro b hb; exact ih _ (hb.mark _ _)

/-- With tokens that are digits the placement loop does not panic, and marks
the cell of each visited pair of tokens. -/
theorem placeFold_ok (coords : List Nat) (hc : ∀ c ∈ coords, c ≤ 9) :
    ∀ (is : List Nat) (b : Board), TenByTen b → (∀ i ∈ is, i + 1 < coords.length) →
      is.foldl (placeStep (coords.map (fun c => [Nat.digitChar c]))) (b, false) =
        (is.foldl (fun b i => b.mark (coords.getD i 0) (coords.getD (i + 1) 0)) b, false) := by
  intro is
  induction is with
  | nil => intro b _ _; rfl
  | cons i is ih =>
    intro b hb hi
    have hi1 : i + 1 < coords.length := hi i (List.mem_cons_self _ _)
    have hi0 : i < coords.length := by omega
    have hrest : ∀ j ∈ is, j + 1 < coords.length := fun j hj => hi j (List.mem_cons_of_mem _ hj)
    have hx : coords[i] ≤ 9 := hc _ (List.getElem_mem hi0)
    have hy : coords[i + 1] ≤ 9 := hc _ (List.getElem_mem hi1)
    have hgx : coords.getD i 0 = coords[i] := by
      simp [List.getD_eq_getElem?_getD, List.getElem?_eq_getElem hi0]
    have hgy : coords.getD (i + 1) 0 = coords[i + 1] := by
      simp [List.getD_eq_getElem?_getD, List.getElem?_eq_getElem hi1]
    have hstep : placeStep (coords.map (fun c => [Nat.digitChar c])) (b, false) i =
        (b.mark coords[i] coords[i + 1], false) := by
      have ha := Board.assign_eq hb (x := (coords[i] : Int)) (y := (coords[i + 1] : Int))
        (by omega) (by omega)
      simp only [Int.toNat_ofNat] at ha
      simp [placeStep, List.getElem?_map, List.getElem?_eq_getElem hi0,
        List.getElem?_eq_getElem hi1, Atoi_digit _ hx, Atoi_digit _ hy, ha]
    rw [List.foldl_cons, List.foldl_cons, hstep, hgx, hgy]
    exact ih _ (hb.mark _ _) hrest

theorem TenByTen_emptyBoard : TenByTen emptyBoard := by decide

/-! ## `setUpGame`, field by field -/

theorem setUpGame_users {message : String} {userID : Int} {conn : Conn} {reg : Registry}
    {text : List Char} (h : (Split message.data ';')[1]? = some text) :
    (setUpGame message userID conn reg).users =
      modify
        (store ((keys reg).foldl (linkStep userID)
            ({ connection := conn, opponentID := -1,
               gameID := String.mk ((Split message.data ';').headD []),
               pieceLocations := emptyBoard, guessLocations := emptyBoard, turn := false },
              reg)).2 userID
          ((keys reg).foldl (linkStep userID)
            ({ connection := conn, opponentID := -1,
               gameID := String.mk ((Split message.data ';').headD []),
               pieceLocations := emptyBoard, guessLocations := emptyBoard, turn := false },
              reg)).1)
        userID
        (fun u => { u with pieceLocations :=
          ((List.range' 0 17 2).foldl (placeStep (Split text ','))
            (((keys reg).foldl (linkStep userID)
              ({ connection := conn, opponentID := -1,
                 gameID := String.mk ((Split message.data ';').headD []),
                 pieceLocations := emptyBoard, guessLocations := emptyBoard, turn := false },
                reg)).1.pieceLocations, false)).1 }) := by
  unfold setUpGame
  simp only [h]
  split
  · rfl
  · split
    · split <;> rfl
    · rfl

/-- Every entry other than the new one, after `setUpGame` on a frame that has
a `;`: entries with the frame's game identifier are linked to the new identity
and given the turn, the others are as before. -/
theorem setUpGame_find_other {message : String} {userID : Int} {conn : Conn} {reg : Registry}
    {text : List Char} (h : (Split message.data ';')[1]? = some text)
    (k : Int) (hk : k ≠ userID) :
    find (setUpGame message userID conn reg).users k =
      (find reg k).map (fun e =>
        if e.gameID = String.mk ((Split message.data ';').headD []) then
          { e with opponentID := userID, turn := true } else e) := by
  rw [setUpGame_users h, find_modify, if_neg hk, find_store, if_neg hk,
    (linkFold_spec userID (keys reg) _ reg).2.2.1 k]
  cases hf : find reg k with
  | none => rfl
  | some e =>
    have hmem : k ∈ keys reg := (find_isSome_iff_mem_keys reg k).mp (by simp [hf])
    simp [hmem]
theorem setUpGame_run {message : String} {userID : Int} {conn : Conn} {reg : Registry}
    {text : List Char} {board : Board} {linked : connectedUser × Registry}
    (h : (Split message.data ';')[1]? = some text)
    (hlk : (keys reg).foldl (linkStep userID)
      ({ connection := conn, opponentID := -1,
         gameID := String.mk ((Split message.data ';').headD []),
         pieceLocations := emptyBoard, guessLocations := emptyBoard, turn := false }, reg)
      = linked)
    (hplace : (List.range' 0 17 2).foldl (placeStep (Split text ','))
      (linked.1.pieceLocations, false) = (board, false)) :
    setUpGame message userID conn reg =
      (if linked.1.opponentID ≠ -1 then
        match find (modify (store linked.2 userID linked.1) userID
            (fun u => { u with pieceLocations := board })) linked.1.opponentID with
        | none => ⟨modify (store linked.2 userID linked.1) userID
            (fun u => { u with pieceLocations := board }),
            [(conn, "opponent's turn")], true⟩
        | some opponent => ⟨modify (store linked.2 userID linked.1) userID
            (fun u => { u with pieceLocations := board }),
            [(conn, "opponent's turn"), (opponent.connection, "your turn")], false⟩
      else ⟨modify (store linked.2 userID linked.1) userID
            (fun u => { u with pieceLocations := board }), [], false⟩) := by
  unfold setUpGame
  simp only [h, hlk, hplace, Bool.false_eq_true, if_false]


/-- The run of `setUpGame` on a setup frame with 34 coordinates in `0..9`: it
does not panic; the new entry holds the placed board, an empty guess board,
`turn = false` and as `opponentID` either -1, when no entry has the frame's game
identifier, or the key of an entry that has it; the two pairing notices are
written exactly when `opponentID` is not -1. -/
theorem setUpGame_valid {gameId : String} {coords : List Nat} (hg : ';' ∉ gameId.data)
    (hlen : coords.length = 34) (hc : ∀ c ∈ coords, c ≤ 9)
    (userID : Int) (conn : Conn) (reg : Registry) :
    ∃ opp,
      ((opp = -1 ∧ ∀ k e, find reg k = some e → e.gameID ≠ gameId) ∨
        (∃ e, find reg opp = some e ∧ e.gameID = gameId)) ∧
      find (setUpGame (setupFrame gameId coords) userID conn reg).users userID =
        some { connection := conn, opponentID := opp, gameID := gameId,
               pieceLocations := placeAll coords, guessLocations := emptyBoard,
               turn := false } ∧
      (setUpGame (setupFrame gameId coords) userID conn reg).panicked = false ∧
      (opp = -1 → (setUpGame (setupFrame gameId coords) userID conn reg).sent = []) ∧
      (opp ≠ -1 → ∃ o,
        find (setUpGame (setupFrame gameId coords) userID conn reg).users opp = some o ∧
        (setUpGame (setupFrame gameId coords) userID conn reg).sent =
          [(conn, "opponent's turn"), (o.connection, "your turn")]) := by
  have hparts := Split_setupFrame gameId coords hg hc
  have hne : coords ≠ [] := by intro h; rw [h] at hlen; simp at hlen
  have htok := Split_joinComma coords hc hne
  have hidx : ∀ i ∈ List.range' 0 17 2, i + 1 < coords.length := by
    intro i hi
    rw [List.mem_range'] at hi
    obtain ⟨j, hj, rfl⟩ := hi
    omega
  have hplace := placeFold_ok coords hc (List.range' 0 17 2) emptyBoard TenByTen_emptyBoard hidx
  obtain ⟨h1, -, h3, h4⟩ := linkFold_spec userID (keys reg)
    { connection := conn, opponentID := -1, gameID := gameId,
      pieceLocations := emptyBoard, guessLocations := emptyBoard, turn := false } reg
  generalize hlk : (keys reg).foldl (linkStep userID)
    ({ connection := conn, opponentID := -1, gameID := gameId,
       pieceLocations := emptyBoard, guessLocations := emptyBoard, turn := false }, reg)
    = linked at h1 h3 h4
  have hpl : linked.1.pieceLocations = emptyBoard := by rw [h1]
  have hgid : String.mk ((Split (setupFrame gameId coords).data ';').headD []) = gameId := by
    rw [hparts]; rfl
  have hsecond : (Split (setupFrame gameId coords).data ';')[1]? =
      some (joinComma (coords.map (fun (c : Nat) => Itoa (c : Int)))).data := by
    rw [hparts]; rfl
  have hrun := @setUpGame_run _ userID conn reg _ (placeAll coords) linked hsecond (by rw [hgid]; exact hlk)
    (by rw [htok, hpl]; exact hplace)
  have hself : find (modify (store linked.2 userID linked.1) userID
      (fun u => { u with pieceLocations := placeAll coords })) userID =
        some { connection := conn, opponentID := linked.1.opponentID, gameID := gameId,
               pieceLocations := placeAll coords, guessLocations := emptyBoard,
               turn := false } := by
    rw [find_modify, if_pos rfl, find_store, if_pos rfl, h1]
    rfl
  have hopp : linked.1.opponentID ≠ -1 →
      ∃ o, find (modify (store linked.2 userID linked.1) userID
        (fun u => { u with pieceLocations := placeAll coords })) linked.1.opponentID = some o := by
    intro hno
    by_cases hk : linked.1.opponentID = userID
    · exact ⟨_, by rw [hk]; exact hself⟩
    · rcases h4 with ⟨h5, -⟩ | ⟨-, e, he, -⟩
      · exact absurd h5 hno
      · rw [find_modify, if_neg hk, find_store, if_neg hk, h3, he]
        exact ⟨_, rfl⟩
  refine ⟨linked.1.opponentID, ?_, ?_, ?_, ?_, ?_⟩
  · rcases h4 with ⟨h5, h6⟩ | ⟨-, e, he, heg⟩
    · left
      refine ⟨h5, ?_⟩
      intro k e he
      exact h6 k ((find_isSome_iff_mem_keys reg k).mp (by simp [he])) e he
    · right
      exact ⟨e, he, heg⟩
  · rw [hrun]
    split
    · split <;> exact hself
    · exact hself
  · rw [hrun]
    split
    · rename_i hno
      obtain ⟨o, ho⟩ := hopp hno
      simp only [ho]
    · rfl
  · intro hno
    rw [hrun, if_neg (by simpa using hno)]
  · intro hno
    obtain ⟨o, ho⟩ := hopp hno
    rw [hrun, if_pos hno]
    simp only [ho]
    exact ⟨o, rfl, rfl⟩

/-! ## Pairing -/

/-- C4: let `A` be the only entry of the registry with game identifier `g`
(unpaired or not; `g` has no `;` in it) and `B` an identity not in the
registry. After `setUpGame` processes for `B` a setup frame `g;c0,...,c33`
with all coordinates in `0..9`, the call has not panicked, `A.opponentID = B`, `B.opponentID = A`, `A.turn` is
true and `B.turn` is false. -/
theorem setUpGame_pairs_symmetric (reg : Registry) (A B : Int) (a : connectedUser)
    (gameId : String) (coords : List Nat) (conn : Conn)
    (hg : ';' ∉ gameId.data) (hlen : coords.length = 34) (hc : ∀ c ∈ coords, c ≤ 9)
    (hA : find reg A = some a) (hAg : a.gameID = gameId)
    (honly : ∀ k e, find reg k = some e → e.gameID = gameId → k = A)
    (hB : find reg B = none) :
    (setUpGame (setupFrame gameId coords) B conn reg).panicked = false ∧
    ∃ a' b', find (setUpGame (setupFrame gameId coords) B conn reg).users A = some a' ∧
      find (setUpGame (setupFrame gameId coords) B conn reg).users B = some b' ∧
      a'.opponentID = B ∧ b'.opponentID = A ∧ a'.turn = true ∧ b'.turn = false := by
  obtain ⟨opp, hopp, hself, hpan, -, -⟩ := setUpGame_valid hg hlen hc B conn reg
  have hAB : A ≠ B := by
    intro h; rw [h, hB] at hA; exact Option.noConfusion hA
  have hoppA : opp = A := by
    rcases hopp with ⟨-, hnone⟩ | ⟨e, he, heg⟩
    · exact absurd hAg (hnone A a hA)
    · exact honly opp e he heg
  obtain ⟨text, htext⟩ := (Split_setupFrame_head gameId coords hg).2
  have hother := @setUpGame_find_other _ B conn reg _ htext A hAB
  rw [(Split_setupFrame_head gameId coords hg).1, hA] at hother
  have hmk : String.mk gameId.data = gameId := rfl
  simp only [Option.map_some', hmk, hAg, if_true] at hother
  refine ⟨hpan, _, _, hother, hself, rfl, hoppA, rfl, rfl⟩

theorem setUpGame_pairs_symmetric_witness :
    (setUpGame (setupFrame "g1" sampleCoords) 2 200 waitingUsers).panicked = false ∧
    ∃ a' b', find (setUpGame (setupFrame "g1" sampleCoords) 2 200 waitingUsers).users 1 = some a' ∧
      find (setUpGame (setupFrame "g1" sampleCoords) 2 200 waitingUsers).users 2 = some b' ∧
      a'.opponentID = 2 ∧ b'.opponentID = 1 ∧ a'.turn = true ∧ b'.turn = false :=
  setUpGame_pairs_symmetric waitingUsers 1 2 waitingPlayer "g1" sampleCoords 200
    (by decide) (by decide) (by decide) (by decide) (by decide)
    (by
      intro k e hk _
      by_cases h : k = 1
      · exact h
      · simp [waitingUsers, find, Ne.symm h] at hk)
    (by decide)

/-- C8 (as stated, refuted): identities 1 and 2 are paired with each other in
game `g1`; after identity 3 sets up with game identifier `g1`, both have
`opponentID = 3` and identity 2, whose `turn` was false, has `turn = true`. -/
theorem setUpGame_relinks_counterexample :
    find pairedUsers 1 = some firstPlayer ∧ find pairedUsers 2 = some secondPlayer ∧
    firstPlayer.opponentID = 2 ∧ secondPlayer.opponentID = 1 ∧
    firstPlayer.gameID = "g1" ∧ secondPlayer.gameID = "g1" ∧ secondPlayer.turn = false ∧
    find (setUpGame (setupFrame "g1" sampleCoords) 3 300 pairedUsers).users 1 =
      some { firstPlayer with opponentID := 3 } ∧
    find (setUpGame (setupFrame "g1" sampleCoords) 3 300 pairedUsers).users 2 =
      some { secondPlayer with opponentID := 3, turn := true } := by
  decide

/-- C8 (amended): the loop of `setUpGame` does not look at `opponentID`. When
a setup frame with game identifier `g` (no `;` in it) is processed for a new
identity `C`, two
entries `A` and `B` with game identifier `g`, paired with each other or not,
both end with `opponentID = C` and `turn = true`; an entry whose game
identifier differs from `g` is left unchanged. -/
theorem setUpGame_relinks_same_game (reg : Registry) (A B C : Int) (a b : connectedUser)
    (gameId : String) (coords : List Nat) (conn : Conn)
    (hg : ';' ∉ gameId.data)
    (hA : find reg A = some a) (hB : find reg B = some b)
    (hAg : a.gameID = gameId) (hBg : b.gameID = gameId)
    (hCA : C ≠ A) (hCB : C ≠ B) :
    find (setUpGame (setupFrame gameId coords) C conn reg).users A =
      some { a with opponentID := C, turn := true } ∧
    find (setUpGame (setupFrame gameId coords) C conn reg).users B =
      some { b with opponentID := C, turn := true } ∧
    ∀ k e, k ≠ C → find reg k = some e → e.gameID ≠ gameId →
      find (setUpGame (setupFrame gameId coords) C conn reg).users k = some e := by
  obtain ⟨text, htext⟩ := (Split_setupFrame_head gameId coords hg).2
  have hmk : String.mk gameId.data = gameId := rfl
  have hother := fun k hk =>
    @setUpGame_find_other _ C conn reg _ htext k hk
  simp only [(Split_setupFrame_head gameId coords hg).1, hmk] at hother
  refine ⟨?_, ?_, ?_⟩
  · rw [hother A (Ne.symm hCA), hA]; simp [hAg]
  · rw [hother B (Ne.symm hCB), hB]; simp [hBg]
  · intro k e hk he hne
    rw [hother k hk, he]; simp [hne]

theorem setUpGame_relinks_same_game_witness :
    find (setUpGame (setupFrame "g1" sampleCoords) 3 300 pairedUsers).users 1 =
      some { firstPlayer with opponentID := 3, turn := true } ∧
    find (setUpGame (setupFrame "g1" sampleCoords) 3 300 pairedUsers).users 2 =
      some { secondPlayer with opponentID := 3, turn := true } ∧
    ∀ k e, k ≠ 3 → find pairedUsers k = some e → e.gameID ≠ "g1" →
      find (setUpGame (setupFrame "g1" sampleCoords) 3 300 pairedUsers).users k = some e :=
  setUpGame_relinks_same_game pairedUsers 1 2 3 firstPlayer secondPlayer "g1" sampleCoords 300
    (by decide) (by decide) (by decide) (by decide) (by decide) (by decide) (by decide)

/-! ## Every registry that `handleMove` can leave behind -/

theorem find_modify_isSome (reg : Registry) (k k' : Int) (f : connectedUser → connectedUser) :
    (find (modify reg k f) k').isSome = (find reg k').isSome := by
  rw [find_modify]
  split <;> simp

theorem handleMove_users_cases (message : String) (userID : Int) (reg : Registry) :
    (handleMove message userID reg).users = reg ∨
    ∃ user guess, find reg userID = some user ∧
      ((find reg user.opponentID = none ∧
        (handleMove message userID reg).users =
          modify (modify reg userID (fun u => { u with guessLocations := guess }))
            userID (fun u => { u with turn := false })) ∨
      (find reg user.opponentID ≠ none ∧
        ((handleMove message userID reg).users =
          modify (modify (modify reg userID (fun u => { u with guessLocations := guess }))
            userID (fun u => { u with turn := false }))
            user.opponentID (fun u => { u with turn := true }) ∨
         (handleMove message userID reg).users =
          delete (delete
            (modify (modify (modify reg userID (fun u => { u with guessLocations := guess }))
              userID (fun u => { u with turn := false }))
              user.opponentID (fun u => { u with turn := true })) userID) user.opponentID))) := by
  unfold handleMove handleMoveBody
  cases hm : moveCoords message with
  | none => left; rfl
  | some xy =>
    obtain ⟨x, y⟩ := xy
    simp only []
    cases hu : find reg userID with
    | none => left; rfl
    | some user =>
      simp only []
      cases ha : user.guessLocations.assign x y with
      | none => left; rfl
      | some guess =>
        right
        refine ⟨user, guess, rfl, ?_⟩
        simp only []
        have hsome2 : (find (modify (modify reg userID
            (fun u => { u with guessLocations := guess })) userID
            (fun u => { u with turn := false })) user.opponentID).isSome =
            (find reg user.opponentID).isSome := by
          rw [find_modify_isSome, find_modify_isSome]
        cases h2 : find (modify (modify reg userID (fun u => { u with guessLocations := guess }))
            userID (fun u => { u with turn := false })) user.opponentID with
        | none =>
          left
          refine ⟨?_, rfl⟩
          rw [h2] at hsome2
          cases hf : find reg user.opponentID with
          | none => rfl
          | some v => rw [hf] at hsome2; simp at hsome2
        | some o2 =>
          right
          refine ⟨?_, ?_⟩
          · intro hnone
            rw [h2, hnone] at hsome2; simp at hsome2
          · simp only []
            generalize hU3 : modify (modify (modify reg userID
              (fun u => { u with guessLocations := guess })) userID
              (fun u => { u with turn := false })) user.opponentID
              (fun u => { u with turn := true }) = U3
            cases find U3 userID with
            | none => left; rfl
            | some u3 =>
              cases find U3 user.opponentID with
              | none => left; rfl
              | some o3 =>
                simp only []
                cases u3.guessLocations.index x y with
                | none => left; rfl
                | some g =>
                  simp only []
                  cases (if g = true then o3.pieceLocations.index x y else some false) with
                  | none => left; rfl
                  | some isHit =>
                    simp only []
                    cases gameOver u3.guessLocations o3.pieceLocations with
                    | none => left; rfl
                    | some over =>
                      simp only []
                      cases over
                      · left; rfl
                      · right; rfl

/-! ## Preservation of the pairing property -/

theorem find_eq_some_iff_mem (reg : Registry) (hnd : (keys reg).Nodup) (k : Int)
    (u : connectedUser) : find reg k = some u ↔ (k, u) ∈ reg := by
  induction reg with
  | nil => simp [find]
  | cons e rest ih =>
    simp only [keys, List.map_cons, List.nodup_cons] at hnd
    have ih' := ih hnd.2
    by_cases hk : e.1 = k
    · simp only [find, hk, if_true, List.mem_cons]
      constructor
      · intro h
        left
        rw [← hk, ← Option.some.inj h]
      · rintro (h | h)
        · rw [← h]
        · exfalso
          apply hnd.1
          rw [hk]
          exact List.mem_map.mpr ⟨(k, u), h, rfl⟩
    · simp only [find, hk, if_false, List.mem_cons]
      rw [ih']
      constructor
      · exact Or.inr
      · rintro (h | h)
        · exfalso; apply hk; rw [← h]
        · exact h

theorem find_perm {reg reg' : Registry} (hnd : (keys reg).Nodup) (hp : reg.Perm reg')
    (k : Int) : find reg' k = find reg k := by
  have hnd' : (keys reg').Nodup := (hp.map Prod.fst).nodup_iff.mp hnd
  apply Option.ext
  intro u
  simp only [Option.mem_def]
  rw [find_eq_some_iff_mem reg' hnd', find_eq_some_iff_mem reg hnd]
  exact hp.symm.mem_iff

/-- A change of entries that keeps every `opponentID` and `gameID`, and keeps
"exactly one of the two has the turn" for every pair, keeps the pairing
property. -/
theorem pairing_pointwise (reg reg' : Registry) (F : Int → connectedUser → connectedUser)
    (hfind : ∀ k, find reg' k = (find reg k).map (F k))
    (hopp : ∀ k u, (F k u).opponentID = u.opponentID)
    (hgame : ∀ k u, (F k u).gameID = u.gameID)
    (hturn : ∀ k u o, find reg k = some u → u.opponentID ≠ -1 →
      find reg u.opponentID = some o → o.opponentID = k →
      ((u.turn = true ∧ o.turn = false) ∨ (u.turn = false ∧ o.turn = true)) →
      (((F k u).turn = true ∧ (F u.opponentID o).turn = false) ∨
        ((F k u).turn = false ∧ (F u.opponentID o).turn = true)))
    (hP : PairingInvariant reg) : PairingInvariant reg' := by
  intro k u' hu' hne
  rw [hfind k] at hu'
  cases hu : find reg k with
  | none => rw [hu] at hu'; exact Option.noConfusion hu'
  | some u =>
    rw [hu] at hu'
    have hu'' : u' = F k u := (Option.some.inj hu').symm
    subst hu''
    rw [hopp] at hne ⊢
    obtain ⟨o, ho, hback, hg, hx⟩ := hP k u hu hne
    refine ⟨F u.opponentID o, ?_, ?_, ?_, ?_⟩
    · rw [hfind, ho]; rfl
    · rw [hopp]; exact hback
    · rw [hgame, hgame]; exact hg
    · exact hturn k u o hu hne ho hback hx

/-- Removing both entries of a pair keeps the pairing property. -/
theorem pairing_delete (reg : Registry) (A B : Int) (a b : connectedUser)
    (hA : find reg A = some a) (hB : find reg B = some b)
    (hab : a.opponentID = B) (hba : b.opponentID = A)
    (hP : PairingInvariant reg) : PairingInvariant (delete (delete reg A) B) := by
  intro k u hu hne
  simp only [find_delete] at hu
  split at hu
  · exact Option.noConfusion hu
  · rename_i hkB
    split at hu
    · exact Option.noConfusion hu
    · rename_i hkA
      obtain ⟨o, ho, hback, hg, hx⟩ := hP k u hu hne
      refine ⟨o, ?_, hback, hg, hx⟩
      simp only [find_delete]
      have h1 : ¬ u.opponentID = B := by
        intro h
        rw [h, hB] at ho
        rw [← Option.some.inj ho, hba] at hback
        exact hkA hback.symm
      have h2 : ¬ u.opponentID = A := by
        intro h
        rw [h, hA] at ho
        rw [← Option.some.inj ho, hab] at hback
        exact hkB hback.symm
      rw [if_neg h1, if_neg h2]
      exact ho

theorem nonneg_of_find_modify {reg : Registry} (hK : ∀ k u, find reg k = some u → 0 ≤ k)
    (k' : Int) (f : connectedUser → connectedUser) :
    ∀ k u, find (modify reg k' f) k = some u → 0 ≤ k := by
  intro k u hu
  have h := find_modify_isSome reg k' k f
  rw [hu] at h
  cases hf : find reg k with
  | none => rw [hf] at h; simp at h
  | some v => exact hK k v hf

theorem nonneg_of_find_delete {reg : Registry} (hK : ∀ k u, find reg k = some u → 0 ≤ k)
    (k' : Int) : ∀ k u, find (delete reg k') k = some u → 0 ≤ k := by
  intro k u hu
  rw [find_delete] at hu
  split at hu
  · exact Option.noConfusion hu
  · exact hK k u hu

theorem nodup_keys_delete {reg : Registry} (hnd : (keys reg).Nodup) (k : Int) :
    (keys (delete reg k)).Nodup := by
  rw [keys_delete]; exact hnd.filter _

/-- `handleMove`, whatever the frame and whether it returns or panics, keeps
the keys distinct and non-negative and keeps the pairing property. -/
theorem handleMove_preserves (message : String) (userID : Int) (reg : Registry)
    (hnd : (keys reg).Nodup) (hK : ∀ k u, find reg k = some u → 0 ≤ k)
    (hP : PairingInvariant reg) :
    (keys (handleMove message userID reg).users).Nodup ∧
    (∀ k u, find (handleMove message userID reg).users k = some u → 0 ≤ k) ∧
    PairingInvariant (handleMove message userID reg).users := by
  rcases handleMove_users_cases message userID reg with h | ⟨user, guess, hu, h⟩
  · rw [h]; exact ⟨hnd, hK, hP⟩
  · rcases h with ⟨habs, h⟩ | ⟨hpres, h⟩
    · -- the opponent is absent: the call panics on line 128
      rw [h]
      refine ⟨by rw [keys_modify, keys_modify]; exact hnd,
        nonneg_of_find_modify (nonneg_of_find_modify hK _ _) _ _, ?_⟩
      apply pairing_pointwise reg _
        (fun k u => if k = userID then
          { u with guessLocations := guess, turn := false } else u) ?_ ?_ ?_ ?_ hP
      · intro k
        rw [find_modify, find_modify]
        by_cases hk : k = userID
        · simp only [hk, if_true, Option.map_map]; rfl
        · simp only [hk, if_false]
          cases find reg k <;> rfl
      · intro k u; by_cases hk : k = userID <;> simp [hk]
      · intro k u; by_cases hk : k = userID <;> simp [hk]
      · intro k u o hku hne ho hback hx
        by_cases hk : k = userID
        · exfalso
          rw [hk, hu] at hku
          rw [← Option.some.inj hku, habs] at ho
          exact Option.noConfusion ho
        · by_cases hk2 : u.opponentID = userID
          · exfalso
            rw [hk2, hu] at ho
            rw [← Option.some.inj ho] at hback
            rw [hback, hku] at habs
            exact Option.noConfusion habs
          · simp only [hk, hk2, if_false]; exact hx
    · -- the opponent is present
      cases ho : find reg user.opponentID with
      | none => exact absurd ho hpres
      | some o =>
        have hne1 : user.opponentID ≠ -1 := by
          have := hK _ _ ho
          omega
        obtain ⟨o', ho', hback, hg, hx⟩ := hP userID user hu hne1
        rw [ho] at ho'
        have hoo : o' = o := (Option.some.inj ho').symm
        subst hoo
        have hne2 : user.opponentID ≠ userID := by
          intro heq
          rw [heq, hu] at ho
          have : o' = user := (Option.some.inj ho).symm
          subst this
          rcases hx with ⟨h1, h2⟩ | ⟨h1, h2⟩ <;> rw [h1] at h2 <;> exact Bool.noConfusion h2
        have hne2' : ¬ userID = user.opponentID := fun e => hne2 e.symm
        have hPU3 : PairingInvariant
            (modify (modify (modify reg userID (fun u => { u with guessLocations := guess }))
              userID (fun u => { u with turn := false }))
              user.opponentID (fun u => { u with turn := true })) := by
          apply pairing_pointwise reg _
            (fun k u => if k = userID then
              { u with guessLocations := guess, turn := false }
              else if k = user.opponentID then { u with turn := true } else u) ?_ ?_ ?_ ?_ hP
          · intro k
            rw [find_modify, find_modify, find_modify]
            by_cases hk : k = userID
            · simp only [hk, hne2', if_true, if_false, Option.map_map]; rfl
            · by_cases hk2 : k = user.opponentID
              · simp only [hk, hk2, hne2, if_true, if_false]
              · simp only [hk, hk2, if_false]
                cases find reg k <;> rfl
          · intro k u
            simp only []
            split
            · rfl
            · split <;> rfl
          · intro k u
            simp only []
            split
            · rfl
            · split <;> rfl
          · intro k u o2 hku hne ho2 hback2 hx2
            by_cases hk : k = userID
            · rw [hk, hu] at hku
              have : u = user := (Option.some.inj hku).symm
              subst this
              right
              simp [hk, hne2]
            · by_cases hk2 : k = user.opponentID
              · rw [hk2, ho] at hku
                have : u = o' := (Option.some.inj hku).symm
                subst this
                left
                simp [hk2, hne2, hback]
              · have hk3 : ¬ u.opponentID = userID := by
                  intro heq
                  rw [heq, hu] at ho2
                  rw [← Option.some.inj ho2] at hback2
                  exact hk2 hback2.symm
                have hk4 : ¬ u.opponentID = user.opponentID := by
                  intro heq
                  rw [heq, ho] at ho2
                  rw [← Option.some.inj ho2, hback] at hback2
                  exact hk hback2.symm
                simp only [hk, hk2, hk3, hk4, if_false]
                exact hx2
        rcases h with h | h
        · rw [h]
          exact ⟨by rw [keys_modify, keys_modify, keys_modify]; exact hnd,
            nonneg_of_find_modify (nonneg_of_find_modify (nonneg_of_find_modify hK _ _) _ _) _ _,
            hPU3⟩
        · rw [h]
          refine ⟨nodup_keys_delete (nodup_keys_delete
              (by rw [keys_modify, keys_modify, keys_modify]; exact hnd) _) _,
            nonneg_of_find_delete (nonneg_of_find_delete
              (nonneg_of_find_modify (nonneg_of_find_modify
                (nonneg_of_find_modify hK _ _) _ _) _ _) _) _, ?_⟩
          apply pairing_delete _ userID user.opponentID
            { user with guessLocations := guess, turn := false } { o' with turn := true }
            ?_ ?_ rfl hback hPU3
          · rw [find_modify, find_modify, find_modify, hu]
            simp [hne2']
          · rw [find_modify, find_modify, find_modify, ho]
            simp [hne2]

theorem setUpGame_users_of_no_part {message : String} {userID : Int} {conn : Conn}
    {reg : Registry} (h : (Split message.data ';')[1]? = none) :
    (setUpGame message userID conn reg).users = reg := by
  unfold setUpGame
  simp only [h]

theorem keys_store_of_absent (reg : Registry) (k : Int) (u : connectedUser)
    (h : find reg k = none) : keys (store reg k u) = keys reg ++ [k] := by
  simp [store, h, keys]

/-- The new entry after `setUpGame` on a frame that has a `;`, and where its
`opponentID` comes from. -/
theorem setUpGame_find_self {message : String} {userID : Int} {conn : Conn} {reg : Registry}
    {text : List Char} (h : (Split message.data ';')[1]? = some text) :
    ∃ opp board,
      find (setUpGame message userID conn reg).users userID =
        some { connection := conn, opponentID := opp,
               gameID := String.mk ((Split message.data ';').headD []),
               pieceLocations := board, guessLocations := emptyBoard, turn := false } ∧
      ((opp = -1 ∧ ∀ k e, find reg k = some e →
          e.gameID ≠ String.mk ((Split message.data ';').headD [])) ∨
        (∃ e, find reg opp = some e ∧
          e.gameID = String.mk ((Split message.data ';').headD []))) := by
  obtain ⟨h1, -, -, h4⟩ := linkFold_spec userID (keys reg)
    { connection := conn, opponentID := -1,
      gameID := String.mk ((Split message.data ';').headD []),
      pieceLocations := emptyBoard, guessLocations := emptyBoard, turn := false } reg
  rw [setUpGame_users h, find_modify, if_pos rfl, find_store, if_pos rfl]
  generalize (keys reg).foldl (linkStep userID)
    ({ connection := conn, opponentID := -1,
       gameID := String.mk ((Split message.data ';').headD []),
       pieceLocations := emptyBoard, guessLocations := emptyBoard, turn := false }, reg)
    = linked at h1 h4
  obtain ⟨⟨c, o, g, p, gl, t⟩, L2⟩ := linked
  simp only [connectedUser.mk.injEq, true_and] at h1
  obtain ⟨hc, hg, hp, hgl, ht⟩ := h1
  subst hc hg hp hgl ht
  refine ⟨o, _, rfl, ?_⟩
  rcases h4 with ⟨h5, h6⟩ | ⟨-, e, he, heg⟩
  · left
    refine ⟨h5, ?_⟩
    intro k e he
    exact h6 k ((find_isSome_iff_mem_keys reg k).mp (by simp [he])) e he
  · right
    exact ⟨e, he, heg⟩

theorem setUpGame_keys {message : String} {userID : Int} {conn : Conn} {reg : Registry}
    {text : List Char} (h : (Split message.data ';')[1]? = some text)
    (habs : find reg userID = none) :
    keys (setUpGame message userID conn reg).users = keys reg ++ [userID] := by
  obtain ⟨-, h2, h3, -⟩ := linkFold_spec userID (keys reg)
    { connection := conn, opponentID := -1,
      gameID := String.mk ((Split message.data ';').headD []),
      pieceLocations := emptyBoard, guessLocations := emptyBoard, turn := false } reg
  rw [setUpGame_users h, keys_modify, keys_store_of_absent, h2]
  rw [h3, habs]; rfl

/-- `setUpGame` for an identity that has no entry, under the proviso that at
most one existing entry has the frame's game identifier, keeps the keys
distinct and non-negative and keeps the pairing property, whether the call
returns or panics. -/
theorem setUpGame_preserves (message : String) (userID : Int) (conn : Conn) (reg : Registry)
    (hnd : (keys reg).Nodup) (hK : ∀ k u, find reg k = some u → 0 ≤ k)
    (hP : PairingInvariant reg) (hid : 0 ≤ userID) (habs : find reg userID = none)
    (hguard : SetupGuard message reg) :
    (keys (setUpGame message userID conn reg).users).Nodup ∧
    (∀ k u, find (setUpGame message userID conn reg).users k = some u → 0 ≤ k) ∧
    PairingInvariant (setUpGame message userID conn reg).users := by
  cases h : (Split message.data ';')[1]? with
  | none => rw [setUpGame_users_of_no_part h]; exact ⟨hnd, hK, hP⟩
  | some text =>
    have hother := fun k hk =>
      @setUpGame_find_other _ userID conn reg _ h k hk
    obtain ⟨opp, board, hself, hopp⟩ :=
      @setUpGame_find_self _ userID conn reg _ h
    have hnotin : userID ∉ keys reg := by
      intro hmem
      have := (find_isSome_iff_mem_keys reg userID).mpr hmem
      rw [habs] at this; exact Bool.noConfusion this
    refine ⟨?_, ?_, ?_⟩
    · rw [setUpGame_keys h habs]
      exact List.Nodup.append hnd (List.nodup_singleton _) (by simpa using hnotin)
    · intro k u hku
      by_cases hk : k = userID
      · rw [hk]; exact hid
      · rw [hother k hk] at hku
        cases hf : find reg k with
        | none => rw [hf] at hku; exact Option.noConfusion hku
        | some e => exact hK k e hf
    · intro k u hku hne
      by_cases hk : k = userID
      · -- the new entry
        rw [hk, hself] at hku
        have hu : u = _ := (Option.some.inj hku).symm
        subst hu
        rcases hopp with ⟨h1, -⟩ | ⟨e, he, heg⟩
        · exact absurd h1 hne
        · have hoppne : opp ≠ userID := by
            intro heq; rw [heq, habs] at he; exact Option.noConfusion he
          refine ⟨{ e with opponentID := userID, turn := true }, ?_, hk.symm, heg, Or.inr ⟨rfl, rfl⟩⟩
          rw [hother opp hoppne, he]
          simp only [Option.map_some']
          rw [if_pos heg]
      · -- an entry that was there before
        rw [hother k hk] at hku
        cases hf : find reg k with
        | none => rw [hf] at hku; exact Option.noConfusion hku
        | some e0 =>
          rw [hf] at hku
          simp only [Option.map_some', Option.some.injEq] at hku
          by_cases hg0 : e0.gameID = String.mk ((Split message.data ';').headD [])
          · rw [if_pos hg0] at hku
            subst hku
            rcases hopp with ⟨-, hnone⟩ | ⟨e, he, heg⟩
            · exact absurd hg0 (hnone k e0 hf)
            · have hoppk : opp = k := hguard.2 opp k e e0 he hf heg hg0
              exact ⟨_, hself, hoppk, hg0.symm, Or.inl ⟨rfl, rfl⟩⟩
          · rw [if_neg hg0] at hku
            subst hku
            obtain ⟨o0, ho0, hback, hg, hx⟩ := hP k e0 hf hne
            have hne0 : e0.opponentID ≠ userID := by
              intro heq; rw [heq, habs] at ho0; exact Option.noConfusion ho0
            refine ⟨o0, ?_, hback, hg, hx⟩
            rw [hother _ hne0, ho0]
            have : ¬ o0.gameID = String.mk ((Split message.data ';').headD []) := by
              rw [hg]; exact hg0
            simp only [Option.map_some']
            rw [if_neg this]

/-! ## The reachable registries -/

theorem reachable_invariants {reg : Registry} (h : Reachable reg) :
    (keys reg).Nodup ∧ (∀ k u, find reg k = some u → 0 ≤ k) ∧ PairingInvariant reg := by
  induction h with
  | empty =>
    refine ⟨List.nodup_nil, ?_, ?_⟩
    · intro k u hu; exact Option.noConfusion hu
    · intro k u hu; exact Option.noConfusion hu
  | @step reg message userID conn _ hid hguard ih =>
    obtain ⟨hnd, hK, hP⟩ := ih
    unfold playHandlerStep
    cases hf : find reg userID with
    | none => exact setUpGame_preserves message userID conn reg hnd hK hP hid hf (hguard hf)
    | some u => exact handleMove_preserves message userID reg hnd hK hP
  | @reorder reg reg' _ hperm ih =>
    obtain ⟨hnd, hK, hP⟩ := ih
    refine ⟨(hperm.map Prod.fst).nodup_iff.mp hnd, ?_, ?_⟩
    · intro k u hu
      rw [find_perm hnd hperm] at hu
      exact hK k u hu
    · intro k u hu hne
      rw [find_perm hnd hperm] at hu
      obtain ⟨o, ho, rest⟩ := hP k u hu hne
      exact ⟨o, by rw [find_perm hnd hperm]; exact ho, rest⟩

theorem reachable_waitingUsers : Reachable waitingUsers := by
  have h := Reachable.step (setupFrame "g1" sampleCoords) 1 100 Reachable.empty (by decide)
    (fun _ => ⟨fun k e hk => Option.noConfusion hk, fun k k' e e' hk => Option.noConfusion hk⟩)
  have heq : (playHandlerStep (setupFrame "g1" sampleCoords) 1 100 []).users = waitingUsers := by
    decide
  rw [heq] at h
  exact h

theorem find_waitingUsers {k : Int} {e : connectedUser} (h : find waitingUsers k = some e) :
    k = 1 ∧ e = waitingPlayer := by
  by_cases hk : k = 1
  · subst hk
    exact ⟨rfl, (Option.some.inj h).symm⟩
  · have hk' : ¬ (1 : Int) = k := fun e => hk e.symm
    simp [waitingUsers, find, hk'] at h

theorem reachable_pairedUsers : Reachable pairedUsers := by
  have h := Reachable.step (setupFrame "g1" sampleCoords) 2 200 reachable_waitingUsers
    (by decide)
    (fun _ => ⟨fun k e hk _ => by rw [(find_waitingUsers hk).2]; rfl,
      fun k k' e e' hk hk' _ _ => by rw [(find_waitingUsers hk).1, (find_waitingUsers hk').1]⟩)
  have heq : (playHandlerStep (setupFrame "g1" sampleCoords) 2 200 waitingUsers).users
      = pairedUsers := by
    decide
  rw [heq] at h
  exact h

/-- C5: in every registry reachable from the empty one by rounds of the
receive loop (`setUpGame` for an identity without entry, `handleMove`
otherwise), with non-negative identities and with every setup finding at most
one existing entry with its game identifier, that entry unpaired, every entry
whose `opponentID` is not -1 has its opponent present, the opponent's
`opponentID` points back to it, both have the same `gameID`, and exactly one of
the two has `turn = true`. -/
theorem reachable_pairing (reg : Registry) (h : Reachable reg) :
    ∀ k u, find reg k = some u → u.opponentID ≠ -1 →
      ∃ o, find reg u.opponentID = some o ∧ o.opponentID = k ∧ o.gameID = u.gameID ∧
        ((u.turn = true ∧ o.turn = false) ∨ (u.turn = false ∧ o.turn = true)) :=
  (reachable_invariants h).2.2

theorem reachable_pairing_witness :
    Reachable pairedUsers ∧
    ∀ k u, find pairedUsers k = some u → u.opponentID ≠ -1 →
      ∃ o, find pairedUsers u.opponentID = some o ∧ o.opponentID = k ∧ o.gameID = u.gameID ∧
        ((u.turn = true ∧ o.turn = false) ∨ (u.turn = false ∧ o.turn = true)) :=
  ⟨reachable_pairedUsers, reachable_pairing pairedUsers reachable_pairedUsers⟩

/-! ## Setups that find no entry, or exactly one -/

theorem linkFold_no_match (userID : Int) (user : connectedUser) (reg : Registry)
    (hnone : ∀ k e, find reg k = some e → e.gameID ≠ user.gameID) :
    ∀ L : List Int, L.foldl (linkStep userID) (user, reg) = (user, reg) := by
  intro L
  induction L with
  | nil => rfl
  | cons key L ih =>
    rw [List.foldl_cons, linkStep_eq, if_neg, ih]
    rintro ⟨e, he, heg⟩
    exact hnone key e he heg

theorem modify_of_absent (reg : Registry) (k : Int) (f : connectedUser → connectedUser)
    (h : find reg k = none) : modify reg k f = reg := by
  induction reg with
  | nil => rfl
  | cons e rest ih =>
    by_cases hk : e.1 = k
    · simp [find, hk] at h
    · simp only [find, hk, if_false] at h
      have := ih h
      simp only [modify, List.map_cons, hk, if_false] at this ⊢
      rw [this]

/-- The run of `setUpGame` on a setup frame with 34 coordinates in `0..9`, in
terms of what the linking loop returns. -/
theorem setUpGame_setupFrame_run {gameId : String} {coords : List Nat}
    (hg : ';' ∉ gameId.data) (hlen : coords.length = 34) (hc : ∀ c ∈ coords, c ≤ 9)
    (userID : Int) (conn : Conn) (reg : Registry) (linked : connectedUser × Registry)
    (hlk : (keys reg).foldl (linkStep userID)
      ({ connection := conn, opponentID := -1, gameID := gameId,
         pieceLocations := emptyBoard, guessLocations := emptyBoard, turn := false }, reg)
      = linked) :
    setUpGame (setupFrame gameId coords) userID conn reg =
      (if linked.1.opponentID ≠ -1 then
        match find (modify (store linked.2 userID linked.1) userID
            (fun u => { u with pieceLocations := placeAll coords })) linked.1.opponentID with
        | none => ⟨modify (store linked.2 userID linked.1) userID
            (fun u => { u with pieceLocations := placeAll coords }),
            [(conn, "opponent's turn")], true⟩
        | some opponent => ⟨modify (store linked.2 userID linked.1) userID
            (fun u => { u with pieceLocations := placeAll coords }),
            [(conn, "opponent's turn"), (opponent.connection, "your turn")], false⟩
      else ⟨modify (store linked.2 userID linked.1) userID
            (fun u => { u with pieceLocations := placeAll coords }), [], false⟩) := by
  have hparts := Split_setupFrame gameId coords hg hc
  have hne : coords ≠ [] := by intro h; rw [h] at hlen; simp at hlen
  have htok := Split_joinComma coords hc hne
  have hidx : ∀ i ∈ List.range' 0 17 2, i + 1 < coords.length := by
    intro i hi
    rw [List.mem_range'] at hi
    obtain ⟨j, hj, rfl⟩ := hi
    omega
  have hplace := placeFold_ok coords hc (List.range' 0 17 2) emptyBoard TenByTen_emptyBoard hidx
  have h1 := (linkFold_spec userID (keys reg)
    { connection := conn, opponentID := -1, gameID := gameId,
      pieceLocations := emptyBoard, guessLocations := emptyBoard, turn := false } reg).1
  rw [hlk] at h1
  have hpl : linked.1.pieceLocations = emptyBoard := by rw [h1]
  have hgid : String.mk ((Split (setupFrame gameId coords).data ';').headD []) = gameId := by
    rw [hparts]; rfl
  have hsecond : (Split (setupFrame gameId coords).data ';')[1]? =
      some (joinComma (coords.map (fun (c : Nat) => Itoa (c : Int)))).data := by
    rw [hparts]; rfl
  exact @setUpGame_run _ userID conn reg _ (placeAll coords) linked hsecond
    (by rw [hgid]; exact hlk) (by rw [htok, hpl]; exact hplace)

/-- A valid setup that finds no entry with its game identifier, for an identity
without entry: the registry gains the waiting entry at its end and nothing else
happens. -/
theorem setUpGame_unmatched_run {gameId : String} {coords : List Nat}
    (hg : ';' ∉ gameId.data) (hlen : coords.length = 34) (hc : ∀ c ∈ coords, c ≤ 9)
    (userID : Int) (conn : Conn) (reg : Registry)
    (habs : find reg userID = none)
    (hnone : ∀ k e, find reg k = some e → e.gameID ≠ gameId) :
    setUpGame (setupFrame gameId coords) userID conn reg =
      ⟨reg ++ [(userID,
          { connection := conn, opponentID := -1, gameID := gameId,
            pieceLocations := placeAll coords, guessLocations := emptyBoard, turn := false })],
        [], false⟩ := by
  have hlk := linkFold_no_match userID
    { connection := conn, opponentID := -1, gameID := gameId,
      pieceLocations := emptyBoard, guessLocations := emptyBoard, turn := false } reg hnone
    (keys reg)
  rw [setUpGame_setupFrame_run hg hlen hc userID conn reg _ hlk]
  simp only [ne_eq, not_true_eq_false, if_false, store, habs]
  have hm : modify (reg ++ [(userID,
      ({ connection := conn, opponentID := -1, gameID := gameId,
         pieceLocations := emptyBoard, guessLocations := emptyBoard, turn := false } :
        connectedUser))]) userID
      (fun u => { u with pieceLocations := placeAll coords }) =
      reg ++ [(userID,
        { connection := conn, opponentID := -1, gameID := gameId,
          pieceLocations := placeAll coords, guessLocations := emptyBoard, turn := false })] := by
    have h0 := modify_of_absent reg userID
      (fun u => { u with pieceLocations := placeAll coords }) habs
    simp only [modify, List.map_append, List.map_cons, List.map_nil, if_true] at h0 ⊢
    rw [h0]
  rw [hm]

/-- A valid setup for an identity `B` without entry, when `A` is the only entry
with the frame's game identifier: both are linked, `A` gets the turn, and when
`A` is not -1 the two notices are written, the second on `A`'s connection. -/
theorem setUpGame_joins_waiting {gameId : String} {coords : List Nat}
    (hg : ';' ∉ gameId.data) (hlen : coords.length = 34) (hc : ∀ c ∈ coords, c ≤ 9)
    (reg : Registry) (A B : Int) (a : connectedUser) (conn : Conn)
    (hA : find reg A = some a) (hAg : a.gameID = gameId)
    (honly : ∀ k e, find reg k = some e → e.gameID = gameId → k = A)
    (hB : find reg B = none) :
    (setUpGame (setupFrame gameId coords) B conn reg).panicked = false ∧
    find (setUpGame (setupFrame gameId coords) B conn reg).users A =
      some { a with opponentID := B, turn := true } ∧
    find (setUpGame (setupFrame gameId coords) B conn reg).users B =
      some { connection := conn, opponentID := A, gameID := gameId,
             pieceLocations := placeAll coords, guessLocations := emptyBoard,
             turn := false } ∧
    (A ≠ -1 → (setUpGame (setupFrame gameId coords) B conn reg).sent =
      [(conn, "opponent's turn"), (a.connection, "your turn")]) := by
  obtain ⟨opp, hopp, hself, hpan, -, hsent⟩ := setUpGame_valid hg hlen hc B conn reg
  have hAB : A ≠ B := by
    intro h; rw [h, hB] at hA; exact Option.noConfusion hA
  have hoppA : opp = A := by
    rcases hopp with ⟨-, hnone⟩ | ⟨e, he, heg⟩
    · exact absurd hAg (hnone A a hA)
    · exact honly opp e he heg
  subst hoppA
  obtain ⟨text, htext⟩ := (Split_setupFrame_head gameId coords hg).2
  have hother := @setUpGame_find_other _ B conn reg _ htext opp hAB
  rw [(Split_setupFrame_head gameId coords hg).1, hA] at hother
  have hmk : String.mk gameId.data = gameId := rfl
  simp only [Option.map_some', hmk] at hother
  rw [if_pos hAg] at hother
  refine ⟨hpan, hother, hself, ?_⟩
  intro hne
  obtain ⟨o, ho, hs⟩ := hsent hne
  rw [hother] at ho
  rw [hs, ← Option.some.inj ho]

/-- C14 (as stated, refuted): identities 1 and 2 set up game `g1` in this order
from the empty registry; once paired, identity 2, processed second, has
`turn = false` and identity 1, processed first, has `turn = true`. -/
theorem second_setup_turn_counterexample :
    (find (setUpGame (setupFrame "g1" sampleCoords) 2 200
      (setUpGame (setupFrame "g1" sampleCoords) 1 100 []).users).users 2).map
        (fun u => u.turn) = some false ∧
    (find (setUpGame (setupFrame "g1" sampleCoords) 2 200
      (setUpGame (setupFrame "g1" sampleCoords) 1 100 []).users).users 1).map
        (fun u => u.turn) = some true := by
  decide

/-- C14 (amended): when two identities `A` then `B`, neither with an entry, set
up with the same game identifier `g` (valid frames, `g` without `;`) from a
registry with no entry for `g`, then once pairing completes the participant
whose setup was processed first holds the turn (`turn = true`) and the one
processed second does not. -/
theorem first_setup_holds_turn (reg : Registry) (A B : Int) (gameId : String)
    (coordsA coordsB : List Nat) (connA connB : Conn)
    (hg : ';' ∉ gameId.data)
    (hlenA : coordsA.length = 34) (hcA : ∀ c ∈ coordsA, c ≤ 9)
    (hlenB : coordsB.length = 34) (hcB : ∀ c ∈ coordsB, c ≤ 9)
    (hAabs : find reg A = none) (hBabs : find reg B = none) (hAB : A ≠ B)
    (hnone : ∀ k e, find reg k = some e → e.gameID ≠ gameId) :
    (setUpGame (setupFrame gameId coordsA) A connA reg).panicked = false ∧
    (setUpGame (setupFrame gameId coordsB) B connB
      (setUpGame (setupFrame gameId coordsA) A connA reg).users).panicked = false ∧
    (find (setUpGame (setupFrame gameId coordsB) B connB
      (setUpGame (setupFrame gameId coordsA) A connA reg).users).users A).map
        (fun u => u.turn) = some true ∧
    (find (setUpGame (setupFrame gameId coordsB) B connB
      (setUpGame (setupFrame gameId coordsA) A connA reg).users).users B).map
        (fun u => u.turn) = some false := by
  have h1 := setUpGame_unmatched_run hg hlenA hcA A connA reg hAabs hnone
  have hP : (setUpGame (setupFrame gameId coordsA) A connA reg).panicked = false := by rw [h1]
  have hU : (setUpGame (setupFrame gameId coordsA) A connA reg).users = reg ++ [(A,
      ({ connection := connA, opponentID := -1, gameID := gameId,
         pieceLocations := placeAll coordsA, guessLocations := emptyBoard, turn := false } :
        connectedUser))] := by rw [h1]
  rw [hU]
  have hfA : find (reg ++ [(A,
      ({ connection := connA, opponentID := -1, gameID := gameId,
         pieceLocations := placeAll coordsA, guessLocations := emptyBoard, turn := false } :
        connectedUser))]) A = some
      { connection := connA, opponentID := -1, gameID := gameId,
        pieceLocations := placeAll coordsA, guessLocations := emptyBoard, turn := false } := by
    rw [find_append, hAabs]; simp [find]
  have hfB : find (reg ++ [(A,
      ({ connection := connA, opponentID := -1, gameID := gameId,
         pieceLocations := placeAll coordsA, guessLocations := emptyBoard, turn := false } :
        connectedUser))]) B = none := by
    rw [find_append, hBabs]; simp [find, hAB]
  have honly : ∀ k e, find (reg ++ [(A,
      ({ connection := connA, opponentID := -1, gameID := gameId,
         pieceLocations := placeAll coordsA, guessLocations := emptyBoard, turn := false } :
        connectedUser))]) k = some e → e.gameID = gameId → k = A := by
    intro k e hk heg
    rw [find_append] at hk
    cases hf : find reg k with
    | some v =>
      rw [hf] at hk
      simp only [Option.orElse] at hk
      rw [← Option.some.inj hk] at heg
      exact absurd heg (hnone k v hf)
    | none =>
      rw [hf] at hk
      by_cases hkA : A = k
      · exact hkA.symm
      · simp [find, hkA] at hk
  obtain ⟨hpan, hA', hB', -⟩ := setUpGame_joins_waiting hg hlenB hcB _ A B _ connB hfA rfl
    honly hfB
  refine ⟨hP, hpan, ?_, ?_⟩
  · rw [hA']; rfl
  · rw [hB']; rfl

theorem first_setup_holds_turn_witness :
    (setUpGame (setupFrame "g1" sampleCoords) 1 100 []).panicked = false ∧
    (setUpGame (setupFrame "g1" sampleCoords) 2 200
      (setUpGame (setupFrame "g1" sampleCoords) 1 100 []).users).panicked = false ∧
    (find (setUpGame (setupFrame "g1" sampleCoords) 2 200
      (setUpGame (setupFrame "g1" sampleCoords) 1 100 []).users).users 1).map
        (fun u => u.turn) = some true ∧
    (find (setUpGame (setupFrame "g1" sampleCoords) 2 200
      (setUpGame (setupFrame "g1" sampleCoords) 1 100 []).users).users 2).map
        (fun u => u.turn) = some false :=
  first_setup_holds_turn [] 1 2 "g1" sampleCoords sampleCoords 100 200 (by decide) (by decide)
    (by decide) (by decide) (by decide) (by decide) (by decide) (by decide)
    (fun k e hk => Option.noConfusion hk)

/-- C15 (as stated, refuted): the only entry with game identifier `g1` is a
waiting one under identity -1. The valid setup frame of identity 2 for `g1`
completes the pairing (the waiting entry gets `opponentID = 2` and
`turn = true`) and returns without panic, yet no message is written: the
sender's `opponentID` is now -1, which line 112 takes for "no opponent". -/
theorem setUpGame_notices_counterexample :
    minusOneUsers = [(-1, waitingPlayer)] ∧
    waitingPlayer.gameID = "g1" ∧ waitingPlayer.opponentID = -1 ∧
    find minusOneUsers 2 = none ∧
    (setUpGame (setupFrame "g1" sampleCoords) 2 200 minusOneUsers).panicked = false ∧
    (find (setUpGame (setupFrame "g1" sampleCoords) 2 200 minusOneUsers).users (-1)).map
      (fun u => (u.connection, u.opponentID, u.turn)) = some (100, 2, true) ∧
    (find (setUpGame (setupFrame "g1" sampleCoords) 2 200 minusOneUsers).users 2).map
      (fun u => (u.connection, u.opponentID, u.turn)) = some (200, -1, false) ∧
    (setUpGame (setupFrame "g1" sampleCoords) 2 200 minusOneUsers).sent = [] := by
  decide

/-- C15 (amended): when `setUpGame` with a valid setup frame (game identifier
`g` without `;`, 34 coordinates in `0..9`) for a new identity `B` finds exactly
one entry `A` with game identifier `g`, and `A` is not -1 (the value the code
uses for "no opponent"), exactly two messages are written: `opponent's turn`
on the sender's connection and `your turn` on `A`'s connection; after the
setup the entry on the sender's connection has `turn = false` and the entry on
`A`'s connection has `turn = true`. -/
theorem setUpGame_notices_match_turn (reg : Registry) (A B : Int) (a : connectedUser)
    (gameId : String) (coords : List Nat) (conn : Conn)
    (hg : ';' ∉ gameId.data) (hlen : coords.length = 34) (hc : ∀ c ∈ coords, c ≤ 9)
    (hA : find reg A = some a) (hAg : a.gameID = gameId)
    (honly : ∀ k e, find reg k = some e → e.gameID = gameId → k = A)
    (hB : find reg B = none) (hA1 : A ≠ -1) :
    (setUpGame (setupFrame gameId coords) B conn reg).sent =
      [(conn, "opponent's turn"), (a.connection, "your turn")] ∧
    (find (setUpGame (setupFrame gameId coords) B conn reg).users B).map
      (fun u => (u.connection, u.turn)) = some (conn, false) ∧
    (find (setUpGame (setupFrame gameId coords) B conn reg).users A).map
      (fun u => (u.connection, u.turn)) = some (a.connection, true) := by
  obtain ⟨-, hA', hB', hsent⟩ := setUpGame_joins_waiting hg hlen hc reg A B a conn hA hAg
    honly hB
  refine ⟨hsent hA1, ?_, ?_⟩
  · rw [hB']; rfl
  · rw [hA']; rfl

theorem setUpGame_notices_match_turn_witness :
    (setUpGame (setupFrame "g1" sampleCoords) 2 200 waitingUsers).sent =
      [(200, "opponent's turn"), (waitingPlayer.connection, "your turn")] ∧
    (find (setUpGame (setupFrame "g1" sampleCoords) 2 200 waitingUsers).users 2).map
      (fun u => (u.connection, u.turn)) = some (200, false) ∧
    (find (setUpGame (setupFrame "g1" sampleCoords) 2 200 waitingUsers).users 1).map
      (fun u => (u.connection, u.turn)) = some (waitingPlayer.connection, true) :=
  setUpGame_notices_match_turn waitingUsers 1 2 waitingPlayer "g1" sampleCoords 200
    (by decide) (by decide) (by decide) (by decide) (by decide)
    (fun k e hk _ => (find_waitingUsers hk).1)
    (by decide) (by decide)

theorem cellAt_emptyBoard (i j : Nat) : cellAt emptyBoard i j = false := by
  unfold cellAt emptyBoard
  rw [List.getD_eq_getElem?_getD, List.getD_eq_getElem?_getD, List.getElem?_replicate]
  split
  · simp only [Option.getD_some, List.getElem?_replicate]
    split <;> rfl
  · rfl

/-- C16: in a registry where no entry has the frame's game identifier `g`,
`setUpGame` with a valid setup frame (`g` without `;`, 34 coordinates in
`0..9`) for an identity without entry returns without panic, writes no message,
and leaves the old registry followed by exactly one new entry, the sender's,
with `opponentID = -1`, `turn = false`, game identifier `g` and the 10x10 guess
board whose cells are all false. -/
theorem setUpGame_unmatched_adds_waiting_entry (reg : Registry) (userID : Int)
    (gameId : String) (coords : List Nat) (conn : Conn)
    (hg : ';' ∉ gameId.data) (hlen : coords.length = 34) (hc : ∀ c ∈ coords, c ≤ 9)
    (habs : find reg userID = none)
    (hnone : ∀ k e, find reg k = some e → e.gameID ≠ gameId) :
    setUpGame (setupFrame gameId coords) userID conn reg =
      ⟨reg ++ [(userID,
          { connection := conn, opponentID := -1, gameID := gameId,
            pieceLocations := placeAll coords, guessLocations := emptyBoard, turn := false })],
        [], false⟩ ∧
    TenByTen emptyBoard ∧ (∀ i j, cellAt emptyBoard i j = false) ∧
    (∀ k, k ≠ userID →
      find (setUpGame (setupFrame gameId coords) userID conn reg).users k = find reg k) := by
  have h1 := setUpGame_unmatched_run hg hlen hc userID conn reg habs hnone
  refine ⟨h1, TenByTen_emptyBoard, cellAt_emptyBoard, ?_⟩
  · intro k hk
    rw [h1]
    simp only []
    rw [find_append]
    have hk' : ¬ userID = k := fun e => hk e.symm
    cases find reg k <;> simp [find, hk']

theorem setUpGame_unmatched_adds_waiting_entry_witness :
    setUpGame (setupFrame "g1" sampleCoords) 1 100 [] =
      ⟨[] ++ [(1,
          { connection := 100, opponentID := -1, gameID := "g1",
            pieceLocations := placeAll sampleCoords, guessLocations := emptyBoard,
            turn := false })],
        [], false⟩ ∧
    TenByTen emptyBoard ∧ (∀ i j, cellAt emptyBoard i j = false) ∧
    (∀ k, k ≠ 1 →
      find (setUpGame (setupFrame "g1" sampleCoords) 1 100 []).users k = find [] k) :=
  setUpGame_unmatched_adds_waiting_entry [] 1 "g1" sampleCoords 100 (by decide) (by decide)
    (by decide) (by decide) (fun k e hk => Option.noConfusion hk)

/-! ## What a move that does not end the game leaves behind -/

theorem Board.mark_mark (b : Board) (i j : Nat) (hi : i < b.length) :
    (b.mark i j).mark i j = b.mark i j := by
  unfold Board.mark
  have h1 : (b.set i ((b.getD i []).set j true)).getD i [] = (b.getD i []).set j true := by
    simp [List.getD_eq_getElem?_getD, List.getElem?_set, hi]
  rw [h1, List.set_set, List.set_set]

/-- An in-range move by an entry paired with a distinct, present opponent
(boards 10x10) for which `gameOver` is false: the whole run. -/
theorem handleMove_nonterminal {message : String} {userID : Int} {reg : Registry}
    {user opp : connectedUser} {x y : Nat}
    (hm : moveCoords message = some ((x : Int), (y : Int)))
    (hx : x ≤ 9) (hy : y ≤ 9)
    (hu : find reg userID = some user) (ho : find reg user.opponentID = some opp)
    (hne : user.opponentID ≠ userID)
    (hg : TenByTen user.guessLocations) (hp : TenByTen opp.pieceLocations)
    (hnt : gameOver (user.guessLocations.mark x y) opp.pieceLocations = some false) :
    handleMove message userID reg =
      ⟨modify (modify (modify reg userID
          (fun u => { u with guessLocations := user.guessLocations.mark x y }))
          userID (fun u => { u with turn := false }))
          user.opponentID (fun u => { u with turn := true }),
        [(user.connection, Itoa x ++ "," ++ Itoa y ++ ";" ++
            (if cellAt opp.pieceLocations x y = true then "hit" else "miss")),
         (opp.connection, Itoa x ++ "," ++ Itoa y ++ ";" ++
            (if cellAt opp.pieceLocations x y = true then "hit" else "miss"))],
        false⟩ ∧
    find (handleMove message userID reg).users userID =
      some { user with guessLocations := user.guessLocations.mark x y, turn := false } ∧
    find (handleMove message userID reg).users user.opponentID =
      some { opp with turn := true } := by
  obtain ⟨s, hs, husers, hsent, hpan, -, hover⟩ := handleMoveBody_fields hm hx hy hu ho hg hp
  obtain ⟨h1, h2, h3⟩ := handleMove_of_body hs
  have hgo : s.gameOver = false := by
    rw [hnt] at hover; exact (Option.some.inj hover).symm
  rw [hgo] at h3 hsent
  simp only [Bool.false_eq_true, if_false] at h3 hsent
  have hne' : ¬ userID = user.opponentID := fun e => hne e.symm
  have hrun : handleMove message userID reg = ⟨s.run.users, s.run.sent, s.run.panicked⟩ := by
    rw [← h1, ← h2, ← h3]
  refine ⟨?_, ?_, ?_⟩
  · rw [hrun, husers, hsent, hpan]
  · rw [h3, husers]; simp [find_modify, hu, hne']
  · rw [h3, husers]; simp [find_modify, ho, hne]

/-- C17: for an in-range move `x,y` by a user paired with a distinct, present
opponent (boards 10x10) that does not end the game, `handleMove` leaves the
actor's entry with the same placement board and with the guess board of before
in which cell `(x, y)` is set, and leaves the opponent's entry with both boards
unchanged; cell by cell, the new guess board is true exactly where the old one
was true or at `(x, y)`. -/
theorem handleMove_boards_only_grow (reg : Registry) (userID : Int) (user opp : connectedUser)
    (x y : Nat) (hx : x ≤ 9) (hy : y ≤ 9)
    (hu : find reg userID = some user) (ho : find reg user.opponentID = some opp)
    (hne : user.opponentID ≠ userID)
    (hg : TenByTen user.guessLocations) (hp : TenByTen opp.pieceLocations)
    (hnt : gameOver (user.guessLocations.mark x y) opp.pieceLocations = some false) :
    (handleMove (moveFrame x y) userID reg).panicked = false ∧
    (∃ u', find (handleMove (moveFrame x y) userID reg).users userID = some u' ∧
      u'.pieceLocations = user.pieceLocations ∧
      u'.guessLocations = user.guessLocations.mark x y) ∧
    (∃ o', find (handleMove (moveFrame x y) userID reg).users user.opponentID = some o' ∧
      o'.pieceLocations = opp.pieceLocations ∧ o'.guessLocations = opp.guessLocations) ∧
    (∀ i j, cellAt (user.guessLocations.mark x y) i j =
      (cellAt user.guessLocations i j || (decide (i = x) && decide (j = y)))) := by
  obtain ⟨hrun, hfu, hfo⟩ :=
    handleMove_nonterminal (moveCoords_moveFrame x y hx hy) hx hy hu ho hne hg hp hnt
  refine ⟨by rw [hrun], ⟨_, hfu, rfl, rfl⟩, ⟨_, hfo, rfl, rfl⟩, ?_⟩
  intro i j
  obtain ⟨row, -, hlen, hD⟩ := hg.getElem?_row (by omega : x < 10)
  exact cellAt_mark _ _ _ _ _ (by rw [hg.1]; omega) (by rw [hD, hlen]; omega)

theorem handleMove_boards_only_grow_witness :
    (handleMove (moveFrame 0 0) 1 pairedUsers).panicked = false ∧
    (∃ u', find (handleMove (moveFrame 0 0) 1 pairedUsers).users 1 = some u' ∧
      u'.pieceLocations = firstPlayer.pieceLocations ∧
      u'.guessLocations = firstPlayer.guessLocations.mark 0 0) ∧
    (∃ o', find (handleMove (moveFrame 0 0) 1 pairedUsers).users firstPlayer.opponentID
        = some o' ∧
      o'.pieceLocations = secondPlayer.pieceLocations ∧
      o'.guessLocations = secondPlayer.guessLocations) ∧
    (∀ i j, cellAt (firstPlayer.guessLocations.mark 0 0) i j =
      (cellAt firstPlayer.guessLocations i j || (decide (i = 0) && decide (j = 0)))) :=
  handleMove_boards_only_grow pairedUsers 1 firstPlayer secondPlayer 0 0 (by decide) (by decide)
    (by decide) (by decide) (by decide) (by decide) (by decide) (by decide)

/-- C18: let a user paired with a distinct, present opponent (boards 10x10)
send the in-range move `x,y` twice in succession, the first not ending the
game. Then the second call does not panic, the actor's guess board after the
second move is the one after the first, the two result frames of the second
move are those of the first (same `hit` or `miss`), the number of cells both
guessed and occupied is the same, and `gameOver` is false again. -/
theorem handleMove_twice_idempotent (reg : Registry) (userID : Int) (user opp : connectedUser)
    (x y : Nat) (hx : x ≤ 9) (hy : y ≤ 9)
    (hu : find reg userID = some user) (ho : find reg user.opponentID = some opp)
    (hne : user.opponentID ≠ userID)
    (hg : TenByTen user.guessLocations) (hp : TenByTen opp.pieceLocations)
    (hnt : gameOver (user.guessLocations.mark x y) opp.pieceLocations = some false) :
    ∃ u1 u2,
      find (handleMove (moveFrame x y) userID reg).users userID = some u1 ∧
      find (handleMove (moveFrame x y) userID
        (handleMove (moveFrame x y) userID reg).users).users userID = some u2 ∧
      (handleMove (moveFrame x y) userID
        (handleMove (moveFrame x y) userID reg).users).panicked = false ∧
      u2.guessLocations = u1.guessLocations ∧
      (handleMove (moveFrame x y) userID
        (handleMove (moveFrame x y) userID reg).users).sent =
        (handleMove (moveFrame x y) userID reg).sent ∧
      bothCount u2.guessLocations opp.pieceLocations =
        bothCount u1.guessLocations opp.pieceLocations ∧
      gameOver u2.guessLocations opp.pieceLocations = some false := by
  have hm := moveCoords_moveFrame x y hx hy
  obtain ⟨hrun, hfu, hfo⟩ := handleMove_nonterminal hm hx hy hu ho hne hg hp hnt
  have hmm : (user.guessLocations.mark x y).mark x y = user.guessLocations.mark x y :=
    Board.mark_mark _ _ _ (by rw [hg.1]; omega)
  have hnt2 : gameOver
      (({ user with guessLocations := user.guessLocations.mark x y, turn := false } :
        connectedUser).guessLocations.mark x y)
      ({ opp with turn := true } : connectedUser).pieceLocations = some false := by
    simp only [hmm]; exact hnt
  obtain ⟨hrun2, hfu2, -⟩ := @handleMove_nonterminal _ userID
    (handleMove (moveFrame x y) userID reg).users _ _ x y hm hx hy hfu hfo hne
    (hg.mark _ _) hp hnt2
  refine ⟨_, _, hfu, hfu2, by rw [hrun2], ?_, ?_, ?_, ?_⟩
  · simp only [hmm]
  · rw [hrun2]; simp only []; rw [hrun]
  · simp only [hmm]
  · simp only [hmm]; exact hnt

theorem handleMove_twice_idempotent_witness :
    ∃ u1 u2,
      find (handleMove (moveFrame 0 0) 1 pairedUsers).users 1 = some u1 ∧
      find (handleMove (moveFrame 0 0) 1
        (handleMove (moveFrame 0 0) 1 pairedUsers).users).users 1 = some u2 ∧
      (handleMove (moveFrame 0 0) 1
        (handleMove (moveFrame 0 0) 1 pairedUsers).users).panicked = false ∧
      u2.guessLocations = u1.guessLocations ∧
      (handleMove (moveFrame 0 0) 1
        (handleMove (moveFrame 0 0) 1 pairedUsers).users).sent =
        (handleMove (moveFrame 0 0) 1 pairedUsers).sent ∧
      bothCount u2.guessLocations secondPlayer.pieceLocations =
        bothCount u1.guessLocations secondPlayer.pieceLocations ∧
      gameOver u2.guessLocations secondPlayer.pieceLocations = some false :=
  handleMove_twice_idempotent pairedUsers 1 firstPlayer secondPlayer 0 0 (by decide) (by decide)
    (by decide) (by decide) (by decide) (by decide) (by decide) (by decide)

/-! ## Decimal text of integers -/

theorem digitsValue_foldl (ds : List Char) (a : Nat) :
    ds.foldl (fun n c => n * 10 + (c.toNat - 48)) a = a * 10 ^ ds.length + digitsValue ds := by
  induction ds generalizing a with
  | nil => simp [digitsValue]
  | cons d ds ih =>
    simp only [List.foldl_cons, List.length_cons, digitsValue]
    rw [ih (a * 10 + (d.toNat - 48)), ih (0 * 10 + (d.toNat - 48))]
    ring

theorem digitsValue_cons (d : Char) (ds : List Char) :
    digitsValue (d :: ds) = (d.toNat - 48) * 10 ^ ds.length + digitsValue ds := by
  have h := digitsValue_foldl ds (0 * 10 + (d.toNat - 48))
  simp only [digitsValue, List.foldl_cons] at h ⊢
  rw [h]; ring

theorem digitChar_spec (k : Nat) (hk : k < 10) :
    (Nat.digitChar k).isDigit = true ∧ (Nat.digitChar k).toNat - 48 = k ∧
    Nat.digitChar k ≠ ',' ∧ Nat.digitChar k ≠ '+' ∧ Nat.digitChar k ≠ '-' := by
  interval_cases k <;> decide

theorem toDigitsCore_value :
    ∀ (fuel n : Nat) (ds : List Char), n < fuel →
      digitsValue (Nat.toDigitsCore 10 fuel n ds) = n * 10 ^ ds.length + digitsValue ds := by
  intro fuel
  induction fuel with
  | zero => intro n ds h; omega
  | succ fuel ih =>
    intro n ds h
    have hd := (digitChar_spec (n % 10) (Nat.mod_lt _ (by decide))).2.1
    unfold Nat.toDigitsCore
    simp only
    split
    · rename_i h0
      rw [digitsValue_cons, hd]
      have : n % 10 = n := by omega
      rw [this]
    · rename_i h0
      rw [ih (n / 10) _ (by omega), digitsValue_cons, hd, List.length_cons, pow_succ]
      have : n = n / 10 * 10 + n % 10 := by omega
      nth_rewrite 3 [this]
      ring

theorem toDigitsCore_digits :
    ∀ (fuel n : Nat) (ds : List Char), (∀ c ∈ ds, c.isDigit = true) →
      ∀ c ∈ Nat.toDigitsCore 10 fuel n ds, c.isDigit = true := by
  intro fuel
  induction fuel with
  | zero => intro n ds h; simpa [Nat.toDigitsCore] using h
  | succ fuel ih =>
    intro n ds h
    have hd := (digitChar_spec (n % 10) (Nat.mod_lt _ (by decide))).1
    have hcons : ∀ c ∈ Nat.digitChar (n % 10) :: ds, c.isDigit = true := by
      intro c hc
      rcases List.mem_cons.mp hc with rfl | hc
      · exact hd
      · exact h c hc
    unfold Nat.toDigitsCore
    simp only
    split
    · exact hcons
    · exact ih _ _ hcons

theorem toDigitsCore_ne_nil (fuel n : Nat) (ds : List Char) :
    Nat.toDigitsCore 10 (fuel + 1) n ds ≠ [] := by
  induction fuel generalizing n ds with
  | zero =>
    unfold Nat.toDigitsCore
    simp only
    split
    · simp
    · simp [Nat.toDigitsCore]
  | succ fuel ih =>
    unfold Nat.toDigitsCore
    simp only
    split
    · simp
    · exact ih _ _

/-- The decimal digits of a natural number, as `strconv.Itoa` writes them: not
empty, all digits, and worth the number. -/
theorem toDigits_spec (n : Nat) :
    Nat.toDigits 10 n ≠ [] ∧ (∀ c ∈ Nat.toDigits 10 n, c.isDigit = true) ∧
    digitsValue (Nat.toDigits 10 n) = n := by
  refine ⟨toDigitsCore_ne_nil n n [], toDigitsCore_digits _ _ _ (by simp), ?_⟩
  have h := toDigitsCore_value (n + 1) n [] (by omega)
  simpa [digitsValue] using h

theorem not_special_of_isDigit (c : Char) (h : c.isDigit = true) :
    c ≠ ',' ∧ c ≠ '+' ∧ c ≠ '-' := by
  refine ⟨?_, ?_, ?_⟩ <;> (rintro rfl; revert h; decide)

theorem digit_le_nine (c : Char) (h : c.isDigit = true) : c.toNat - 48 ≤ 9 := by
  simp only [Char.isDigit, Bool.and_eq_true, decide_eq_true_eq] at h
  have h2 : c.val.toNat ≤ 57 := h.2
  simp only [Char.toNat]
  omega

theorem digitsValue_lt (L : List Char) (hd : ∀ c ∈ L, c.isDigit = true) :
    digitsValue L < 10 ^ L.length := by
  induction L with
  | nil => simp [digitsValue]
  | cons d ds ih =>
    have h1 := digit_le_nine d (hd d (List.mem_cons_self _ _))
    have h2 := ih (fun c hc => hd c (List.mem_cons_of_mem _ hc))
    rw [digitsValue_cons, List.length_cons, pow_succ]
    nlinarith

theorem foldl_digits_ge (ds : List Char) (a : Nat) :
    a ≤ ds.foldl (fun n c => n * 10 + (c.toNat - 48)) a := by
  rw [digitsValue_foldl]
  have : 1 ≤ 10 ^ ds.length := Nat.one_le_pow _ _ (by decide)
  nlinarith

/-- The fast loop of `strconv.Atoi` on a run of digits returns its value. -/
theorem atoiFastLoop_digits (L : List Char) (n : Nat) (hd : ∀ c ∈ L, c.isDigit = true) :
    atoiFastLoop L n = some (L.foldl (fun n c => n * 10 + (c.toNat - 48)) n) := by
  induction L generalizing n with
  | nil => rfl
  | cons d ds ih =>
    unfold atoiFastLoop
    rw [if_pos (hd d (List.mem_cons_self _ _)),
      ih _ (fun c hc => hd c (List.mem_cons_of_mem _ hc))]
    rfl

/-- The fast loop of `strconv.Atoi` stops in a syntax error at a byte that is
not a digit. -/
theorem atoiFastLoop_not_digits (L : List Char) (n : Nat)
    (h : L.all Char.isDigit = false) : atoiFastLoop L n = none := by
  induction L generalizing n with
  | nil => simp at h
  | cons d ds ih =>
    unfold atoiFastLoop
    by_cases hdig : d.isDigit = true
    · rw [if_pos hdig]
      apply ih
      simpa [hdig] using h
    · rw [if_neg hdig]

/-- The loop of `ParseUint` on a run of digits: the value, or the range error
once the value passes `2^64 - 1`. -/
theorem parseUintLoop_digits (L : List Char) (n : Nat) (hn : n < 2 ^ 64)
    (hd : ∀ c ∈ L, c.isDigit = true) :
    parseUintLoop L n =
      if L.foldl (fun n c => n * 10 + (c.toNat - 48)) n ≥ 2 ^ 64 then .rangeErr
      else .value (L.foldl (fun n c => n * 10 + (c.toNat - 48)) n) := by
  induction L generalizing n with
  | nil =>
    simp only [parseUintLoop, List.foldl_nil]
    rw [if_neg (by omega)]
  | cons d ds ih =>
    have hge := foldl_digits_ge ds (n * 10 + (d.toNat - 48))
    unfold parseUintLoop
    rw [if_pos (hd d (List.mem_cons_self _ _))]
    simp only [List.foldl_cons]
    by_cases h1 : n ≥ (2 ^ 64 - 1) / 10 + 1
    · rw [if_pos h1, if_pos]
      have : (2 ^ 64 - 1) / 10 + 1 = 1844674407370955162 := by norm_num
      have : (2 : Nat) ^ 64 = 18446744073709551616 := by norm_num
      omega
    · rw [if_neg h1]
      by_cases h2 : n * 10 + (d.toNat - 48) > 2 ^ 64 - 1
      · rw [if_pos h2, if_pos]
        have : (2 : Nat) ^ 64 = 18446744073709551616 := by norm_num
        omega
      · rw [if_neg h2]
        apply ih _ _ (fun c hc => hd c (List.mem_cons_of_mem _ hc))
        have : (2 : Nat) ^ 64 = 18446744073709551616 := by norm_num
        omega

/-- The loop of `ParseUint` on a text with a byte that is not a digit: the
syntax error, unless the digits before that byte overflow first. -/
theorem parseUintLoop_not_digits (L : List Char) (n : Nat)
    (h : L.all Char.isDigit = false) :
    parseUintLoop L n = .badByte ∨ parseUintLoop L n = .rangeErr := by
  induction L generalizing n with
  | nil => simp at h
  | cons d ds ih =>
    unfold parseUintLoop
    by_cases hdig : d.isDigit = true
    · rw [if_pos hdig]
      split
      · exact Or.inr rfl
      · split
        · exact Or.inr rfl
        · apply ih
          simpa [hdig] using h
    · rw [if_neg hdig]
      exact Or.inl rfl

theorem Atoi_digits (L : List Char) (hne : L ≠ []) (hd : ∀ c ∈ L, c.isDigit = true) :
    Atoi L = if digitsValue L ≥ 2 ^ 63 then (2 ^ 63 : Int) - 1 else (digitsValue L : Int) := by
  cases L with
  | nil => exact absurd rfl hne
  | cons c cs =>
    have hc := not_special_of_isDigit c (hd c (List.mem_cons_self _ _))
    have hlt := digitsValue_lt (c :: cs) hd
    have hfold : (c :: cs).foldl (fun n c => n * 10 + (c.toNat - 48)) 0
        = digitsValue (c :: cs) := rfl
    have hpow : (2 : Nat) ^ 64 = 2 * 2 ^ 63 := by norm_num
    unfold Atoi
    split
    · rename_i hlen
      have h18 : digitsValue (c :: cs) < 10 ^ 18 :=
        lt_of_lt_of_le hlt (Nat.pow_le_pow_right (by decide) (by omega))
      have h63 : ¬ digitsValue (c :: cs) ≥ 2 ^ 63 := by
        have : (10 : Nat) ^ 18 < 2 ^ 63 := by norm_num
        omega
      simp only [hc.2.1, hc.2.2, or_self, if_false, List.length_cons]
      rw [if_neg (by omega), atoiFastLoop_digits _ _ hd, hfold, if_neg h63]
    · unfold ParseInt
      simp only [hc.2.1, hc.2.2, or_self, if_false]
      rw [parseUintLoop_digits _ _ (by norm_num) hd, hfold]
      by_cases h64 : digitsValue (c :: cs) ≥ 2 ^ 64
      · have h63 : digitsValue (c :: cs) ≥ 2 ^ 63 := by omega
        rw [if_pos h64, if_pos h63]
        simp
      · rw [if_neg h64]
        simp

theorem Atoi_minus_digits (L : List Char) (hne : L ≠ []) (hd : ∀ c ∈ L, c.isDigit = true) :
    Atoi ('-' :: L) =
      if digitsValue L > 2 ^ 63 then -(2 ^ 63 : Int) else -(digitsValue L : Int) := by
  have hlt := digitsValue_lt L hd
  have hfold : L.foldl (fun n c => n * 10 + (c.toNat - 48)) 0 = digitsValue L := rfl
  have hpow : (2 : Nat) ^ 64 = 2 * 2 ^ 63 := by norm_num
  have hlen : ¬ L.length < 1 := by
    cases L with
    | nil => exact absurd rfl hne
    | cons c cs => simp
  unfold Atoi
  split
  · rename_i hl
    have h18 : digitsValue L < 10 ^ 18 :=
      lt_of_lt_of_le hlt (Nat.pow_le_pow_right (by decide) (by
        simp only [List.length_cons] at hl; omega))
    have h63 : ¬ digitsValue L > 2 ^ 63 := by
      have : (10 : Nat) ^ 18 < 2 ^ 63 := by norm_num
      omega
    simp only [true_or, if_true]
    rw [if_neg hlen, atoiFastLoop_digits _ _ hd, hfold, if_neg h63]
  · unfold ParseInt
    simp only [or_true, if_true, hne, if_false]
    rw [parseUintLoop_digits _ _ (by norm_num) hd, hfold]
    by_cases h64 : digitsValue L ≥ 2 ^ 64
    · have h63 : digitsValue L > 2 ^ 63 := by omega
      rw [if_pos h64, if_pos h63]
    · rw [if_neg h64]

/-- On a text of at most 19 digits read so far and to come, the loop of
`ParseUint` and the fast loop of `strconv.Atoi` agree: no overflow can occur. -/
theorem atoiFastLoop_short (L : List Char) (n k : Nat) (hn : n < 10 ^ k)
    (hk : k + L.length ≤ 19) :
    parseUintLoop L n =
      (match atoiFastLoop L n with
       | none => UintResult.badByte
       | some v => UintResult.value v) ∧
    ∀ v, atoiFastLoop L n = some v → v < 10 ^ (k + L.length) := by
  induction L generalizing n k with
  | nil =>
    refine ⟨rfl, ?_⟩
    intro v hv
    simp only [atoiFastLoop, Option.some.injEq] at hv
    simpa [← hv] using hn
  | cons d ds ih =>
    unfold parseUintLoop atoiFastLoop
    by_cases hdig : d.isDigit = true
    · have h9 := digit_le_nine d hdig
      simp only [List.length_cons] at hk
      have hk18 : (10 : Nat) ^ k ≤ 10 ^ 18 := Nat.pow_le_pow_right (by decide) (by omega)
      have h18 : (10 : Nat) ^ 18 = 1000000000000000000 := by norm_num
      have h64 : (2 : Nat) ^ 64 = 18446744073709551616 := by norm_num
      have hn' : n * 10 + (d.toNat - 48) < 10 ^ (k + 1) := by
        rw [pow_succ]; omega
      obtain ⟨ih1, ih2⟩ := ih (n * 10 + (d.toNat - 48)) (k + 1) hn' (by omega)
      rw [if_pos hdig, if_pos hdig, if_neg (by omega), if_neg (by omega)]
      refine ⟨ih1, ?_⟩
      intro v hv
      have := ih2 v hv
      rw [List.length_cons]
      rwa [show k + (ds.length + 1) = k + 1 + ds.length from by omega]
    · rw [if_neg hdig, if_neg hdig]
      exact ⟨rfl, fun v hv => Option.noConfusion hv⟩

/-- The fast path of `strconv.Atoi` is an optimisation only: on every text the
result is that of `ParseInt(s, 10, 0)`. -/
theorem Atoi_eq_ParseInt (s : List Char) : Atoi s = ParseInt s := by
  unfold Atoi
  split
  · rename_i hlen
    cases s with
    | nil => rfl
    | cons c cs =>
      have hbody : (if c = '-' ∨ c = '+' then cs else c :: cs)
          = (if c = '+' ∨ c = '-' then cs else c :: cs) := by
        by_cases hs : c = '+' ∨ c = '-'
        · rw [if_pos hs, if_pos hs.symm]
        · rw [if_neg hs, if_neg (fun hh => hs hh.symm)]
      have hbl : (if c = '+' ∨ c = '-' then cs else c :: cs).length ≤ 18 := by
        simp only [List.length_cons] at hlen
        split
        · omega
        · simp only [List.length_cons]; omega
      unfold ParseInt
      simp only [hbody]
      generalize (if c = '+' ∨ c = '-' then cs else c :: cs) = body at hbl
      obtain ⟨h1, h2⟩ := atoiFastLoop_short body 0 0 (by norm_num) (by omega)
      cases body with
      | nil => rfl
      | cons b bs =>
        rw [if_neg (by simp), if_neg (by simp), h1]
        cases hf : atoiFastLoop (b :: bs) 0 with
        | none => rfl
        | some v =>
          have hv := h2 v hf
          have hv18 : v < 10 ^ 18 :=
            lt_of_lt_of_le hv (Nat.pow_le_pow_right (by decide) (by omega))
          have h18 : (10 : Nat) ^ 18 < 2 ^ 63 := by norm_num
          have hgt : ¬ v > 2 ^ 63 := by omega
          have hge : ¬ v ≥ 2 ^ 63 := by omega
          simp only [hgt, hge, if_false]
  · rfl

theorem Itoa_data (x : Int) :
    (Itoa x).data = if x < 0 then '-' :: Nat.toDigits 10 x.natAbs
      else Nat.toDigits 10 x.natAbs := by
  unfold Itoa
  split <;> rfl

/-- Reading back the decimal text of an integer. -/
theorem Atoi_Itoa (x : Int) : Atoi (Itoa x).data = clampInt x := by
  obtain ⟨hne, hd, hv⟩ := toDigits_spec x.natAbs
  rw [Itoa_data]
  unfold clampInt
  by_cases hx : x < 0
  · rw [if_pos hx, Atoi_minus_digits _ hne hd, hv]
    have habs : (x.natAbs : Int) = -x := by omega
    by_cases h1 : x < -(2 ^ 63 : Int)
    · have : x.natAbs > 2 ^ 63 := by omega
      rw [if_pos this, if_pos h1]
    · have : ¬ x.natAbs > 2 ^ 63 := by omega
      rw [if_neg this, if_neg h1, if_neg (by omega), habs]
      omega
  · rw [if_neg hx, Atoi_digits _ hne hd, hv]
    have habs : (x.natAbs : Int) = x := by omega
    by_cases h1 : x ≥ (2 ^ 63 : Int)
    · have : x.natAbs ≥ 2 ^ 63 := by omega
      rw [if_pos this, if_neg (by omega), if_pos h1]
    · have : ¬ x.natAbs ≥ 2 ^ 63 := by omega
      rw [if_neg this, if_neg (by omega), if_neg h1, habs]

theorem comma_not_mem_Itoa (x : Int) : ',' ∉ (Itoa x).data := by
  obtain ⟨-, hd, -⟩ := toDigits_spec x.natAbs
  have hdig : ',' ∉ Nat.toDigits 10 x.natAbs := by
    intro h
    exact (not_special_of_isDigit _ (hd _ h)).1 rfl
  rw [Itoa_data]
  split
  · simp only [List.mem_cons, not_or]
    exact ⟨by decide, hdig⟩
  · exact hdig

/-- Lines 120 and 121 on a frame of two comma-free tokens. -/
theorem moveCoords_two_tokens (t0 t1 : List Char) (h0 : ',' ∉ t0) (h1 : ',' ∉ t1) :
    moveCoords (String.mk (t0 ++ ',' :: t1)) = some (Atoi t0, Atoi t1) := by
  unfold moveCoords
  simp only [Split_append t0 t1 ',' h0, Split_of_not_mem t1 ',' h1]
  rfl

theorem moveCoords_intFrame (x y : Int) :
    moveCoords (intFrame x y) = some (clampInt x, clampInt y) := by
  have h := moveCoords_two_tokens (Itoa x).data (Itoa y).data (comma_not_mem_Itoa x)
    (comma_not_mem_Itoa y)
  rw [Atoi_Itoa, Atoi_Itoa] at h
  have hf : intFrame x y = String.mk ((Itoa x).data ++ ',' :: (Itoa y).data) := by
    apply String.ext
    simp only [intFrame, String.data_append]
    rw [List.append_assoc, List.singleton_append]
  rw [hf, h]

theorem Board.assign_out_of_range {b : Board} (hb : TenByTen b) {x y : Int}
    (hout : ¬ (0 ≤ x ∧ x ≤ 9 ∧ 0 ≤ y ∧ y ≤ 9)) : b.assign x y = none := by
  unfold Board.assign
  split
  · rename_i h
    by_cases hx : x.toNat < 10
    · obtain ⟨row, hrow, hlen, -⟩ := hb.getElem?_row hx
      rw [hrow]
      simp only
      rw [if_neg]
      rw [hlen]
      omega
    · have : b[x.toNat]? = none := by
        rw [List.getElem?_eq_none]
        rw [hb.1]; omega
      rw [this]
  · rfl

/-- C19: for every registry in which the acting user has an entry with a 10x10
guess board (paired or not) and every move frame `x,y` of two integers with `x`
or `y` outside `0..9`, negative values included, `handleMove` ends in a
run-time panic, the registry is exactly the one before the call, and no message
is written. -/
theorem handleMove_out_of_range (reg : Registry) (userID : Int) (user : connectedUser)
    (x y : Int) (hu : find reg userID = some user) (hg : TenByTen user.guessLocations)
    (hout : ¬ (0 ≤ x ∧ x ≤ 9 ∧ 0 ≤ y ∧ y ≤ 9)) :
    handleMove (intFrame x y) userID reg = ⟨reg, [], true⟩ := by
  have hout' : ¬ (0 ≤ clampInt x ∧ clampInt x ≤ 9 ∧ 0 ≤ clampInt y ∧ clampInt y ≤ 9) := by
    unfold clampInt
    intro h
    apply hout
    split at h <;> split at h <;> (try split at h) <;> (try split at h) <;> omega
  have ha := Board.assign_out_of_range hg hout'
  unfold handleMove handleMoveBody
  simp only [moveCoords_intFrame, hu, ha]

theorem handleMove_out_of_range_witness :
    handleMove (intFrame (-1) 10) 1 pairedUsers = ⟨pairedUsers, [], true⟩ :=
  handleMove_out_of_range pairedUsers 1 firstPlayer (-1) 10 (by decide) (by decide) (by decide)

/-! ## Frames that are not integers -/

/-- What `strconv.Atoi` returns for a text that is not an integer: 0 on the
syntax error, or an end of the `int` range when the digits overflow `uint64`
before the offending byte. -/
theorem Atoi_of_not_integer (s : List Char) (h : isIntegerText s = false) :
    Atoi s = 0 ∨ Atoi s = (2 ^ 63 : Int) - 1 ∨ Atoi s = -(2 ^ 63 : Int) := by
  cases s with
  | nil => exact Or.inl rfl
  | cons c cs =>
    unfold isIntegerText at h
    simp only [Bool.and_eq_false_iff, decide_eq_false_iff_not, not_not] at h
    have hbody : (if c = '-' ∨ c = '+' then cs else c :: cs)
        = (if c = '+' ∨ c = '-' then cs else c :: cs) := by
      by_cases hs : c = '+' ∨ c = '-'
      · rw [if_pos hs, if_pos hs.symm]
      · rw [if_neg hs, if_neg (fun hh => hs hh.symm)]
    unfold Atoi
    split
    · left
      simp only [hbody]
      generalize (if c = '+' ∨ c = '-' then cs else c :: cs) = body at h
      rcases h with h | h
      · rw [h]; rfl
      · rw [atoiFastLoop_not_digits _ _ h]
        split <;> rfl
    · unfold ParseInt
      simp only
      generalize (if c = '+' ∨ c = '-' then cs else c :: cs) = body at h
      rcases h with h | h
      · rw [if_pos h]; exact Or.inl rfl
      · split
        · exact Or.inl rfl
        · rcases parseUintLoop_not_digits _ 0 h with hp | hp
          · rw [hp]; exact Or.inl rfl
          · rw [hp]
            simp only
            split
            · exact Or.inr (Or.inr rfl)
            · exact Or.inr (Or.inl rfl)

/-- Digits that overflow `uint64` before a byte that is not a digit: the range
error wins, and `strconv.Atoi` returns an end of the `int` range, not 0. -/
theorem Atoi_overflow_before_bad_byte :
    isIntegerText "99999999999999999999x".data = false ∧
    Atoi "99999999999999999999x".data = (2 ^ 63 : Int) - 1 ∧
    Atoi "-99999999999999999999x".data = -(2 ^ 63 : Int) ∧
    Atoi "999999999999999999x".data = 0 ∧
    Atoi "abc".data = 0 ∧ Atoi "".data = 0 ∧ Atoi "-".data = 0 ∧ Atoi "+7".data = 7 ∧
    Atoi "-9223372036854775808".data = -(2 ^ 63 : Int) ∧
    Atoi "9223372036854775808".data = (2 ^ 63 : Int) - 1 := by
  decide

/-- The frame `99999999999999999999x,2`: the first token is read as `MaxInt64`,
not as 0, and line 126 panics on the index before any write. -/
theorem handleMove_overflowing_token_panics :
    find pairedUsers 1 = some firstPlayer ∧
    find pairedUsers firstPlayer.opponentID = some secondPlayer ∧
    handleMove "99999999999999999999x,2" 1 pairedUsers = ⟨pairedUsers, [], true⟩ := by
  decide

theorem Split_joinTokens (toks : List (List Char)) (hne : toks ≠ [])
    (hc : ∀ t ∈ toks, ',' ∉ t) : Split (joinTokens toks) ',' = toks := by
  induction toks with
  | nil => exact absurd rfl hne
  | cons a rest ih =>
    have ha : ',' ∉ a := hc a (List.mem_cons_self _ _)
    have hrest : ∀ t ∈ rest, ',' ∉ t := fun t h => hc t (List.mem_cons_of_mem _ h)
    cases rest with
    | nil => exact Split_of_not_mem a ',' ha
    | cons b rest' =>
      have h2 := ih (by simp) hrest
      have h3 := Split_append a (joinTokens (b :: rest')) ',' ha
      rw [h2] at h3
      exact h3

theorem semicolon_not_mem_joinTokens (toks : List (List Char))
    (hs : ∀ t ∈ toks, ';' ∉ t) : ';' ∉ joinTokens toks := by
  induction toks with
  | nil => simp [joinTokens]
  | cons a rest ih =>
    have ha : ';' ∉ a := hs a (List.mem_cons_self _ _)
    have hrest : ∀ t ∈ rest, ';' ∉ t := fun t h => hs t (List.mem_cons_of_mem _ h)
    cases rest with
    | nil => exact ha
    | cons b rest' =>
      have h2 := ih hrest
      simp only [joinTokens, List.mem_append, List.mem_cons, not_or]
      exact ⟨ha, by decide, h2⟩

theorem Split_tokenFrame (gameId : String) (toks : List (List Char)) (hg : ';' ∉ gameId.data)
    (hs : ∀ t ∈ toks, ';' ∉ t) :
    Split (tokenFrame gameId toks).data ';' = [gameId.data, joinTokens toks] := by
  simp only [tokenFrame]
  rw [Split_append gameId.data (joinTokens toks) ';' hg,
    Split_of_not_mem _ ';' (semicolon_not_mem_joinTokens toks hs)]

theorem Board.assign_eq_mark {b b' : Board} {x y : Int} (h : b.assign x y = some b') :
    b' = b.mark x.toNat y.toNat := by
  unfold Board.assign at h
  split at h
  · split at h
    · exact Option.noConfusion h
    · rename_i row hrow
      split at h
      · have hD : b.getD x.toNat [] = row := by
          simp [List.getD_eq_getElem?_getD, hrow]
        rw [← Option.some.inj h, Board.mark, hD]
      · exact Option.noConfusion h
  · exact Option.noConfusion h

/-- With tokens whose values at the visited indices are in `0..9` the placement
loop does not panic. -/
theorem placeFold_tokens (toks : List (List Char)) :
    ∀ (is : List Nat) (b : Board), TenByTen b →
      (∀ i ∈ is, i + 1 < toks.length ∧
        0 ≤ Atoi (toks.getD i []) ∧ Atoi (toks.getD i []) ≤ 9 ∧
        0 ≤ Atoi (toks.getD (i + 1) []) ∧ Atoi (toks.getD (i + 1) []) ≤ 9) →
      is.foldl (placeStep toks) (b, false) =
        (is.foldl (fun b i => b.mark (Atoi (toks.getD i [])).toNat
          (Atoi (toks.getD (i + 1) [])).toNat) b, false) ∧
      TenByTen (is.foldl (fun b i => b.mark (Atoi (toks.getD i [])).toNat
          (Atoi (toks.getD (i + 1) [])).toNat) b) := by
  intro is
  induction is with
  | nil => intro b hb _; exact ⟨rfl, hb⟩
  | cons i is ih =>
    intro b hb hi
    obtain ⟨hi1, hx0, hx9, hy0, hy9⟩ := hi i (List.mem_cons_self _ _)
    have hi0 : i < toks.length := by omega
    have hrest := fun j hj => hi j (List.mem_cons_of_mem _ hj)
    have hgx : toks.getD i [] = toks[i] := by
      simp [List.getD_eq_getElem?_getD, List.getElem?_eq_getElem hi0]
    have hgy : toks.getD (i + 1) [] = toks[i + 1] := by
      simp [List.getD_eq_getElem?_getD, List.getElem?_eq_getElem hi1]
    have ha := Board.assign_eq hb (x := Atoi (toks.getD i [])) (y := Atoi (toks.getD (i + 1) []))
      ⟨hx0, by omega⟩ ⟨hy0, by omega⟩
    have hstep : placeStep toks (b, false) i =
        (b.mark (Atoi (toks.getD i [])).toNat (Atoi (toks.getD (i + 1) [])).toNat, false) := by
      rw [hgx, hgy] at ha ⊢
      simp [placeStep, List.getElem?_eq_getElem hi0, List.getElem?_eq_getElem hi1, ha]
    rw [List.foldl_cons, List.foldl_cons, hstep]
    exact ih _ (hb.mark _ _) hrest

/-- The run of `setUpGame` on any frame that has a `;` and whose placement loop
does not panic: the call does not panic either, and the new entry holds the
placed board. -/
theorem setUpGame_placed {message : String} {userID : Int} {conn : Conn} {reg : Registry}
    {text : List Char} {board : Board}
    (h : (Split message.data ';')[1]? = some text)
    (hplace : (List.range' 0 17 2).foldl (placeStep (Split text ',')) (emptyBoard, false) =
      (board, false)) :
    (setUpGame message userID conn reg).panicked = false ∧
    ∃ opp, find (setUpGame message userID conn reg).users userID =
      some { connection := conn, opponentID := opp,
             gameID := String.mk ((Split message.data ';').headD []),
             pieceLocations := board, guessLocations := emptyBoard, turn := false } := by
  obtain ⟨h1, -, h3, h4⟩ := linkFold_spec userID (keys reg)
    { connection := conn, opponentID := -1,
      gameID := String.mk ((Split message.data ';').headD []),
      pieceLocations := emptyBoard, guessLocations := emptyBoard, turn := false } reg
  generalize hlk : (keys reg).foldl (linkStep userID)
    ({ connection := conn, opponentID := -1,
       gameID := String.mk ((Split message.data ';').headD []),
       pieceLocations := emptyBoard, guessLocations := emptyBoard, turn := false }, reg)
    = linked at h1 h3 h4
  have hpl : linked.1.pieceLocations = emptyBoard := by rw [h1]
  have hrun := @setUpGame_run _ userID conn reg _ board linked h hlk (by rw [hpl]; exact hplace)
  have hself : find (modify (store linked.2 userID linked.1) userID
      (fun u => { u with pieceLocations := board })) userID =
        some { connection := conn, opponentID := linked.1.opponentID,
               gameID := String.mk ((Split message.data ';').headD []),
               pieceLocations := board, guessLocations := emptyBoard,
               turn := false } := by
    rw [find_modify, if_pos rfl, find_store, if_pos rfl, h1]
    rfl
  have hopp : linked.1.opponentID ≠ -1 →
      ∃ o, find (modify (store linked.2 userID linked.1) userID
        (fun u => { u with pieceLocations := board })) linked.1.opponentID = some o := by
    intro hno
    by_cases hk : linked.1.opponentID = userID
    · exact ⟨_, by rw [hk]; exact hself⟩
    · rcases h4 with ⟨h5, -⟩ | ⟨-, e, he, -⟩
      · exact absurd h5 hno
      · rw [find_modify, if_neg hk, find_store, if_neg hk, h3, he]
        exact ⟨_, rfl⟩
  refine ⟨?_, linked.1.opponentID, ?_⟩
  · rw [hrun]
    split
    · rename_i hno
      obtain ⟨o, ho⟩ := hopp hno
      simp only [ho]
    · rfl
  · rw [hrun]
    split
    · split <;> exact hself
    · exact hself

set_option maxRecDepth 8000 in
/-- A setup frame of 34 tokens whose first token is `99999999999999999999x`:
the token is read as `MaxInt64`, not as 0, and line 110 panics on the index,
after the waiting entry of identity 1 has been linked to the sender. -/
theorem setUpGame_overflowing_token_panics :
    tokensWithOverflow.length = 34 ∧
    isIntegerText (tokensWithOverflow.getD 0 []) = false ∧
    (setUpGame (tokenFrame "g1" tokensWithOverflow) 2 200 waitingUsers).panicked = true ∧
    (find (setUpGame (tokenFrame "g1" tokensWithOverflow) 2 200 waitingUsers).users 1).map
      (fun u => (u.opponentID, u.turn)) = some (2, true) := by
  decide

/-- C12 (as stated, refuted): identity 1 is waiting in game `g1`. A setup frame
for `g1` with 35 tokens, and one with 34 tokens the first of which is `abc`,
are both accepted for identity 2: `setUpGame` does not fail, creates the
sender's entry and changes `opponentID` and `turn` of identity 1. -/
theorem setUpGame_malformed_counterexample :
    thirtyFiveTokens.length = 35 ∧
    (setUpGame (tokenFrame "g1" thirtyFiveTokens) 2 200 waitingUsers).panicked = false ∧
    (find (setUpGame (tokenFrame "g1" thirtyFiveTokens) 2 200 waitingUsers).users 2).isSome
      = true ∧
    (find (setUpGame (tokenFrame "g1" thirtyFiveTokens) 2 200 waitingUsers).users 1).map
      (fun u => (u.opponentID, u.turn)) = some (2, true) ∧
    tokensWithWord.length = 34 ∧ isIntegerText (tokensWithWord.getD 0 []) = false ∧
    (setUpGame (tokenFrame "g1" tokensWithWord) 2 200 waitingUsers).panicked = false ∧
    (find (setUpGame (tokenFrame "g1" tokensWithWord) 2 200 waitingUsers).users 2).isSome
      = true ∧
    (find (setUpGame (tokenFrame "g1" tokensWithWord) 2 200 waitingUsers).users 1).map
      (fun u => (u.opponentID, u.turn)) = some (2, true) ∧
    (find waitingUsers 1).map (fun u => (u.opponentID, u.turn)) = some (-1, false) := by
  decide

/-- C12 (amended): `setUpGame` does not validate the coordinate list. It reads
the first 34 comma-separated tokens after the `;` with `strconv.Atoi`, drops
the error and uses the number returned (0 on a syntax error; an end of the
`int` range when digits overflow before the offending byte), and never looks
at further tokens. For every registry and every frame `g;t0,...,tn` (`g`
without `;`, tokens without `,` and `;`) with at least 34 tokens for whose
first 34 `strconv.Atoi` returns numbers in `0..9`, the call does not fail; it
creates the sender's entry, with the cells of those 34 numbers placed (a token
among them that is not an integer has the number 0), and links every other
entry that has game identifier `g` to the sender. -/
theorem setUpGame_unvalidated_accepted (reg : Registry) (userID : Int) (conn : Conn)
    (gameId : String) (toks : List (List Char))
    (hg : ';' ∉ gameId.data) (hsep : ∀ t ∈ toks, ',' ∉ t ∧ ';' ∉ t)
    (hlen : 34 ≤ toks.length)
    (hval : ∀ i, i < 34 → 0 ≤ Atoi (toks.getD i []) ∧ Atoi (toks.getD i []) ≤ 9) :
    (setUpGame (tokenFrame gameId toks) userID conn reg).panicked = false ∧
    (∃ opp, find (setUpGame (tokenFrame gameId toks) userID conn reg).users userID =
      some { connection := conn, opponentID := opp, gameID := gameId,
             pieceLocations := (List.range' 0 17 2).foldl
               (fun b i => b.mark (Atoi (toks.getD i [])).toNat
                 (Atoi (toks.getD (i + 1) [])).toNat) emptyBoard,
             guessLocations := emptyBoard, turn := false }) ∧
    (∀ i, i < 34 → isIntegerText (toks.getD i []) = false →
      Atoi (toks.getD i []) = 0) ∧
    (∀ k e, k ≠ userID → find reg k = some e →
      find (setUpGame (tokenFrame gameId toks) userID conn reg).users k =
        some (if e.gameID = gameId then { e with opponentID := userID, turn := true }
          else e)) := by
  have hparts := Split_tokenFrame gameId toks hg (fun t ht => (hsep t ht).2)
  have hne : toks ≠ [] := by intro h; rw [h] at hlen; simp at hlen
  have htok := Split_joinTokens toks hne (fun t ht => (hsep t ht).1)
  have hidx : ∀ i ∈ List.range' 0 17 2, i + 1 < toks.length ∧
      0 ≤ Atoi (toks.getD i []) ∧ Atoi (toks.getD i []) ≤ 9 ∧
      0 ≤ Atoi (toks.getD (i + 1) []) ∧ Atoi (toks.getD (i + 1) []) ≤ 9 := by
    intro i hi
    rw [List.mem_range'] at hi
    obtain ⟨j, hj, rfl⟩ := hi
    have h1 := hval (0 + 2 * j) (by omega)
    have h2 := hval (0 + 2 * j + 1) (by omega)
    exact ⟨by omega, h1.1, h1.2, h2.1, h2.2⟩
  obtain ⟨hplace, -⟩ := placeFold_tokens toks (List.range' 0 17 2) emptyBoard
    TenByTen_emptyBoard hidx
  have hgid : String.mk ((Split (tokenFrame gameId toks).data ';').headD []) = gameId := by
    rw [hparts]; rfl
  have hsecond : (Split (tokenFrame gameId toks).data ';')[1]? = some (joinTokens toks) := by
    rw [hparts]; rfl
  obtain ⟨hpan, opp, hself⟩ := @setUpGame_placed _ userID conn reg _ _ hsecond
    (by rw [htok]; exact hplace)
  rw [hgid] at hself
  refine ⟨hpan, ⟨opp, hself⟩, ?_, ?_⟩
  · intro i hi hb
    have hv := hval i hi
    rcases Atoi_of_not_integer _ hb with h | h | h
    · exact h
    · rw [h] at hv; omega
    · rw [h] at hv; omega
  intro k e hk he
  rw [@setUpGame_find_other _ userID conn reg _ hsecond k hk, hgid, he]
  rfl

theorem setUpGame_unvalidated_accepted_witness :
    (setUpGame (tokenFrame "g1" tokensWithWord) 2 200 waitingUsers).panicked = false ∧
    (∃ opp, find (setUpGame (tokenFrame "g1" tokensWithWord) 2 200 waitingUsers).users 2 =
      some { connection := 200, opponentID := opp, gameID := "g1",
             pieceLocations := (List.range' 0 17 2).foldl
               (fun b i => b.mark (Atoi (tokensWithWord.getD i [])).toNat
                 (Atoi (tokensWithWord.getD (i + 1) [])).toNat) emptyBoard,
             guessLocations := emptyBoard, turn := false }) ∧
    (∀ i, i < 34 → isIntegerText (tokensWithWord.getD i []) = false →
      Atoi (tokensWithWord.getD i []) = 0) ∧
    (∀ k e, k ≠ 2 → find waitingUsers k = some e →
      find (setUpGame (tokenFrame "g1" tokensWithWord) 2 200 waitingUsers).users k =
        some (if e.gameID = "g1" then { e with opponentID := 2, turn := true } else e)) :=
  setUpGame_unvalidated_accepted waitingUsers 2 200 "g1" tokensWithWord (by decide)
    (by decide) (by decide)
    (by
      intro i hi
      interval_cases i <;> decide)

/-! ## Counting cells -/

theorem sum_map_range_eq (f : Nat → Nat) (n : Nat) :
    ((List.range n).map f).sum = ∑ i in Finset.range n, f i := by
  induction n with
  | zero => simp
  | succ n ih => rw [List.range_succ, List.map_append, List.sum_append, ih, Finset.sum_range_succ]; simp

theorem countP_range_eq (p : Nat → Bool) (n : Nat) :
    (List.range n).countP p = ((Finset.range n).filter (fun j => p j = true)).card := by
  induction n with
  | zero => simp
  | succ n ih =>
    rw [List.range_succ, List.countP_append, ih, Finset.range_succ, Finset.filter_insert]
    by_cases h : p n = true
    · rw [if_pos h, Finset.card_insert_of_not_mem (by simp)]
      simp [h]
    · rw [if_neg h]
      simp [h]

/-- The cells of the 10x10 grid on which `p` holds. -/
theorem grid_count_eq_card (p : Nat → Nat → Bool) :
    ((List.range 10).map (fun i => (List.range 10).countP (fun j => p i j))).sum =
      ((Finset.range 10 ×ˢ Finset.range 10).filter (fun q => p q.1 q.2 = true)).card := by
  rw [sum_map_range_eq, Finset.card_filter, Finset.sum_product]
  apply Finset.sum_congr rfl
  intro i _
  rw [countP_range_eq, Finset.card_filter]

theorem occupiedCount_eq_card (b : Board) :
    occupiedCount b =
      ((Finset.range 10 ×ˢ Finset.range 10).filter (fun q => cellAt b q.1 q.2 = true)).card :=
  grid_count_eq_card (fun i j => cellAt b i j)

theorem bothCount_eq_card (g p : Board) :
    bothCount g p =
      ((Finset.range 10 ×ˢ Finset.range 10).filter
        (fun q => (cellAt g q.1 q.2 && cellAt p q.1 q.2) = true)).card :=
  grid_count_eq_card (fun i j => cellAt g i j && cellAt p i j)

theorem cellAt_mark_tenByTen {b : Board} (hb : TenByTen b) {i j : Nat} (hi : i < 10)
    (hj : j < 10) (i' j' : Nat) :
    cellAt (b.mark i j) i' j' = (cellAt b i' j' || (decide (i' = i) && decide (j' = j))) := by
  obtain ⟨row, -, hlen, hD⟩ := hb.getElem?_row hi
  exact cellAt_mark _ _ _ _ _ (by rw [hb.1]; exact hi) (by rw [hD, hlen]; exact hj)

theorem occupiedCount_mark_le {b : Board} (hb : TenByTen b) {i j : Nat} (hi : i < 10)
    (hj : j < 10) : occupiedCount (b.mark i j) ≤ occupiedCount b + 1 := by
  rw [occupiedCount_eq_card, occupiedCount_eq_card]
  have hsub : (Finset.range 10 ×ˢ Finset.range 10).filter
        (fun q => cellAt (b.mark i j) q.1 q.2 = true) ⊆
      insert (i, j) ((Finset.range 10 ×ˢ Finset.range 10).filter
        (fun q => cellAt b q.1 q.2 = true)) := by
    intro q hq
    rw [Finset.mem_filter, cellAt_mark_tenByTen hb hi hj] at hq
    rw [Finset.mem_insert, Finset.mem_filter]
    rcases Bool.or_eq_true _ _ ▸ hq.2 with h | h
    · exact Or.inr ⟨hq.1, h⟩
    · left
      simp only [Bool.and_eq_true, decide_eq_true_eq] at h
      exact Prod.ext h.1 h.2
  exact (Finset.card_le_card hsub).trans (Finset.card_insert_le _ _)

theorem bothCount_le_occupiedCount (g p : Board) : bothCount g p ≤ occupiedCount p := by
  rw [bothCount_eq_card, occupiedCount_eq_card]
  apply Finset.card_le_card
  intro q hq
  rw [Finset.mem_filter] at hq ⊢
  refine ⟨hq.1, ?_⟩
  have := hq.2
  simp only [Bool.and_eq_true] at this
  exact this.2

/-- With at most 17 occupied cells, 17 cells are both guessed and occupied
exactly when 17 cells are occupied and each of them is guessed. -/
theorem bothCount_eq_seventeen_iff (g p : Board) (h17 : occupiedCount p ≤ 17) :
    bothCount g p = 17 ↔
      occupiedCount p = 17 ∧
        ∀ i j, i < 10 → j < 10 → cellAt p i j = true → cellAt g i j = true := by
  have hle := bothCount_le_occupiedCount g p
  rw [bothCount_eq_card, occupiedCount_eq_card] at *
  have hsub : (Finset.range 10 ×ˢ Finset.range 10).filter
        (fun q => (cellAt g q.1 q.2 && cellAt p q.1 q.2) = true) ⊆
      (Finset.range 10 ×ˢ Finset.range 10).filter (fun q => cellAt p q.1 q.2 = true) := by
    intro q hq
    rw [Finset.mem_filter] at hq ⊢
    have := hq.2
    simp only [Bool.and_eq_true] at this
    exact ⟨hq.1, this.2⟩
  constructor
  · intro hb
    have hp : ((Finset.range 10 ×ˢ Finset.range 10).filter
        (fun q => cellAt p q.1 q.2 = true)).card = 17 := by omega
    refine ⟨hp, ?_⟩
    intro i j hi hj hcell
    have heq := Finset.eq_of_subset_of_card_le hsub (by omega)
    have hmem : (i, j) ∈ (Finset.range 10 ×ˢ Finset.range 10).filter
        (fun q => cellAt p q.1 q.2 = true) := by
      rw [Finset.mem_filter, Finset.mem_product, Finset.mem_range, Finset.mem_range]
      exact ⟨⟨hi, hj⟩, hcell⟩
    rw [← heq, Finset.mem_filter] at hmem
    have := hmem.2
    simp only [Bool.and_eq_true] at this
    exact this.1
  · rintro ⟨hp, hall⟩
    have hsup : (Finset.range 10 ×ˢ Finset.range 10).filter
          (fun q => cellAt p q.1 q.2 = true) ⊆
        (Finset.range 10 ×ˢ Finset.range 10).filter
          (fun q => (cellAt g q.1 q.2 && cellAt p q.1 q.2) = true) := by
      intro q hq
      rw [Finset.mem_filter, Finset.mem_product, Finset.mem_range, Finset.mem_range] at hq
      rw [Finset.mem_filter, Finset.mem_product, Finset.mem_range, Finset.mem_range]
      refine ⟨hq.1, ?_⟩
      simp only [Bool.and_eq_true]
      exact ⟨hall q.1 q.2 hq.1.1 hq.1.2 hq.2, hq.2⟩
    have := Finset.card_le_card hsup
    omega

/-! ## The placement board of a valid setup -/

theorem foldl_mark_spec :
    ∀ (ps : List (Nat × Nat)) (b : Board), TenByTen b →
      (∀ q ∈ ps, q.1 < 10 ∧ q.2 < 10) →
      TenByTen (ps.foldl (fun b q => b.mark q.1 q.2) b) ∧
      ∀ i j, cellAt (ps.foldl (fun b q => b.mark q.1 q.2) b) i j =
        (cellAt b i j || decide ((i, j) ∈ ps)) := by
  intro ps
  induction ps with
  | nil => intro b hb _; exact ⟨hb, by simp⟩
  | cons q ps ih =>
    intro b hb hq
    have hq0 := hq q (List.mem_cons_self _ _)
    obtain ⟨h1, h2⟩ := ih (b.mark q.1 q.2) (hb.mark _ _)
      (fun r hr => hq r (List.mem_cons_of_mem _ hr))
    refine ⟨h1, ?_⟩
    intro i j
    rw [List.foldl_cons, h2, cellAt_mark_tenByTen hb hq0.1 hq0.2]
    cases cellAt b i j <;> simp [Prod.ext_iff, eq_comm]

theorem placeAll_eq_foldl (coords : List Nat) :
    placeAll coords = (coordPairs coords).foldl (fun b q => b.mark q.1 q.2) emptyBoard := by
  unfold placeAll coordPairs
  rw [List.foldl_map]

theorem coordPairs_lt (coords : List Nat) (hlen : coords.length = 34)
    (hc : ∀ c ∈ coords, c ≤ 9) : ∀ q ∈ coordPairs coords, q.1 < 10 ∧ q.2 < 10 := by
  intro q hq
  unfold coordPairs at hq
  rw [List.mem_map] at hq
  obtain ⟨i, hi, rfl⟩ := hq
  rw [List.mem_range'] at hi
  obtain ⟨j, hj, rfl⟩ := hi
  have h0 : 0 + 2 * j < coords.length := by omega
  have h1 : 0 + 2 * j + 1 < coords.length := by omega
  have e0 : coords.getD (0 + 2 * j) 0 = coords[0 + 2 * j] := by
    rw [List.getD_eq_getElem?_getD, List.getElem?_eq_getElem h0]; rfl
  have e1 : coords.getD (0 + 2 * j + 1) 0 = coords[0 + 2 * j + 1] := by
    rw [List.getD_eq_getElem?_getD, List.getElem?_eq_getElem h1]; rfl
  have b0 := hc _ (List.getElem_mem h0)
  have b1 := hc _ (List.getElem_mem h1)
  simp only [e0, e1]
  omega

/-- The true cells of the board placed from 34 coordinates in `0..9` are the
coordinate pairs, so their number is the number of distinct pairs. -/
theorem occupiedCount_placeAll (coords : List Nat) (hlen : coords.length = 34)
    (hc : ∀ c ∈ coords, c ≤ 9) :
    TenByTen (placeAll coords) ∧
    (∀ i j, cellAt (placeAll coords) i j = decide ((i, j) ∈ coordPairs coords)) ∧
    occupiedCount (placeAll coords) = (coordPairs coords).dedup.length := by
  have hlt := coordPairs_lt coords hlen hc
  obtain ⟨h1, h2⟩ := foldl_mark_spec (coordPairs coords) emptyBoard TenByTen_emptyBoard hlt
  rw [← placeAll_eq_foldl] at h1 h2
  have hcell : ∀ i j, cellAt (placeAll coords) i j = decide ((i, j) ∈ coordPairs coords) := by
    intro i j
    rw [h2, cellAt_emptyBoard, Bool.false_or]
  refine ⟨h1, hcell, ?_⟩
  have hset : (Finset.range 10 ×ˢ Finset.range 10).filter
      (fun q => cellAt (placeAll coords) q.1 q.2 = true) = (coordPairs coords).toFinset := by
    apply Finset.ext
    intro q
    rw [Finset.mem_filter, Finset.mem_product, Finset.mem_range, Finset.mem_range,
      List.mem_toFinset, hcell q.1 q.2, decide_eq_true_eq]
    constructor
    · exact fun h => h.2
    · exact fun h => ⟨hlt q h, h⟩
  rw [occupiedCount_eq_card, hset, List.card_toFinset]

/-- C13 (as stated, refuted): the setup frame `g1;0,0,...,0` has exactly 34
integers in `0..9`, yet the placement board of the entry created for identity 1
has one true cell, not 17. -/
theorem placement_count_counterexample :
    (List.replicate 34 0).length = 34 ∧ (∀ c ∈ List.replicate 34 0, c ≤ 9) ∧
    (setUpGame (setupFrame "g1" (List.replicate 34 0)) 1 100 []).panicked = false ∧
    (find (setUpGame (setupFrame "g1" (List.replicate 34 0)) 1 100 []).users 1).map
      (fun u => occupiedCount u.pieceLocations) = some 1 := by
  decide

/-- C13 (amended): for every setup frame `g;x1,y1,...,x17,y17` with exactly 34
integers in `0..9` (`g` without `;`), the placement board of the entry created
by `setUpGame` has as many true cells as there are distinct pairs among
`(x1,y1), ..., (x17,y17)`: at most 17, and exactly 17 if and only if the 17
pairs are pairwise distinct. -/
theorem placement_count_distinct_pairs (reg : Registry) (userID : Int) (conn : Conn)
    (gameId : String) (coords : List Nat)
    (hg : ';' ∉ gameId.data) (hlen : coords.length = 34) (hc : ∀ c ∈ coords, c ≤ 9) :
    ∃ u, find (setUpGame (setupFrame gameId coords) userID conn reg).users userID = some u ∧
      occupiedCount u.pieceLocations = (coordPairs coords).dedup.length ∧
      occupiedCount u.pieceLocations ≤ 17 ∧
      (occupiedCount u.pieceLocations = 17 ↔ (coordPairs coords).Nodup) := by
  obtain ⟨opp, -, hself, -, -, -⟩ := setUpGame_valid hg hlen hc userID conn reg
  obtain ⟨-, -, hcount⟩ := occupiedCount_placeAll coords hlen hc
  have hl : (coordPairs coords).length = 17 := by
    unfold coordPairs; rw [List.length_map, List.length_range']
  have hsub := List.dedup_sublist (coordPairs coords)
  have hle := hsub.length_le
  have h17 : occupiedCount (placeAll coords) = 17 ↔ (coordPairs coords).Nodup := by
    rw [hcount]
    constructor
    · intro h
      have heq := hsub.eq_of_length (by omega)
      rw [← heq]
      exact List.nodup_dedup _
    · intro h
      rw [List.dedup_eq_self.mpr h, hl]
  refine ⟨_, hself, ?_, ?_, ?_⟩
  · simp only
    exact hcount
  · simp only
    rw [hcount]; omega
  · simp only
    exact h17

theorem placement_count_distinct_pairs_witness :
    ∃ u, find (setUpGame (setupFrame "g1" sampleCoords) 1 100 []).users 1 = some u ∧
      occupiedCount u.pieceLocations = (coordPairs sampleCoords).dedup.length ∧
      occupiedCount u.pieceLocations ≤ 17 ∧
      (occupiedCount u.pieceLocations = 17 ↔ (coordPairs sampleCoords).Nodup) :=
  placement_count_distinct_pairs [] 1 100 "g1" sampleCoords (by decide) (by decide) (by decide)

/-! ## Boards in reachable registries -/

/-- Every registry that `handleMove` can leave behind, with the origin of the
new guess board. -/
theorem handleMove_users_cases_assign (message : String) (userID : Int) (reg : Registry) :
    (handleMove message userID reg).users = reg ∨
    ∃ user guess x y, find reg userID = some user ∧
      user.guessLocations.assign x y = some guess ∧
      ((find reg user.opponentID = none ∧
        (handleMove message userID reg).users =
          modify (modify reg userID (fun u => { u with guessLocations := guess }))
            userID (fun u => { u with turn := false })) ∨
      (find reg user.opponentID ≠ none ∧
        ((handleMove message userID reg).users =
          modify (modify (modify reg userID (fun u => { u with guessLocations := guess }))
            userID (fun u => { u with turn := false }))
            user.opponentID (fun u => { u with turn := true }) ∨
         (handleMove message userID reg).users =
          delete (delete
            (modify (modify (modify reg userID (fun u => { u with guessLocations := guess }))
              userID (fun u => { u with turn := false }))
              user.opponentID (fun u => { u with turn := true })) userID) user.opponentID))) := by
  unfold handleMove handleMoveBody
  cases hm : moveCoords message with
  | none => left; rfl
  | some xy =>
    obtain ⟨x, y⟩ := xy
    simp only []
    cases hu : find reg userID with
    | none => left; rfl
    | some user =>
      simp only []
      cases ha : user.guessLocations.assign x y with
      | none => left; rfl
      | some guess =>
        right
        refine ⟨user, guess, x, y, rfl, ha, ?_⟩
        simp only []
        have hsome2 : (find (modify (modify reg userID
            (fun u => { u with guessLocations := guess })) userID
            (fun u => { u with turn := false })) user.opponentID).isSome =
            (find reg user.opponentID).isSome := by
          rw [find_modify_isSome, find_modify_isSome]
        cases h2 : find (modify (modify reg userID (fun u => { u with guessLocations := guess }))
            userID (fun u => { u with turn := false })) user.opponentID with
        | none =>
          left
          refine ⟨?_, rfl⟩
          rw [h2] at hsome2
          cases hf : find reg user.opponentID with
          | none => rfl
          | some v => rw [hf] at hsome2; simp at hsome2
        | some o2 =>
          right
          refine ⟨?_, ?_⟩
          · intro hnone
            rw [h2, hnone] at hsome2; simp at hsome2
          · simp only []
            generalize hU3 : modify (modify (modify reg userID
              (fun u => { u with guessLocations := guess })) userID
              (fun u => { u with turn := false })) user.opponentID
              (fun u => { u with turn := true }) = U3
            cases find U3 userID with
            | none => left; rfl
            | some u3 =>
              cases find U3 user.opponentID with
              | none => left; rfl
              | some o3 =>
                simp only []
                cases u3.guessLocations.index x y with
                | none => left; rfl
                | some g =>
                  simp only []
                  cases (if g = true then o3.pieceLocations.index x y else some false) with
                  | none => left; rfl
                  | some isHit =>
                    simp only []
                    cases gameOver u3.guessLocations o3.pieceLocations with
                    | none => left; rfl
                    | some over =>
                      simp only []
                      cases over
                      · left; rfl
                      · right; rfl

theorem find_modify_turn (reg : Registry) (opp k : Int) (t : Bool) (u' : connectedUser)
    (h : find (modify reg opp (fun u => { u with turn := t })) k = some u') :
    ∃ u, find reg k = some u ∧ u'.pieceLocations = u.pieceLocations ∧
      u'.guessLocations = u.guessLocations := by
  rw [find_modify] at h
  cases hr : find reg k with
  | none => rw [hr] at h; split at h <;> exact Option.noConfusion h
  | some u =>
    rw [hr] at h
    split at h <;> (rw [← Option.some.inj h]; exact ⟨u, rfl, rfl, rfl⟩)

/-- Entry by entry, what `handleMove` can have done to the boards: the piece
board is the old one, the guess board is the old one or the result of one
assignment on it. -/
theorem handleMove_boards (message : String) (userID : Int) (reg : Registry) (k : Int)
    (u' : connectedUser) (h : find (handleMove message userID reg).users k = some u') :
    ∃ u, find reg k = some u ∧ u'.pieceLocations = u.pieceLocations ∧
      (u'.guessLocations = u.guessLocations ∨
        ∃ x y, u.guessLocations.assign x y = some u'.guessLocations) := by
  have key1 : ∀ (user : connectedUser) (guess : Board) (x y : Int) (u1 : connectedUser),
      find reg userID = some user → user.guessLocations.assign x y = some guess →
      find (modify reg userID (fun u => { u with guessLocations := guess })) k = some u1 →
      ∃ u, find reg k = some u ∧ u1.pieceLocations = u.pieceLocations ∧
        (u1.guessLocations = u.guessLocations ∨
          ∃ x y, u.guessLocations.assign x y = some u1.guessLocations) := by
    intro user guess x y u1 hu ha hf
    rw [find_modify] at hf
    by_cases hk : k = userID
    · subst hk
      rw [hu, if_pos rfl] at hf
      rw [← Option.some.inj hf]
      exact ⟨user, hu, rfl, Or.inr ⟨x, y, ha⟩⟩
    · rw [if_neg hk] at hf
      exact ⟨u1, hf, rfl, Or.inl rfl⟩
  have key2 : ∀ (user : connectedUser) (guess : Board) (x y : Int) (u2 : connectedUser),
      find reg userID = some user → user.guessLocations.assign x y = some guess →
      find (modify (modify reg userID (fun u => { u with guessLocations := guess }))
        userID (fun u => { u with turn := false })) k = some u2 →
      ∃ u, find reg k = some u ∧ u2.pieceLocations = u.pieceLocations ∧
        (u2.guessLocations = u.guessLocations ∨
          ∃ x y, u.guessLocations.assign x y = some u2.guessLocations) := by
    intro user guess x y u2 hu ha hf
    obtain ⟨u1, h1, hp, hgs⟩ := find_modify_turn _ _ _ _ _ hf
    obtain ⟨u, hr, hp', hg'⟩ := key1 user guess x y u1 hu ha h1
    exact ⟨u, hr, by rw [hp, hp'], by rw [hgs]; exact hg'⟩
  have key3 : ∀ (user : connectedUser) (guess : Board) (x y : Int) (opp : Int)
      (u3 : connectedUser),
      find reg userID = some user → user.guessLocations.assign x y = some guess →
      find (modify (modify (modify reg userID (fun u => { u with guessLocations := guess }))
        userID (fun u => { u with turn := false }))
        opp (fun u => { u with turn := true })) k = some u3 →
      ∃ u, find reg k = some u ∧ u3.pieceLocations = u.pieceLocations ∧
        (u3.guessLocations = u.guessLocations ∨
          ∃ x y, u.guessLocations.assign x y = some u3.guessLocations) := by
    intro user guess x y opp u3 hu ha hf
    obtain ⟨u2, h2, hp, hgs⟩ := find_modify_turn _ _ _ _ _ hf
    obtain ⟨u, hr, hp', hg'⟩ := key2 user guess x y u2 hu ha h2
    exact ⟨u, hr, by rw [hp, hp'], by rw [hgs]; exact hg'⟩
  rcases handleMove_users_cases_assign message userID reg with
    h0 | ⟨user, guess, x, y, hu, ha, h0⟩
  · rw [h0] at h
    exact ⟨u', h, rfl, Or.inl rfl⟩
  · rcases h0 with ⟨-, h0⟩ | ⟨-, h0 | h0⟩
    · rw [h0] at h
      exact key2 user guess x y u' hu ha h
    · rw [h0] at h
      exact key3 user guess x y _ u' hu ha h
    · rw [h0] at h
      simp only [find_delete] at h
      split at h
      · exact Option.noConfusion h
      · split at h
        · exact Option.noConfusion h
        · exact key3 user guess x y _ u' hu ha h

theorem Board.assign_tenByTen {b b' : Board} {x y : Int} (hb : TenByTen b)
    (h : b.assign x y = some b') : TenByTen b' := by
  rw [Board.assign_eq_mark h]; exact hb.mark _ _

theorem Board.assign_bound {b b' : Board} {x y : Int} (hb : TenByTen b)
    (h : b.assign x y = some b') :
    TenByTen b' ∧ occupiedCount b' ≤ occupiedCount b + 1 := by
  have hin : 0 ≤ x ∧ x ≤ 9 ∧ 0 ≤ y ∧ y ≤ 9 := by
    by_contra hout
    rw [Board.assign_out_of_range hb hout] at h
    exact Option.noConfusion h
  rw [Board.assign_eq_mark h]
  exact ⟨hb.mark _ _, occupiedCount_mark_le hb (by omega) (by omega)⟩

theorem placeStep_bound (toks : List (List Char)) (st : Board × Bool) (i : Nat)
    (hb : TenByTen st.1) :
    TenByTen (placeStep toks st i).1 ∧
    occupiedCount (placeStep toks st i).1 ≤ occupiedCount st.1 + 1 := by
  unfold placeStep
  split
  · exact ⟨hb, Nat.le_succ _⟩
  · split
    · exact ⟨hb, Nat.le_succ _⟩
    · split
      · exact ⟨hb, Nat.le_succ _⟩
      · split
        · exact ⟨hb, Nat.le_succ _⟩
        · next b' ha => exact Board.assign_bound hb ha

theorem placeFold_bound (toks : List (List Char)) :
    ∀ (is : List Nat) (st : Board × Bool), TenByTen st.1 →
      TenByTen (is.foldl (placeStep toks) st).1 ∧
      occupiedCount (is.foldl (placeStep toks) st).1 ≤ occupiedCount st.1 + is.length := by
  intro is
  induction is with
  | nil => intro st hb; exact ⟨hb, by simp⟩
  | cons i is ih =>
    intro st hb
    obtain ⟨h1, h2⟩ := placeStep_bound toks st i hb
    obtain ⟨h3, h4⟩ := ih (placeStep toks st i) h1
    rw [List.foldl_cons]
    refine ⟨h3, ?_⟩
    rw [List.length_cons]
    omega

theorem occupiedCount_emptyBoard : occupiedCount emptyBoard = 0 := by decide

/-- Entry by entry, what `setUpGame` can have done to the boards, on any frame:
an entry either keeps the boards it had, or is the new one, with an empty guess
board and a 10x10 piece board of at most 17 true cells. -/
theorem setUpGame_boards (message : String) (userID : Int) (conn : Conn) (reg : Registry)
    (k : Int) (u' : connectedUser)
    (h : find (setUpGame message userID conn reg).users k = some u') :
    (∃ u, find reg k = some u ∧ u'.pieceLocations = u.pieceLocations ∧
      u'.guessLocations = u.guessLocations) ∨
    (TenByTen u'.pieceLocations ∧ occupiedCount u'.pieceLocations ≤ 17 ∧
      u'.guessLocations = emptyBoard) := by
  cases hs : (Split message.data ';')[1]? with
  | none =>
    rw [setUpGame_users_of_no_part hs] at h
    exact Or.inl ⟨u', h, rfl, rfl⟩
  | some text =>
    by_cases hk : k = userID
    · right
      subst hk
      have h1 := (linkFold_spec k (keys reg)
        { connection := conn, opponentID := -1,
          gameID := String.mk ((Split message.data ';').headD []),
          pieceLocations := emptyBoard, guessLocations := emptyBoard, turn := false } reg).1
      rw [setUpGame_users hs, find_modify, if_pos rfl, find_store, if_pos rfl] at h
      generalize (keys reg).foldl (linkStep k)
        ({ connection := conn, opponentID := -1,
           gameID := String.mk ((Split message.data ';').headD []),
           pieceLocations := emptyBoard, guessLocations := emptyBoard, turn := false }, reg)
        = linked at h h1
      have hpl : linked.1.pieceLocations = emptyBoard := by rw [h1]
      have hgl : linked.1.guessLocations = emptyBoard := by rw [h1]
      rw [hpl] at h
      obtain ⟨hb1, hb2⟩ := placeFold_bound (Split text ',') (List.range' 0 17 2)
        (emptyBoard, false) TenByTen_emptyBoard
      rw [occupiedCount_emptyBoard, List.length_range'] at hb2
      rw [← Option.some.inj h]
      refine ⟨hb1, ?_, hgl⟩
      dsimp only
      omega
    · left
      rw [setUpGame_find_other hs k hk] at h
      cases hr : find reg k with
      | none => rw [hr] at h; exact Option.noConfusion h
      | some u =>
        rw [hr] at h
        simp only [Option.map_some', Option.some.injEq] at h
        rw [← h]
        refine ⟨u, rfl, ?_, ?_⟩ <;> split <;> rfl

theorem handleMove_keys_nodup (message : String) (userID : Int) (reg : Registry)
    (hnd : (keys reg).Nodup) : (keys (handleMove message userID reg).users).Nodup := by
  rcases handleMove_users_cases message userID reg with h | ⟨user, guess, -, h⟩
  · rw [h]; exact hnd
  · rcases h with ⟨-, h⟩ | ⟨-, h | h⟩
    · rw [h, keys_modify, keys_modify]; exact hnd
    · rw [h, keys_modify, keys_modify, keys_modify]; exact hnd
    · rw [h]
      exact nodup_keys_delete (nodup_keys_delete
        (by rw [keys_modify, keys_modify, keys_modify]; exact hnd) _) _

theorem setUpGame_keys_nodup (message : String) (userID : Int) (conn : Conn) (reg : Registry)
    (hnd : (keys reg).Nodup) (habs : find reg userID = none) :
    (keys (setUpGame message userID conn reg).users).Nodup := by
  cases hs : (Split message.data ';')[1]? with
  | none => rw [setUpGame_users_of_no_part hs]; exact hnd
  | some text =>
    have hnotin : userID ∉ keys reg := by
      intro hmem
      have := (find_isSome_iff_mem_keys reg userID).mpr hmem
      rw [habs] at this; exact Bool.noConfusion this
    rw [setUpGame_keys hs habs]
    exact List.Nodup.append hnd (List.nodup_singleton _) (by simpa using hnotin)

/-- In every reachable registry the keys are distinct, every board is 10x10 and
every piece board has at most 17 true cells. -/
theorem reachableAny_boards {reg : Registry} (h : ReachableAny reg) :
    (keys reg).Nodup ∧
    ∀ k u, find reg k = some u →
      TenByTen u.pieceLocations ∧ TenByTen u.guessLocations ∧
      occupiedCount u.pieceLocations ≤ 17 := by
  induction h with
  | empty => exact ⟨List.nodup_nil, fun k u hu => Option.noConfusion hu⟩
  | @step reg message userID conn _ ih =>
    obtain ⟨hnd, hB⟩ := ih
    unfold playHandlerStep
    cases hf : find reg userID with
    | none =>
      refine ⟨setUpGame_keys_nodup message userID conn reg hnd hf, ?_⟩
      intro k u' hu'
      rcases setUpGame_boards message userID conn reg k u' hu' with
        ⟨u, hu, hp, hg⟩ | ⟨h1, h2, h3⟩
      · rw [hp, hg]; exact hB k u hu
      · rw [h3]; exact ⟨h1, TenByTen_emptyBoard, h2⟩
    | some v =>
      refine ⟨handleMove_keys_nodup message userID reg hnd, ?_⟩
      intro k u' hu'
      obtain ⟨u, hu, hp, hg⟩ := handleMove_boards message userID reg k u' hu'
      obtain ⟨hb1, hb2, hb3⟩ := hB k u hu
      rw [hp]
      refine ⟨hb1, ?_, hb3⟩
      rcases hg with hg | ⟨x, y, hg⟩
      · rw [hg]; exact hb2
      · exact Board.assign_tenByTen hb2 hg
  | @reorder reg reg' _ hperm ih =>
    obtain ⟨hnd, hB⟩ := ih
    refine ⟨(hperm.map Prod.fst).nodup_iff.mp hnd, ?_⟩
    intro k u hu
    rw [find_perm hnd hperm] at hu
    exact hB k u hu

theorem reachableAny_pairedUsers : ReachableAny pairedUsers := by
  have h1 := ReachableAny.step (setupFrame "g1" sampleCoords) 1 100 ReachableAny.empty
  have h2 := ReachableAny.step (setupFrame "g1" sampleCoords) 2 200 h1
  have heq : (playHandlerStep (setupFrame "g1" sampleCoords) 2 200
      (playHandlerStep (setupFrame "g1" sampleCoords) 1 100 []).users).users = pairedUsers := by
    decide
  rw [heq] at h2
  exact h2

/-- C20: in every registry reachable from the empty one by `setUpGame` and
`handleMove` steps, for a defender entry `d` and an attacker entry `a`: the
placement board of `d` has at most 17 true cells; the number of cells both
guessed by `a` and occupied by `d` is at most 17; `gameOver` on `a`'s guess
board and `d`'s placement board returns true if and only if `d`'s placement
board has exactly 17 true cells and each of them is true in `a`'s guess board;
and when `d`'s placement board has fewer than 17 true cells `gameOver` returns
false. -/
theorem gameOver_not_overshot (reg : Registry) (h : ReachableAny reg) (kd ka : Int)
    (d a : connectedUser) (hd : find reg kd = some d) (ha : find reg ka = some a) :
    occupiedCount d.pieceLocations ≤ 17 ∧
    bothCount a.guessLocations d.pieceLocations ≤ 17 ∧
    (gameOver a.guessLocations d.pieceLocations = some true ↔
      occupiedCount d.pieceLocations = 17 ∧
        ∀ i j, i < 10 → j < 10 → cellAt d.pieceLocations i j = true →
          cellAt a.guessLocations i j = true) ∧
    (occupiedCount d.pieceLocations < 17 →
      gameOver a.guessLocations d.pieceLocations = some false) := by
  obtain ⟨-, hB⟩ := reachableAny_boards h
  obtain ⟨hdp, -, hd17⟩ := hB kd d hd
  obtain ⟨-, hag, -⟩ := hB ka a ha
  have hle := bothCount_le_occupiedCount a.guessLocations d.pieceLocations
  have hiff := bothCount_eq_seventeen_iff a.guessLocations d.pieceLocations hd17
  rw [gameOver_eq _ _ hag hdp]
  refine ⟨hd17, by omega, ?_, ?_⟩
  · rw [← hiff]
    simp
  · intro hlt
    have : bothCount a.guessLocations d.pieceLocations ≠ 17 := by omega
    simp [this]

theorem gameOver_not_overshot_witness :
    occupiedCount secondPlayer.pieceLocations ≤ 17 ∧
    bothCount firstPlayer.guessLocations secondPlayer.pieceLocations ≤ 17 ∧
    (gameOver firstPlayer.guessLocations secondPlayer.pieceLocations = some true ↔
      occupiedCount secondPlayer.pieceLocations = 17 ∧
        ∀ i j, i < 10 → j < 10 → cellAt secondPlayer.pieceLocations i j = true →
          cellAt firstPlayer.guessLocations i j = true) ∧
    (occupiedCount secondPlayer.pieceLocations < 17 →
      gameOver firstPlayer.guessLocations secondPlayer.pieceLocations = some false) :=
  gameOver_not_overshot pairedUsers reachableAny_pairedUsers 2 1 secondPlayer firstPlayer
    (by decide) (by decide)

end Battleships
